import Mathlib

/-! AsyncDuplex: command queue and dispatch loop

A shallow embedding of `src/src/AsyncDuplex.cpp` (with the constants of
`src/AsyncDuplex.h`).

Conventions of the embedding.

* A `char` is a natural number (its code), a C string is the list of its
  non-NUL bytes.  The `command` and `expectation` arrays of a queue slot are
  only ever accessed through `strcpy`, `println` and the matcher, so a slot
  is represented by the C strings it holds.
* `commandQueue` is the list of its `COMMAND_QUEUE_SIZE` slots, including the
  slots at and after `queueLength` (their stale content is visible to
  `shiftRight` and `shiftLeft`).  `inputBuffer` is the list of its
  `INPUT_BUFFER_LENGTH` bytes.
* An access outside an array, and a `strcpy` of a string that does not fit
  its destination, is undefined behaviour in C++; the embedding stops there
  with a `Fault` that names the array and the index.  Reaching the end of a
  function declared `bool` without a `return` statement is undefined
  behaviour as well; the embedding stops there with `Fault.missingReturn`.
* `std::function` values are data: `Success.null` is the empty function,
  `Success.user id` a callable supplied by the caller, `Success.chain` the
  lambda built by `createChain`.  Invoking a caller-supplied callable appends
  an event to the ghost field `trace`; `stream->println` does the same.
* `millis()` is the argument `millis` of each operation (one reading for
  one call), the bytes that `stream` delivers during one call of `loop` are
  the argument `rx`, and the pattern matcher (`MatchState::Match` of the
  Regexp library) is the argument `matcher`.
* The header under `src/` predates the `.cpp` file: it has the four
  constants, but not the members `began` and `timeout`, the struct `Command`
  or the default arguments.  The member `timeout` is taken to hold the
  `unsigned long` value `millis() + commandQueue[0].timeout` (32 bits).
* Theorems on the arrays assume that `commandQueue` has
  `COMMAND_QUEUE_SIZE` slots and `inputBuffer` has `INPUT_BUFFER_LENGTH`
  bytes, as declared.
-/

namespace AsyncDuplex

/-- The number of slots of `commandQueue` (`#define COMMAND_QUEUE_SIZE 10`). -/
def COMMAND_QUEUE_SIZE : Nat := 10

/-- The size of `inputBuffer` (`#define INPUT_BUFFER_LENGTH 512`). -/
def INPUT_BUFFER_LENGTH : Nat := 512

/-- The size of the `command` array of a slot (`#define MAX_COMMAND_LENGTH 128`). -/
def MAX_COMMAND_LENGTH : Nat := 128

/-- The size of the `expectation` array of a slot. -/
def MAX_EXPECTATION_LENGTH : Nat := 128

/-- The enum `Timing` (`AsyncTiming` in the header): `NEXT` inserts at the
head, `ANY` appends. -/
inductive Timing where
  | NEXT
  | ANY
deriving DecidableEq, Repr

/-- The part of the Regexp library's `MatchState` that the dispatcher reads
after a successful `Match`. -/
structure MatchState where
  MatchStart : Nat
  MatchLength : Nat
deriving DecidableEq, Repr

/-- A value of `std::function<void(MatchState)>`.  `chain` is the lambda of
`createChain`: it captures `originalSuccess` and the command `chained`
(fields `command`, `expectation`, `success`, `failure`, `timeout`, `delay`). -/
inductive Success where
  | null : Success
  | user (id : Nat) : Success
  | chain (originalSuccess : Success) (command expectation : List Nat)
      (success : Success) (failure : Option Nat) (timeout delay : Nat) : Success
deriving DecidableEq, Repr

/-- The struct `AsyncDuplex::Command`.  `failure` is a
`std::function<void()>`: `none` is the empty function, `some id` a callable
supplied by the caller. -/
structure Command where
  command : List Nat
  expectation : List Nat
  success : Success
  failure : Option Nat
  timeout : Nat
  delay : Nat
deriving DecidableEq, Repr

/-- The effects the dispatcher has on its environment, in the order they
happen. -/
inductive Event where
  | success (id : Nat) (ms : MatchState) : Event
  | failure (id : Nat) : Event
  | println (text : List Nat) : Event
deriving DecidableEq, Repr

/-- Undefined behaviour reached by the code: an index outside
`commandQueue` or `inputBuffer`, a `strcpy` of a string of the given
length into the `command` or `expectation` array of a slot, or the end of a
function declared `bool` reached without a `return` statement. -/
inductive Fault where
  | commandQueue (index : Nat) : Fault
  | inputBuffer (index : Nat) : Fault
  | command (length : Nat) : Fault
  | expectation (length : Nat) : Fault
  | missingReturn : Fault
deriving DecidableEq, Repr

end AsyncDuplex

/-- The member variables of the class `AsyncDuplex`, and the ghost field
`trace`. -/
structure AsyncDuplex where
  commandQueue : List AsyncDuplex.Command
  inputBuffer : List Nat
  bufferPos : Nat
  processing : Bool
  began : Bool
  timeout : Nat
  queueLength : Nat
  trace : List AsyncDuplex.Event
deriving DecidableEq, Repr

deriving instance DecidableEq for Except

namespace AsyncDuplex

/-- The modulus of `uint8_t` (`queueLength`, `position`). -/
def UINT8 : Nat := 256

/-- The modulus of `uint16_t` (`bufferPos`, `offset`, `count`). -/
def UINT16 : Nat := 65536

/-- The modulus of `uint32_t` (`delay`, and the value of `millis()`). -/
def UINT32 : Nat := 4294967296

/-- Conversion of an `int` to `int8_t`. -/
def toInt8 (x : Int) : Int := (x + 128) % 256 - 128

/-- Conversion of an `int` to `int16_t`. -/
def toInt16 (x : Int) : Int := (x + 32768) % 65536 - 32768

/-- Reading `commandQueue[i]`. -/
def readSlot (q : List Command) (i : Nat) : Except Fault Command :=
  match q[i]? with
  | some c => .ok c
  | none => .error (.commandQueue i)

/-- Writing `commandQueue[i]`. -/
def writeSlot (q : List Command) (i : Nat) (c : Command) : Except Fault (List Command) :=
  if i < q.length then .ok (q.set i c) else .error (.commandQueue i)

/-- The function `copyCommand(dest, src)`: the value of `*dest` afterwards.
Every field is overwritten (the strings of a `Command` fit the arrays of a
`Command`). -/
def copyCommand (_dest src : Command) : Command :=
  { command := src.command, expectation := src.expectation, success := src.success,
    failure := src.failure, timeout := src.timeout, delay := src.delay }

/-- The loop of `shiftRight`, `k` iterations from index `i` on:
`copyCommand(&commandQueue[i+1], &commandQueue[i])` for increasing `i`. -/
def shiftRightLoop : Nat → Nat → List Command → Except Fault (List Command)
  | 0, _, q => .ok q
  | k + 1, i, q =>
    match readSlot q (i + 1) with
    | .error e => .error e
    | .ok dest =>
      match readSlot q i with
      | .error e => .error e
      | .ok src =>
        match writeSlot q (i + 1) (copyCommand dest src) with
        | .error e => .error e
        | .ok q1 => shiftRightLoop k (i + 1) q1

/-- The function `shiftRight`.  The loop runs for `i = 0, 1, ...` while
`i < queueLength - 1`, that is `queueLength - 1` times (no time when
`queueLength` is 0 or 1); it leaves the array at `i + 1 = COMMAND_QUEUE_SIZE`
before the `int8_t` counter could wrap.  Then `queueLength++`. -/
def shiftRight (s : AsyncDuplex) : Except Fault AsyncDuplex :=
  match shiftRightLoop (s.queueLength - 1) 0 s.commandQueue with
  | .error e => .error e
  | .ok q => .ok { s with commandQueue := q, queueLength := (s.queueLength + 1) % UINT8 }

/-- The loop of `shiftLeft`, from index `i` down to 1:
`copyCommand(&commandQueue[i-1], &commandQueue[i])` for decreasing `i`. -/
def shiftLeftLoop : Nat → List Command → Except Fault (List Command)
  | 0, q => .ok q
  | i + 1, q =>
    match readSlot q i with
    | .error e => .error e
    | .ok dest =>
      match readSlot q (i + 1) with
      | .error e => .error e
      | .ok src =>
        match writeSlot q i (copyCommand dest src) with
        | .error e => .error e
        | .ok q1 => shiftLeftLoop i q1

/-- The function `shiftLeft`.  The counter starts at
`(int8_t)(queueLength - 1)` and the loop runs while `i > 0` (no time when the
start is negative).  Then `queueLength--`. -/
def shiftLeft (s : AsyncDuplex) : Except Fault AsyncDuplex :=
  match shiftLeftLoop (toInt8 ((s.queueLength : Int) - 1)).toNat s.commandQueue with
  | .error e => .error e
  | .ok q =>
    .ok { s with commandQueue := q, queueLength := (s.queueLength + (UINT8 - 1)) % UINT8 }

/-- The function `asyncExecute(_command, _expectation, _timing, _success,
_failure, _timeout, _delay)`, the result being the returned `bool` and the
new state.  The two `strcpy` calls need the strings and their terminators to
fit the arrays of the slot. -/
def asyncExecute (s : AsyncDuplex) (millis : Nat) (_command _expectation : List Nat)
    (_timing : Timing) (_success : Success) (_failure : Option Nat)
    (_timeout _delay : Nat) : Except Fault (Bool × AsyncDuplex) :=
  let placed : Except Fault (Nat × AsyncDuplex) :=
    if _timing = Timing.ANY then
      .ok (s.queueLength, { s with queueLength := (s.queueLength + 1) % UINT8 })
    else
      match shiftRight s with
      | .error e => .error e
      | .ok s1 => .ok (0, s1)
  match placed with
  | .error e => .error e
  | .ok (position, s1) =>
    if ¬ position < s1.commandQueue.length then .error (.commandQueue position)
    else if ¬ _command.length < MAX_COMMAND_LENGTH then .error (.command _command.length)
    else if ¬ _expectation.length < MAX_EXPECTATION_LENGTH then
      .error (.expectation _expectation.length)
    else
      let slot : Command :=
        { command := _command, expectation := _expectation, success := _success,
          failure := _failure, timeout := _timeout, delay := (_delay + millis) % UINT32 }
      .ok (true, { s1 with commandQueue := s1.commandQueue.set position slot })

/-- Modelled from the spec: the default argument of the parameter `_delay` of
`asyncExecute`, whose declaration is not in the header under `src/`
(`delayMs=0` in the caller-facing API of the spec). -/
def defaultDelay : Nat := 0

/-- The overload `asyncExecute(const Command* cmd, Timing _timing)`: the
fields of `cmd` are passed on, except `delay`, for which the default
argument is taken. -/
def asyncExecuteCommand (s : AsyncDuplex) (millis : Nat) (cmd : Command)
    (_timing : Timing) : Except Fault (Bool × AsyncDuplex) :=
  asyncExecute s millis cmd.command cmd.expectation _timing cmd.success cmd.failure
    cmd.timeout defaultDelay

/-- The function `createChain(dest, toChain)`: the value of `*dest`
afterwards.  Its `success` is the lambda that captures the former
`dest->success` and a copy of `*toChain`. -/
def createChain (dest toChain : Command) : Command :=
  let chained := copyCommand toChain toChain
  let fn := Success.chain dest.success chained.command chained.expectation
    chained.success chained.failure chained.timeout chained.delay
  { dest with success := fn }

/-- The loop of `asyncExecuteChain` for the indices `i = k - 1, ..., 0`, on
the locals `scratch` and `chain`; the result is the final `chain`. -/
def chainLoop (cmdArray : Nat → Command) : Nat → Command → Command → Command
  | 0, _, chain => chain
  | i + 1, scratch, chain =>
    let scratch1 := copyCommand scratch (cmdArray i)
    let scratch2 := createChain scratch1 chain
    let chain1 := copyCommand chain scratch2
    chainLoop cmdArray i scratch2 chain1

/-- The statements of `asyncExecuteChain` that follow the guard `count < 2`:
the loop over the array and the call `asyncExecute(&chain, _timing)`, whose
returned value is discarded.  `cmdArray` is a pointer, indexed here as a
function; `scratch` is the content of the default-constructed local,
overwritten before it is read.  The counter starts at `(int16_t)(count - 2)`
and the loop runs while `i >= 0`. -/
def enqueueChain (s : AsyncDuplex) (millis : Nat) (cmdArray : Nat → Command)
    (count : Nat) (_timing : Timing) (scratch : Command) : Except Fault AsyncDuplex :=
  let chain := chainLoop cmdArray (toInt16 ((count : Int) - 2) + 1).toNat scratch
    (cmdArray (count - 1))
  match asyncExecuteCommand s millis chain _timing with
  | .error e => .error e
  | .ok r => .ok r.2

/-- The function `asyncExecuteChain(cmdArray, count, _timing)`, declared
`bool`.  Its only `return` statement is the `return false` of the guard
`count < 2`; after the enqueue the control reaches the closing brace of the
function without a `return` statement, which is undefined behaviour. -/
def asyncExecuteChain (s : AsyncDuplex) (millis : Nat) (cmdArray : Nat → Command)
    (count : Nat) (_timing : Timing) (scratch : Command) :
    Except Fault (Bool × AsyncDuplex) :=
  if count < 2 then .ok (false, s)
  else
    match enqueueChain s millis cmdArray count _timing scratch with
    | .error e => .error e
    | .ok _ => .error Fault.missingReturn

/-- A call `fn(ms)` of a `std::function<void(MatchState)>`.  Every call in
the source is guarded by `if(fn)`, so the clause of the empty function is
not reached.  A callable of the caller is recorded in the trace.  The lambda
of `createChain` calls `originalSuccess(ms)` when it is not empty and then
`asyncExecute(&chained, Timing::NEXT)`. -/
def invoke : Success → MatchState → Nat → AsyncDuplex → Except Fault AsyncDuplex
  | .null, _, _, s => .ok s
  | .user id, ms, _, s => .ok { s with trace := s.trace ++ [Event.success id ms] }
  | .chain originalSuccess command expectation success failure timeout delay, ms, millis, s =>
    match (if originalSuccess ≠ Success.null then invoke originalSuccess ms millis s
           else .ok s) with
    | .error e => .error e
    | .ok s1 =>
      let chained : Command :=
        { command := command, expectation := expectation, success := success,
          failure := failure, timeout := timeout, delay := delay }
      match asyncExecuteCommand s1 millis chained Timing.NEXT with
      | .error e => .error e
      | .ok r => .ok r.2

/-- The C string held by a buffer: the bytes before the first NUL. -/
def cString (buf : List Nat) : List Nat := buf.takeWhile (fun b => b != 0)

/-- The pattern matcher, `ms.Target(buffer); ms.Match(pattern)`: the target
C string and the pattern give the match, if there is one. -/
abbrev Matcher := List Nat → List Nat → Option MatchState

/-- The timeout branch of `loop` (the `if` before the `while`). -/
def timeoutStep (s : AsyncDuplex) (millis : Nat) : Except Fault AsyncDuplex :=
  if s.processing = true ∧ s.timeout < millis then
    match readSlot s.commandQueue 0 with
    | .error e => .error e
    | .ok head =>
      let s1 : AsyncDuplex :=
        match head.failure with
        | some id => { s with trace := s.trace ++ [Event.failure id] }
        | none => s
      match shiftLeft s1 with
      | .error e => .error e
      | .ok s2 => .ok { s2 with inputBuffer := s2.inputBuffer.set 0 0, processing := false }
  else .ok s

/-- The two statements at the top of the `while` body:
`inputBuffer[bufferPos++] = stream->read(); inputBuffer[bufferPos] = 0`. -/
def receive (s : AsyncDuplex) (b : Nat) : Except Fault AsyncDuplex :=
  if ¬ s.bufferPos < s.inputBuffer.length then .error (.inputBuffer s.bufferPos)
  else
    let buf1 := s.inputBuffer.set s.bufferPos b
    let pos1 := (s.bufferPos + 1) % UINT16
    if ¬ pos1 < buf1.length then .error (.inputBuffer pos1)
    else .ok { s with inputBuffer := buf1.set pos1 0, bufferPos := pos1 }

/-- The copy loop after a match, `k` iterations from index `i` on, on
`inputBuffer` and `bufferPos`. -/
def compactLoop (offset : Nat) : Nat → Nat → List Nat → Nat → List Nat × Nat
  | 0, _, buf, pos => (buf, pos)
  | k + 1, i, buf, _ =>
    let buf1 := buf.set (i - offset) (buf.getD i 0)
    if buf1.getD i 0 = 0 then (buf1, i - offset)
    else compactLoop offset k (i + 1) buf1 (i - offset)

/-- The lines after `fn(ms)` in the match branch: `offset` is a `uint16_t`,
the loop runs from `i = offset` while `i < INPUT_BUFFER_LENGTH`. -/
def compact (s : AsyncDuplex) (ms : MatchState) : AsyncDuplex :=
  let offset := (ms.MatchStart + ms.MatchLength) % UINT16
  let r := compactLoop offset (INPUT_BUFFER_LENGTH - offset) offset s.inputBuffer s.bufferPos
  { s with inputBuffer := r.1, bufferPos := r.2 }

/-- The match branch of `loop` (the body of `if(result)`). -/
def matched (s : AsyncDuplex) (millis : Nat) (ms : MatchState) : Except Fault AsyncDuplex :=
  let s0 : AsyncDuplex := { s with processing := false }
  match readSlot s0.commandQueue 0 with
  | .error e => .error e
  | .ok head =>
    let fn := head.success
    match shiftLeft s0 with
    | .error e => .error e
    | .ok s1 =>
      match (if fn ≠ Success.null then invoke fn ms millis s1 else .ok s1) with
      | .error e => .error e
      | .ok s2 => .ok (compact s2 ms)

/-- The `while(stream->available())` loop of `loop`, on the bytes `rx` that
the stream delivers. -/
def drain (matcher : Matcher) (millis : Nat) : AsyncDuplex → List Nat → Except Fault AsyncDuplex
  | s, [] => .ok s
  | s, b :: rest =>
    match receive s b with
    | .error e => .error e
    | .ok s1 =>
      if s1.processing = true then
        match readSlot s1.commandQueue 0 with
        | .error e => .error e
        | .ok head =>
          match matcher (cString s1.inputBuffer) head.expectation with
          | none => drain matcher millis s1 rest
          | some ms =>
            match matched s1 millis ms with
            | .error e => .error e
            | .ok s2 => drain matcher millis s2 rest
      else drain matcher millis s1 rest

/-- The last `if` of `loop`: the head command is started.  The sum
`millis() + commandQueue[0].timeout` is an `unsigned long`. -/
def startNext (s : AsyncDuplex) (millis : Nat) : Except Fault AsyncDuplex :=
  match readSlot s.commandQueue 0 with
  | .error e => .error e
  | .ok head =>
    if s.processing = false ∧ s.queueLength > 0 ∧ head.delay ≤ millis then
      .ok { s with trace := s.trace ++ [Event.println head.command], processing := true,
                   timeout := (millis + head.timeout) % UINT32 }
    else .ok s

/-- The function `loop`. -/
def loop (matcher : Matcher) (s : AsyncDuplex) (millis : Nat) (rx : List Nat) :
    Except Fault AsyncDuplex :=
  if s.began = false then .ok s
  else
    match timeoutStep s millis with
    | .error e => .error e
    | .ok s1 =>
      match drain matcher millis s1 rx with
      | .error e => .error e
      | .ok s2 => startNext s2 millis

/-- The function `getQueueLength`. -/
def getQueueLength (s : AsyncDuplex) : Nat := s.queueLength

/-- A default-constructed `Command` in zero-initialised storage: empty
strings, empty functions. -/
def emptyCommand : Command :=
  { command := [], expectation := [], success := Success.null, failure := none,
    timeout := 0, delay := 0 }

/-- A dispatcher after its constructor and `begin(stream)`: the member
initialisers of the header, `began = true`, zero-initialised arrays. -/
def fresh : AsyncDuplex :=
  { commandQueue := List.replicate COMMAND_QUEUE_SIZE emptyCommand,
    inputBuffer := List.replicate INPUT_BUFFER_LENGTH 0,
    bufferPos := 0, processing := false, began := true, timeout := 0,
    queueLength := 0, trace := [] }

/-- The commands held by the queue: the slots before `queueLength`. -/
def queue (s : AsyncDuplex) : List Command := s.commandQueue.take s.queueLength

/-- A matcher that never reports a match. -/
def noMatch : Matcher := fun _ _ => none

/-- A matcher for patterns without magic characters: the first occurrence of
the pattern in the target, with the length of the pattern. -/
def literal : Matcher := fun target pattern =>
  (List.range (target.length + 1)).findSome? fun k =>
    if pattern.isPrefixOf (target.drop k) then
      some { MatchStart := k, MatchLength := pattern.length }
    else none

/-- The calls `asyncExecute(cmd, Timing::ANY)` for the commands of a list, in
order. -/
def appendAll : AsyncDuplex → Nat → List Command → Except Fault AsyncDuplex
  | s, _, [] => .ok s
  | s, millis, c :: cs =>
    match asyncExecuteCommand s millis c Timing.ANY with
    | .error e => .error e
    | .ok r => appendAll r.2 millis cs

/-- A command with a one-byte text, the expectation `OK`, callables `id` and
a timeout of 1000 ms. -/
def sample (text id : Nat) : Command :=
  { command := [text], expectation := [79, 75], success := Success.user id, failure := some id,
    timeout := 1000, delay := 0 }

/-- The bytes `rx` stored in the scan buffer one after the other, without
any matching: the first two statements of the `while` body for each byte. -/
def receiveAll : AsyncDuplex → List Nat → Except Fault AsyncDuplex
  | s, [] => .ok s
  | s, b :: rest =>
    match receive s b with
    | .error e => .error e
    | .ok s1 => receiveAll s1 rest

/-- The events of the callables of the caller that one call `fn(ms)` calls. -/
def calls : Success → MatchState → List Event
  | .null, _ => []
  | .user id, ms => [Event.success id ms]
  | .chain originalSuccess _ _ _ _ _ _, ms => calls originalSuccess ms

/-- The number of commands that one call `fn(ms)` enqueues. -/
def enqueues : Success → Nat
  | .null => 0
  | .user _ => 0
  | .chain originalSuccess _ _ _ _ _ _ => enqueues originalSuccess + 1

/-- The strings of the commands captured by the lambdas that a call of `fn`
runs fit the arrays of a `Command` (in C++ they are held in such arrays). -/
def fits : Success → Bool
  | .null => true
  | .user _ => true
  | .chain originalSuccess command expectation _ _ _ _ =>
    fits originalSuccess && decide (command.length < MAX_COMMAND_LENGTH)
      && decide (expectation.length < MAX_EXPECTATION_LENGTH)

/-- The command of the scenarios of the spec: text `AT`, expectation `OK`,
callables 1, timeout 1000 ms, no delay. -/
def cmdAT : Command :=
  { command := [65, 84], expectation := [79, 75], success := Success.user 1, failure := some 1,
    timeout := 1000, delay := 0 }

/-- The dispatcher after `cmdAT` was enqueued on a fresh dispatcher at time 0
and started by `loop` at time 0. -/
def atInFlight : AsyncDuplex :=
  { fresh with
    commandQueue := fresh.commandQueue.set 0 cmdAT, queueLength := 1, processing := true,
    timeout := 1000, trace := [Event.println [65, 84]] }

/-- The composite command of the chain builder, in the words of the spec: the
first command of the list, whose `success` calls the original `success` and
then enqueues the composite of the rest; the last command alone when one
command remains. -/
def composite : List Command → Command
  | [] => emptyCommand
  | [c] => c
  | c :: next :: rest =>
    let successor := composite (next :: rest)
    let fn := Success.chain c.success successor.command successor.expectation
      successor.success successor.failure successor.timeout successor.delay
    { c with success := fn }

/-- The array of the two commands `A` and `B`, `A` at the even and `B` at
the odd indices. -/
def alternating (i : Nat) : Command :=
  if i % 2 = 0 then sample 65 1 else sample 66 2

/-- A sequence of `loop` invocations: each poll is the value of `millis()`
and the bytes that the stream delivers during the invocation. -/
def run (matcher : Matcher) : AsyncDuplex → List (Nat × List Nat) → Except Fault AsyncDuplex
  | s, [] => .ok s
  | s, poll :: rest =>
    match loop matcher s poll.1 poll.2 with
    | .error e => .error e
    | .ok s1 => run matcher s1 rest

/-- The bytes delivered during a sequence of polls, in their order. -/
def stream : List (Nat × List Nat) → List Nat
  | [] => []
  | poll :: rest => poll.2 ++ stream rest

/-- The number of bytes delivered during a sequence of polls. -/
def totalBytes : List (Nat × List Nat) → Nat
  | [] => 0
  | poll :: rest => poll.2.length + totalBytes rest

/-- The events of a call of a `failure` callable guarded by `if(fn)`. -/
def failureEvents : Option Nat → List Event
  | some id => [Event.failure id]
  | none => []

/-- The dispatcher `s1` is `s` with `n` more bytes stored in the scan buffer:
the queue, the dispatch state and the trace are the same. -/
def Stored (s s1 : AsyncDuplex) (n : Nat) : Prop :=
  s1.commandQueue = s.commandQueue ∧ s1.queueLength = s.queueLength
    ∧ s1.processing = s.processing ∧ s1.began = s.began ∧ s1.timeout = s.timeout
    ∧ s1.trace = s.trace ∧ s1.inputBuffer.length = s.inputBuffer.length
    ∧ s1.bufferPos = s.bufferPos + n

/-- The dispatcher with `cmdAT` queued and not started. -/
def atQueued : AsyncDuplex :=
  { fresh with commandQueue := fresh.commandQueue.set 0 cmdAT, queueLength := 1 }

/-- The dispatcher `atQueued` with the byte `x` stored in the scan buffer. -/
def atQueuedByte : AsyncDuplex :=
  { atQueued with inputBuffer := [120] ++ List.replicate 511 0, bufferPos := 1 }

/-- The array of the three commands `A`, `B`, `C` (texts 65, 66, 67). -/
def threeCommands (i : Nat) : Command :=
  if i = 0 then sample 65 1 else if i = 1 then sample 66 2 else sample 67 3

/-- A fresh dispatcher whose scan buffer starts with the given bytes, followed
by NUL bytes, with the given write position. -/
def freshWith (bytes : List Nat) (pos : Nat) : AsyncDuplex :=
  { fresh with
    inputBuffer := bytes ++ List.replicate (INPUT_BUFFER_LENGTH - bytes.length) 0,
    bufferPos := pos }

/-- The command `head` is in flight since the time `start`: `processing` is
set, `head` is in slot 0, its text is the last thing written (and nothing was
called since), and the deadline is `start` plus its own timeout. -/
def InFlight (s : AsyncDuplex) (head : Command) (start : Nat) : Prop :=
  s.processing = true ∧ s.commandQueue[0]? = some head
    ∧ s.trace.getLast? = some (Event.println head.command)
    ∧ s.timeout = (start + head.timeout) % UINT32

/-! ## The queue: `shiftRight`, `shiftLeft` and `asyncExecute` -/

theorem readSlot_of_getElem? {q : List Command} {i : Nat} {c : Command}
    (h : q[i]? = some c) : readSlot q i = .ok c := by
  simp [readSlot, h]

theorem writeSlot_of_lt {q : List Command} {i : Nat} (c : Command) (h : i < q.length) :
    writeSlot q i c = .ok (q.set i c) := by
  simp [writeSlot, h]

theorem copyCommand_eq (dest src : Command) : copyCommand dest src = src := rfl

/-- The loop of `shiftLeft` started at `i` overwrites the slots `0..i` with
the content of slot `i`. -/
theorem shiftLeftLoop_eq (i : Nat) : ∀ (q : List Command) (c : Command),
    q[i]? = some c →
    shiftLeftLoop i q = .ok (List.replicate (i + 1) c ++ q.drop (i + 1)) := by
  induction i with
  | zero =>
    intro q c h
    cases q with
    | nil => simp at h
    | cons a t =>
      simp at h
      simp [shiftLeftLoop, h]
  | succ i ih =>
    intro q c h
    have hlt : i + 1 < q.length := by
      rcases Nat.lt_or_ge (i + 1) q.length with h1 | h1
      · exact h1
      · rw [List.getElem?_eq_none h1] at h; cases h
    have hi : q[i]? = some q[i] := List.getElem?_eq_getElem (by omega)
    have hset : (q.set i c)[i]? = some c := by
      simp [List.getElem?_set]; omega
    rw [shiftLeftLoop, readSlot_of_getElem? hi, readSlot_of_getElem? h]
    simp only [copyCommand_eq]
    rw [writeSlot_of_lt c (by omega)]
    simp only []
    rw [ih (q.set i c) c hset]
    congr 1
    have hd : (q.set i c).drop (i + 1) = q.drop (i + 1) := by
      rw [List.drop_set]; simp
    rw [hd]
    have hq : q.drop (i + 1) = c :: q.drop (i + 1 + 1) := by
      rw [List.drop_eq_getElem_cons hlt]
      congr 1
      rw [List.getElem?_eq_getElem hlt] at h
      exact Option.some.inj h
    rw [hq, List.replicate_succ' (i + 1), List.append_assoc]
    rfl

theorem take_succ_of_getElem? {α : Type} (q : List α) (i : Nat) (c : α) (h : q[i]? = some c) :
    q.take (i + 1) = q.take i ++ [c] := by
  rw [List.take_succ, h]; rfl

theorem take_set_self {α : Type} (q : List α) (i : Nat) (c : α) :
    (q.set i c).take i = q.take i := by
  rw [List.set_take, List.set_eq_of_length_le]
  simp [List.length_take]

/-- The loop of `shiftRight` run `k` times from `i` overwrites the slots
`i+1..i+k` with the content of slot `i`. -/
theorem shiftRightLoop_eq (k : Nat) : ∀ (i : Nat) (q : List Command) (c : Command),
    q[i]? = some c → i + k < q.length →
    shiftRightLoop k i q = .ok (q.take i ++ List.replicate (k + 1) c ++ q.drop (i + k + 1)) := by
  induction k with
  | zero =>
    intro i q c h hlt
    have hi : i < q.length := by omega
    simp only [shiftRightLoop, Nat.add_zero, Nat.zero_add, List.replicate_one]
    rw [← take_succ_of_getElem? q i c h, List.take_append_drop]
  | succ k ih =>
    intro i q c h hlt
    have hi1 : q[i + 1]? = some q[i + 1] := List.getElem?_eq_getElem (by omega)
    have hset : (q.set (i + 1) c)[i + 1]? = some c := by
      simp [List.getElem?_set]; omega
    rw [shiftRightLoop, readSlot_of_getElem? hi1, readSlot_of_getElem? h]
    simp only [copyCommand_eq]
    rw [writeSlot_of_lt c (by omega)]
    simp only []
    rw [ih (i + 1) (q.set (i + 1) c) c hset (by simp; omega)]
    congr 1
    have ht : (q.set (i + 1) c).take (i + 1) = q.take i ++ [c] := by
      rw [take_set_self, take_succ_of_getElem? q i c h]
    have hd : (q.set (i + 1) c).drop (i + 1 + k + 1) = q.drop (i + (k + 1) + 1) := by
      rw [List.drop_set_of_lt c q (by omega)]
      congr 1; omega
    rw [ht, hd, List.replicate_succ (n := k + 1)]
    simp

theorem toInt8_pred (n : Nat) (h1 : 1 ≤ n) (h2 : n ≤ 128) :
    (toInt8 ((n : Int) - 1)).toNat = n - 1 := by
  unfold toInt8; omega

/-- The function `shiftLeft` on a queue of `1..COMMAND_QUEUE_SIZE` commands:
the slots before `queueLength` all receive the content of the last command,
and `queueLength` decreases by one. -/
theorem shiftLeft_eq (s : AsyncDuplex) (c : Command)
    (h1 : 1 ≤ s.queueLength) (h2 : s.queueLength ≤ COMMAND_QUEUE_SIZE)
    (hc : s.commandQueue[s.queueLength - 1]? = some c) :
    shiftLeft s = .ok { s with
      commandQueue := List.replicate s.queueLength c ++ s.commandQueue.drop s.queueLength,
      queueLength := s.queueLength - 1 } := by
  have h3 : s.queueLength ≤ 128 := by unfold COMMAND_QUEUE_SIZE at h2; omega
  have h4 : (s.queueLength + (UINT8 - 1)) % UINT8 = s.queueLength - 1 := by
    unfold UINT8; omega
  have h5 : s.queueLength - 1 + 1 = s.queueLength := by omega
  unfold shiftLeft
  rw [toInt8_pred _ h1 h3, shiftLeftLoop_eq _ _ c hc, h4, h5]

/-- The function `shiftRight` on a queue of at most `COMMAND_QUEUE_SIZE`
commands: the slots `1..queueLength-1` all receive the content of slot 0, the
slot `queueLength` keeps its stale content, and `queueLength` increases by
one. -/
theorem shiftRight_eq (s : AsyncDuplex) (c : Command)
    (hq : s.commandQueue.length = COMMAND_QUEUE_SIZE)
    (h2 : s.queueLength ≤ COMMAND_QUEUE_SIZE)
    (hc : s.commandQueue[0]? = some c) :
    shiftRight s = .ok { s with
      commandQueue := List.replicate (s.queueLength - 1 + 1) c
        ++ s.commandQueue.drop (s.queueLength - 1 + 1),
      queueLength := s.queueLength + 1 } := by
  have h4 : (s.queueLength + 1) % UINT8 = s.queueLength + 1 := by
    unfold COMMAND_QUEUE_SIZE at h2; unfold UINT8; omega
  have h5 : 0 + (s.queueLength - 1) < s.commandQueue.length := by
    rw [hq]; unfold COMMAND_QUEUE_SIZE at *; omega
  unfold shiftRight
  rw [shiftRightLoop_eq _ 0 _ c hc h5, h4]
  simp

theorem head_exists (s : AsyncDuplex) (hq : s.commandQueue.length = COMMAND_QUEUE_SIZE) :
    ∃ c, s.commandQueue[0]? = some c := by
  cases hs : s.commandQueue with
  | nil => rw [hs] at hq; simp [COMMAND_QUEUE_SIZE] at hq
  | cons a t => exact ⟨a, by simp⟩

/-- What `asyncExecute` with `Timing::NEXT` stores: slot 0 receives the new
command, the slots `1..queueLength-1` hold the former head. -/
theorem asyncExecute_NEXT_eq (s : AsyncDuplex) (millis : Nat) (cmd exp : List Nat)
    (su : Success) (fa : Option Nat) (tmo dly : Nat) (c : Command)
    (hq : s.commandQueue.length = COMMAND_QUEUE_SIZE)
    (h2 : s.queueLength ≤ COMMAND_QUEUE_SIZE)
    (hc : s.commandQueue[0]? = some c)
    (hcmd : cmd.length < MAX_COMMAND_LENGTH) (hexp : exp.length < MAX_EXPECTATION_LENGTH) :
    asyncExecute s millis cmd exp Timing.NEXT su fa tmo dly = .ok (true, { s with
      commandQueue :=
        { command := cmd, expectation := exp, success := su, failure := fa, timeout := tmo,
          delay := (dly + millis) % UINT32 }
        :: (List.replicate (s.queueLength - 1) c ++ s.commandQueue.drop (s.queueLength - 1 + 1)),
      queueLength := s.queueLength + 1 }) := by
  unfold asyncExecute
  rw [shiftRight_eq s c hq h2 hc]
  simp [hcmd, hexp, List.replicate_succ]

/-! ## Claims on the queue -/

/-- C1, the code at a failing input.  On a queue that holds the single
command `A` (text 65), `asyncExecute` with `Timing::NEXT` of the command `B`
(text 66) returns `true` and leaves a queue of length 2 whose index 0 is `B`
and whose index 1 is the stale content of slot 1, not `A`: the loop of
`shiftRight` stops one slot short, and `A` is lost. -/
theorem insertNext_drops_single_command :
    ((appendAll fresh 0 [sample 65 1]).bind fun s =>
      (asyncExecuteCommand s 0 (sample 66 2) Timing.NEXT).map fun r => (r.1, queue r.2))
      = .ok (true, [sample 66 2, emptyCommand]) := by
  decide

/-- C2, the code at a failing input.  On a queue that holds `A`, `B`, `C`
(texts 65, 66, 67), with `A` in flight, the pop made by `loop` on the timeout
of `A` leaves the queue `C`, `C` instead of `B`, `C`: the loop of `shiftLeft`
copies from the tail towards the head, so every slot receives the last
command.  The command started next is `C`, and `B` is never sent. -/
theorem shiftLeft_overwrites_with_last :
    ((appendAll fresh 0 [sample 65 1, sample 66 2, sample 67 3]).bind fun s =>
      (loop noMatch s 0 []).bind fun s1 =>
        (loop noMatch s1 2000 []).map fun s2 => (queue s2, s2.trace))
      = .ok ([sample 67 3, sample 67 3],
          [Event.println [65], Event.failure 1, Event.println [67]]) := by
  decide

/-- C3.  On a queue of `n < COMMAND_QUEUE_SIZE` commands, `asyncExecute` with
`Timing::ANY` of strings that fit the arrays of a slot returns `true`; the
queue afterwards is the former queue followed by the new command (the given
text, expectation, callbacks and timeout), so its length is `n + 1`, and the
rest of the dispatcher is unchanged. -/
theorem asyncExecute_ANY_appends (s : AsyncDuplex) (millis : Nat) (cmd exp : List Nat)
    (su : Success) (fa : Option Nat) (tmo dly : Nat)
    (hq : s.commandQueue.length = COMMAND_QUEUE_SIZE)
    (hn : s.queueLength < COMMAND_QUEUE_SIZE)
    (hcmd : cmd.length < MAX_COMMAND_LENGTH) (hexp : exp.length < MAX_EXPECTATION_LENGTH) :
    ∃ s1, asyncExecute s millis cmd exp Timing.ANY su fa tmo dly = .ok (true, s1)
      ∧ getQueueLength s1 = getQueueLength s + 1
      ∧ queue s1 = queue s ++ [Command.mk cmd exp su fa tmo ((dly + millis) % UINT32)]
      ∧ s1.inputBuffer = s.inputBuffer ∧ s1.bufferPos = s.bufferPos
      ∧ s1.processing = s.processing ∧ s1.timeout = s.timeout ∧ s1.trace = s.trace := by
  have h4 : (s.queueLength + 1) % UINT8 = s.queueLength + 1 := by
    unfold COMMAND_QUEUE_SIZE at hn; unfold UINT8; omega
  have hlt : s.queueLength < s.commandQueue.length := by rw [hq]; exact hn
  refine ⟨{ s with
    commandQueue := s.commandQueue.set s.queueLength
      (Command.mk cmd exp su fa tmo ((dly + millis) % UINT32)),
    queueLength := s.queueLength + 1 }, ?_, ?_, ?_, rfl, rfl, rfl, rfl, rfl⟩
  · unfold asyncExecute
    simp only [if_true, h4, hlt, hcmd, hexp, not_true_eq_false, if_false]
  · simp [getQueueLength]
  · simp only [queue]
    rw [take_succ_of_getElem? _ s.queueLength
      (Command.mk cmd exp su fa tmo ((dly + millis) % UINT32))
      (by simp [List.getElem?_set, hlt]), take_set_self]

/-- C3, at a concrete input: the command `AT` appended to an empty queue. -/
theorem asyncExecute_ANY_appends_witness :
    ∃ s1, asyncExecute fresh 7 [65, 84] [79, 75] Timing.ANY (Success.user 1) (some 1) 1000 5
        = .ok (true, s1)
      ∧ getQueueLength s1 = getQueueLength fresh + 1
      ∧ queue s1 = queue fresh
          ++ [Command.mk [65, 84] [79, 75] (Success.user 1) (some 1) 1000 ((5 + 7) % UINT32)]
      ∧ s1.inputBuffer = fresh.inputBuffer ∧ s1.bufferPos = fresh.bufferPos
      ∧ s1.processing = fresh.processing ∧ s1.timeout = fresh.timeout
      ∧ s1.trace = fresh.trace :=
  asyncExecute_ANY_appends fresh 7 [65, 84] [79, 75] (Success.user 1) (some 1) 1000 5
    (by decide) (by decide) (by decide) (by decide)

/-- C4, counterexample.  A queue filled to `COMMAND_QUEUE_SIZE` by ten
appends still accepts an insert-next: `asyncExecute` returns `true` and the
queue length becomes `COMMAND_QUEUE_SIZE + 1`. -/
theorem full_queue_insert_accepted :
    ((appendAll fresh 0 (List.replicate COMMAND_QUEUE_SIZE (sample 65 1))).bind fun s =>
      (asyncExecuteCommand s 0 (sample 66 2) Timing.NEXT).map fun r =>
        (getQueueLength s, r.1, getQueueLength r.2))
      = .ok (COMMAND_QUEUE_SIZE, true, COMMAND_QUEUE_SIZE + 1) := by
  decide

/-- C4, amended.  `asyncExecute` has no capacity check.  On a queue of
length `COMMAND_QUEUE_SIZE`, with `Timing::NEXT` it returns `true` and the
queue length becomes `COMMAND_QUEUE_SIZE + 1`; with `Timing::ANY` it does not
return `false` either: it stores the command in
`commandQueue[COMMAND_QUEUE_SIZE]`, outside the array. -/
theorem asyncExecute_at_capacity (s : AsyncDuplex) (millis : Nat) (cmd exp : List Nat)
    (su : Success) (fa : Option Nat) (tmo dly : Nat)
    (hq : s.commandQueue.length = COMMAND_QUEUE_SIZE)
    (hn : s.queueLength = COMMAND_QUEUE_SIZE)
    (hcmd : cmd.length < MAX_COMMAND_LENGTH) (hexp : exp.length < MAX_EXPECTATION_LENGTH) :
    (∃ s1, asyncExecute s millis cmd exp Timing.NEXT su fa tmo dly = .ok (true, s1)
      ∧ getQueueLength s1 = COMMAND_QUEUE_SIZE + 1)
    ∧ asyncExecute s millis cmd exp Timing.ANY su fa tmo dly
      = .error (Fault.commandQueue COMMAND_QUEUE_SIZE) := by
  obtain ⟨c, hc⟩ := head_exists s hq
  constructor
  · refine ⟨_, asyncExecute_NEXT_eq s millis cmd exp su fa tmo dly c hq (by omega) hc hcmd
      hexp, ?_⟩
    simp [getQueueLength, hn]
  · unfold asyncExecute
    simp [hq, hn]

/-- C4, amended, at a concrete input: a queue of ten copies of one command. -/
theorem asyncExecute_at_capacity_witness :
    (∃ s1, asyncExecute { fresh with
          commandQueue := List.replicate COMMAND_QUEUE_SIZE (sample 65 1),
          queueLength := COMMAND_QUEUE_SIZE }
        0 [66] [79, 75] Timing.NEXT Success.null none 1000 0 = .ok (true, s1)
      ∧ getQueueLength s1 = COMMAND_QUEUE_SIZE + 1)
    ∧ asyncExecute { fresh with
          commandQueue := List.replicate COMMAND_QUEUE_SIZE (sample 65 1),
          queueLength := COMMAND_QUEUE_SIZE }
        0 [66] [79, 75] Timing.ANY Success.null none 1000 0
      = .error (Fault.commandQueue COMMAND_QUEUE_SIZE) :=
  asyncExecute_at_capacity _ 0 [66] [79, 75] Success.null none 1000 0
    (by decide) (by decide) (by decide) (by decide)

/-! ## Claims on the dispatch loop -/

/-- The timeout branch of `loop` on a command in flight whose deadline has
passed. -/
theorem timeoutStep_eq (s : AsyncDuplex) (millis : Nat) (head last : Command)
    (hp : s.processing = true) (ht : s.timeout < millis)
    (h1 : 1 ≤ s.queueLength) (h2 : s.queueLength ≤ COMMAND_QUEUE_SIZE)
    (hh : s.commandQueue[0]? = some head)
    (hl : s.commandQueue[s.queueLength - 1]? = some last) :
    timeoutStep s millis = .ok { s with
      commandQueue := List.replicate s.queueLength last ++ s.commandQueue.drop s.queueLength,
      queueLength := s.queueLength - 1,
      inputBuffer := s.inputBuffer.set 0 0,
      processing := false,
      trace := s.trace ++ (match head.failure with
        | some id => [Event.failure id]
        | none => []) } := by
  unfold timeoutStep
  rw [if_pos ⟨hp, ht⟩, readSlot_of_getElem? hh]
  cases hf : head.failure with
  | none =>
    simp only [hf]
    rw [shiftLeft_eq s last h1 h2 hl]
    simp
  | some id =>
    simp only [hf]
    rw [shiftLeft_eq { s with trace := s.trace ++ [Event.failure id] } last h1 h2 hl]

/-- C5, counterexample.  A command started at time 0 with a timeout of
1000 ms has the recorded deadline 1000; the `loop` invocation at time 1000
(current time equal to the deadline) invokes no callback, pops nothing and
leaves the command in flight. -/
theorem no_timeout_at_deadline :
    ((appendAll fresh 0 [sample 65 1]).bind fun s =>
      (loop noMatch s 0 []).bind fun s1 =>
        (loop noMatch s1 1000 []).map fun s2 =>
          (s1.timeout, s2.processing, getQueueLength s2, s2.trace))
      = .ok (1000, true, 1, [Event.println [65]]) := by
  decide

theorem slot_exists (s : AsyncDuplex) (i : Nat)
    (hq : s.commandQueue.length = COMMAND_QUEUE_SIZE) (hi : i < COMMAND_QUEUE_SIZE) :
    ∃ c, s.commandQueue[i]? = some c :=
  ⟨s.commandQueue[i], List.getElem?_eq_getElem (by rw [hq]; exact hi)⟩

/-- C5, amended: the timeout step fires when the current time is after the
recorded deadline.  In every `loop` invocation in which a command is in
flight and `millis()` is greater than the recorded deadline, the `failure`
callable of the head is called if it is not empty (and no other callable),
the queue length decreases by one and `processing` becomes `false`; the
bytes of the stream are read only then, on that idle state. -/
theorem loop_timeout_after_deadline (matcher : Matcher) (s : AsyncDuplex) (millis : Nat)
    (rx : List Nat) (head : Command)
    (hq : s.commandQueue.length = COMMAND_QUEUE_SIZE)
    (hb : s.began = true) (hp : s.processing = true)
    (h1 : 1 ≤ s.queueLength) (h2 : s.queueLength ≤ COMMAND_QUEUE_SIZE)
    (hh : s.commandQueue[0]? = some head)
    (ht : s.timeout < millis) :
    ∃ s1, timeoutStep s millis = .ok s1
      ∧ s1.trace = s.trace ++ (match head.failure with
          | some id => [Event.failure id]
          | none => [])
      ∧ getQueueLength s1 + 1 = getQueueLength s
      ∧ s1.processing = false
      ∧ loop matcher s millis rx
          = (drain matcher millis s1 rx).bind fun s2 => startNext s2 millis := by
  obtain ⟨last, hl⟩ := slot_exists s (s.queueLength - 1) hq (by omega)
  refine ⟨_, timeoutStep_eq s millis head last hp ht h1 h2 hh hl, rfl, ?_, rfl, ?_⟩
  · simp only [getQueueLength]; omega
  · unfold loop
    rw [timeoutStep_eq s millis head last hp ht h1 h2 hh hl]
    rw [if_neg (by simp [hb])]
    dsimp only
    generalize drain matcher millis _ rx = d
    cases d <;> rfl

/-- C5, amended, at a concrete input: the command `A` in flight with the
deadline 1000, and `loop` at time 1001. -/
theorem loop_timeout_after_deadline_witness :
    ∃ s1, timeoutStep { fresh with
          commandQueue := (fresh.commandQueue.set 0 (sample 65 1)),
          queueLength := 1, processing := true, timeout := 1000 } 1001 = .ok s1
      ∧ s1.trace = [] ++ (match (sample 65 1).failure with
          | some id => [Event.failure id]
          | none => [])
      ∧ getQueueLength s1 + 1 = 1
      ∧ s1.processing = false
      ∧ loop noMatch { fresh with
          commandQueue := (fresh.commandQueue.set 0 (sample 65 1)),
          queueLength := 1, processing := true, timeout := 1000 } 1001 [79, 75]
          = (drain noMatch 1001 s1 [79, 75]).bind fun s2 => startNext s2 1001 :=
  loop_timeout_after_deadline noMatch _ 1001 [79, 75] (sample 65 1)
    (by decide) (by decide) (by decide) (by decide) (by decide) (by decide) (by decide)

/-! ## The scan buffer: compaction after a match -/

/-- The copy loop after a match, started at `i` with the bytes before
`i - off` already moved: it stops at the terminator at index `L`, having
moved the bytes `off..L` (the terminator included) to the front. -/
theorem compactLoop_spec (buf : List Nat) (off L : Nat) (hL : L < buf.length)
    (hnz : ∀ j, j < L → buf.getD j 0 ≠ 0) (hz : buf.getD L 0 = 0) :
    ∀ (fuel i : Nat) (cur : List Nat) (pos : Nat),
      off ≤ i → i ≤ L → L < i + fuel → cur.length = buf.length →
      (∀ j, i - off ≤ j → cur[j]? = buf[j]?) →
      (∀ j, j < i - off → cur[j]? = buf[j + off]?) →
      (compactLoop off fuel i cur pos).2 = L - off
        ∧ (compactLoop off fuel i cur pos).1.length = buf.length
        ∧ (∀ j, j ≤ L - off → (compactLoop off fuel i cur pos).1[j]? = buf[j + off]?) := by
  intro fuel
  induction fuel with
  | zero => intro i cur pos h1 h2 h3; omega
  | succ fuel ih =>
    intro i cur pos h1 h2 h3 hlen hhi hlo
    have hcur : cur.getD i 0 = buf.getD i 0 := by
      simp only [List.getD_eq_getElem?_getD]
      rw [hhi i (by omega)]
    have hset : ((cur.set (i - off) (cur.getD i 0)).getD i 0) = buf.getD i 0 := by
      rw [List.getD_eq_getElem?_getD, List.getElem?_set]
      by_cases he : i - off = i
      · rw [if_pos he, if_pos (by omega), hcur]; rfl
      · rw [if_neg he, hhi i (by omega)]; simp
    unfold compactLoop
    simp only [hset]
    by_cases hiL : i = L
    · subst hiL
      rw [if_pos hz]
      refine ⟨rfl, by simp [hlen], ?_⟩
      intro j hj
      simp only [List.getElem?_set]
      by_cases he : i - off = j
      · subst he
        rw [if_pos rfl, if_pos (by omega), hcur, Nat.sub_add_cancel h1]
        rw [List.getD_eq_getElem?_getD, List.getElem?_eq_getElem hL]; rfl
      · rw [if_neg he, hlo j (by omega)]
    · have hnzi : buf.getD i 0 ≠ 0 := hnz i (by omega)
      rw [if_neg hnzi]
      have hi : i < buf.length := by omega
      apply ih (i + 1) _ _ (by omega) (by omega) (by omega) (by simp [hlen])
      · intro j hj
        rw [List.getElem?_set, if_neg (by omega), hhi j (by omega)]
      · intro j hj
        rw [List.getElem?_set]
        by_cases he : i - off = j
        · subst he
          rw [if_pos rfl, if_pos (by omega), hcur, Nat.sub_add_cancel h1]
          rw [List.getD_eq_getElem?_getD, List.getElem?_eq_getElem hi]; rfl
        · rw [if_neg he, hlo j (by omega)]

/-- C8.  Let the scan buffer hold `L < INPUT_BUFFER_LENGTH` non-NUL bytes
followed by a NUL, and let the match be at offset `k` with length `m`,
`k + m ≤ L`.  After the compaction of the match branch the buffer starts
with the bytes `k+m .. L-1` of before, in their order, followed by a NUL, and
`bufferPos` is `L - (k + m)`.  (The compaction runs on the buffer as it
was when the match was found: the `success` callable, called just before,
cannot reach the buffer.) -/
theorem compact_keeps_unconsumed (s : AsyncDuplex) (ms : MatchState) (L : Nat)
    (hlen : s.inputBuffer.length = INPUT_BUFFER_LENGTH)
    (hL : L < INPUT_BUFFER_LENGTH)
    (hnz : ∀ j, j < L → s.inputBuffer.getD j 0 ≠ 0)
    (hz : s.inputBuffer.getD L 0 = 0)
    (hm : ms.MatchStart + ms.MatchLength ≤ L) :
    (compact s ms).inputBuffer.take (L - (ms.MatchStart + ms.MatchLength) + 1)
        = (s.inputBuffer.take L).drop (ms.MatchStart + ms.MatchLength) ++ [0]
      ∧ (compact s ms).bufferPos = L - (ms.MatchStart + ms.MatchLength)
      ∧ (compact s ms).inputBuffer.length = INPUT_BUFFER_LENGTH := by
  have hoff : (ms.MatchStart + ms.MatchLength) % UINT16 = ms.MatchStart + ms.MatchLength := by
    unfold INPUT_BUFFER_LENGTH at hL; unfold UINT16; omega
  have hLb : L < s.inputBuffer.length := by rw [hlen]; exact hL
  obtain ⟨h1, h2, h3⟩ := compactLoop_spec s.inputBuffer (ms.MatchStart + ms.MatchLength) L hLb
    hnz hz (INPUT_BUFFER_LENGTH - (ms.MatchStart + ms.MatchLength))
    (ms.MatchStart + ms.MatchLength) s.inputBuffer s.bufferPos (Nat.le_refl _) hm
    (by omega) rfl (fun _ _ => rfl) (fun j hj => by omega)
  unfold compact
  simp only [hoff]
  refine ⟨?_, h1, by rw [h2, hlen]⟩
  apply List.ext_getElem?
  intro j
  rw [List.getElem?_take, List.getElem?_append, List.getElem?_drop, List.getElem?_take]
  simp only [List.length_drop, List.length_take, Nat.min_eq_left (Nat.le_of_lt hLb)]
  by_cases hj : j < L - (ms.MatchStart + ms.MatchLength)
  · rw [if_pos (by omega), if_pos hj, if_pos (by omega), h3 j (by omega), Nat.add_comm]
  · by_cases hj2 : j = L - (ms.MatchStart + ms.MatchLength)
    · subst hj2
      rw [if_pos (by omega), if_neg hj, h3 _ (Nat.le_refl _), Nat.sub_add_cancel hm]
      rw [List.getD_eq_getElem?_getD, List.getElem?_eq_getElem hLb] at hz
      rw [List.getElem?_eq_getElem hLb]
      simp only [Option.getD_some] at hz
      simp [hz]
    · rw [if_neg (by omega), if_neg hj]
      rw [List.getElem?_eq_none]
      simp; omega

set_option maxRecDepth 100000 in
/-- C8, at a concrete input: the buffer holds `xOK\r\n` (`L = 5`) and the
match is `OK`, at offset 1 with length 2; afterwards the buffer starts with
`\r\n` and a NUL, and `bufferPos` is 2. -/
theorem compact_keeps_unconsumed_witness :
    (compact { fresh with inputBuffer := [120, 79, 75, 13, 10] ++ List.replicate 507 0,
                          bufferPos := 5 }
        { MatchStart := 1, MatchLength := 2 }).inputBuffer.take (5 - (1 + 2) + 1)
        = (([120, 79, 75, 13, 10] ++ List.replicate 507 0).take 5).drop (1 + 2) ++ [0]
      ∧ (compact { fresh with inputBuffer := [120, 79, 75, 13, 10] ++ List.replicate 507 0,
                              bufferPos := 5 }
          { MatchStart := 1, MatchLength := 2 }).bufferPos = 5 - (1 + 2)
      ∧ (compact { fresh with inputBuffer := [120, 79, 75, 13, 10] ++ List.replicate 507 0,
                              bufferPos := 5 }
          { MatchStart := 1, MatchLength := 2 }).inputBuffer.length = INPUT_BUFFER_LENGTH :=
  compact_keeps_unconsumed
    { fresh with inputBuffer := [120, 79, 75, 13, 10] ++ List.replicate 507 0, bufferPos := 5 }
    { MatchStart := 1, MatchLength := 2 } 5
    (by decide) (by decide) (by decide) (by decide) (by decide)

/-! ## Calls of `success` callables -/

theorem invoke_if_null (fn : Success) (ms : MatchState) (millis : Nat) (s : AsyncDuplex) :
    (if fn ≠ Success.null then invoke fn ms millis s else .ok s) = invoke fn ms millis s := by
  by_cases h : fn = Success.null
  · subst h; simp [invoke]
  · rw [if_pos h]

/-- A call `fn(ms)` on a dispatcher with room for the commands it enqueues:
it returns, records the calls of the callables of the caller, enqueues
`enqueues fn` commands and leaves the scan buffer and the dispatch state as
they are. -/
theorem invoke_spec (ms : MatchState) (millis : Nat) (fn : Success) :
    ∀ s : AsyncDuplex, s.commandQueue.length = COMMAND_QUEUE_SIZE →
      s.queueLength + enqueues fn ≤ COMMAND_QUEUE_SIZE + 1 → fits fn = true →
      ∃ s1, invoke fn ms millis s = .ok s1
        ∧ s1.commandQueue.length = COMMAND_QUEUE_SIZE
        ∧ s1.queueLength = s.queueLength + enqueues fn
        ∧ s1.trace = s.trace ++ calls fn ms
        ∧ s1.inputBuffer = s.inputBuffer ∧ s1.bufferPos = s.bufferPos
        ∧ s1.processing = s.processing ∧ s1.began = s.began ∧ s1.timeout = s.timeout := by
  induction fn with
  | null =>
    intro s hq _ _
    exact ⟨s, rfl, hq, rfl, by simp [calls], rfl, rfl, rfl, rfl, rfl⟩
  | user id =>
    intro s hq _ _
    exact ⟨_, rfl, hq, rfl, rfl, rfl, rfl, rfl, rfl, rfl⟩
  | chain orig cmd exp su fa tmo dly ih _ =>
    intro s hq hn hf
    simp only [fits, Bool.and_eq_true, decide_eq_true_eq] at hf
    simp only [enqueues] at hn
    obtain ⟨s1, h1, hq1, hn1, ht1, hb1, hp1, hpr1, hbe1, hto1⟩ :=
      ih s hq (by omega) hf.1.1
    obtain ⟨c, hc⟩ := head_exists s1 hq1
    have hex := asyncExecute_NEXT_eq s1 millis cmd exp su fa tmo defaultDelay c hq1
      (by omega) hc hf.1.2 hf.2
    refine ⟨{ s1 with
      commandQueue := Command.mk cmd exp su fa tmo ((defaultDelay + millis) % UINT32)
        :: (List.replicate (s1.queueLength - 1) c
          ++ s1.commandQueue.drop (s1.queueLength - 1 + 1)),
      queueLength := s1.queueLength + 1 }, ?_, ?_, ?_, ?_, hb1, hp1, hpr1, hbe1, hto1⟩
    · rw [invoke, invoke_if_null, h1]
      simp only [asyncExecuteCommand]
      rw [hex]
    · simp only [List.length_cons, List.length_append, List.length_replicate, List.length_drop]
      rw [hq1]; unfold COMMAND_QUEUE_SIZE at *; omega
    · simp only [enqueues]; omega
    · simp only [calls, ht1]

/-! ## The `while` loop of `loop` -/

theorem receive_fields (s s1 : AsyncDuplex) (b : Nat) (h : receive s b = .ok s1) :
    s1.commandQueue = s.commandQueue ∧ s1.queueLength = s.queueLength
      ∧ s1.processing = s.processing ∧ s1.began = s.began ∧ s1.timeout = s.timeout
      ∧ s1.trace = s.trace ∧ s1.inputBuffer.length = s.inputBuffer.length := by
  unfold receive at h
  split at h
  · cases h
  · dsimp only at h
    split at h
    · cases h
    · cases h
      simp

theorem receiveAll_fields (rx : List Nat) : ∀ (s s1 : AsyncDuplex),
    receiveAll s rx = .ok s1 →
    s1.commandQueue = s.commandQueue ∧ s1.queueLength = s.queueLength
      ∧ s1.processing = s.processing ∧ s1.began = s.began ∧ s1.timeout = s.timeout
      ∧ s1.trace = s.trace ∧ s1.inputBuffer.length = s.inputBuffer.length := by
  induction rx with
  | nil => intro s s1 h; cases h; simp
  | cons b rest ih =>
    intro s s1 h
    unfold receiveAll at h
    cases hr : receive s b with
    | error e => rw [hr] at h; cases h
    | ok s2 =>
      rw [hr] at h
      obtain ⟨a1, a2, a3, a4, a5, a6, a7⟩ := receive_fields s s2 b hr
      obtain ⟨b1, b2, b3, b4, b5, b6, b7⟩ := ih s2 s1 h
      exact ⟨b1.trans a1, b2.trans a2, b3.trans a3, b4.trans a4, b5.trans a5, b6.trans a6,
        b7.trans a7⟩

/-- While the dispatcher is idle the `while` loop only stores the bytes. -/
theorem drain_idle (matcher : Matcher) (millis : Nat) (rx : List Nat) :
    ∀ s : AsyncDuplex, s.processing = false →
      drain matcher millis s rx = receiveAll s rx := by
  induction rx with
  | nil => intro s _; rfl
  | cons b rest ih =>
    intro s hp
    unfold drain receiveAll
    cases hr : receive s b with
    | error e => rfl
    | ok s1 =>
      have hp1 : s1.processing = false := (receive_fields s s1 b hr).2.2.1.trans hp
      simp only [hp1, Bool.false_eq_true, if_false]
      exact ih s1 hp1

/-- The bytes that fit the scan buffer are stored without a fault, and
`bufferPos` advances by their number. -/
theorem receiveAll_ok (rx : List Nat) : ∀ s : AsyncDuplex,
    s.inputBuffer.length = INPUT_BUFFER_LENGTH →
    s.bufferPos + rx.length < INPUT_BUFFER_LENGTH →
    ∃ s1, receiveAll s rx = .ok s1 ∧ s1.bufferPos = s.bufferPos + rx.length := by
  induction rx with
  | nil => intro s _ _; exact ⟨s, rfl, rfl⟩
  | cons b rest ih =>
    intro s hlen hfit
    simp only [List.length_cons] at hfit
    have hmod : (s.bufferPos + 1) % UINT16 = s.bufferPos + 1 := by
      unfold INPUT_BUFFER_LENGTH at hfit; unfold UINT16; omega
    have hr : receive s b = .ok { s with
        inputBuffer := (s.inputBuffer.set s.bufferPos b).set (s.bufferPos + 1) 0,
        bufferPos := s.bufferPos + 1 } := by
      unfold receive
      rw [if_neg (by rw [hlen]; omega)]
      simp only [hmod]
      rw [if_neg (by simp [hlen]; omega)]
    obtain ⟨s1, h1, h2⟩ := ih { s with
        inputBuffer := (s.inputBuffer.set s.bufferPos b).set (s.bufferPos + 1) 0,
        bufferPos := s.bufferPos + 1 } (by simp [hlen]) (by simp; omega)
    refine ⟨s1, ?_, ?_⟩
    · unfold receiveAll; rw [hr]; exact h1
    · rw [h2]; simp; omega

theorem timeoutStep_idle (s : AsyncDuplex) (millis : Nat)
    (h : ¬ (s.processing = true ∧ s.timeout < millis)) : timeoutStep s millis = .ok s := by
  unfold timeoutStep
  rw [if_neg h]

/-- The last step of `loop` calls no callable: it writes at most one line. -/
theorem startNext_trace (s s1 : AsyncDuplex) (millis : Nat) (h : startNext s millis = .ok s1) :
    ∃ out, s1.trace = s.trace ++ out ∧ (∀ e, e ∈ out → ∃ text, e = Event.println text)
      ∧ s1.queueLength = s.queueLength ∧ s1.commandQueue = s.commandQueue := by
  unfold startNext at h
  cases hr : readSlot s.commandQueue 0 with
  | error e => rw [hr] at h; cases h
  | ok head =>
    rw [hr] at h
    dsimp only at h
    split at h
    · cases h
      exact ⟨[Event.println head.command], rfl, by simp, rfl, rfl⟩
    · cases h
      exact ⟨[], by simp, by simp, rfl, rfl⟩

/-- The match branch of `loop` on a queue of `1..COMMAND_QUEUE_SIZE`
commands: `processing` is cleared, the head is popped, then the `success`
callable of the former head is called once, and the buffer is compacted. -/
theorem matched_spec (s : AsyncDuplex) (millis : Nat) (ms : MatchState) (head : Command)
    (hq : s.commandQueue.length = COMMAND_QUEUE_SIZE)
    (h1 : 1 ≤ s.queueLength) (h2 : s.queueLength ≤ COMMAND_QUEUE_SIZE)
    (hh : s.commandQueue[0]? = some head)
    (hcap : s.queueLength + enqueues head.success ≤ COMMAND_QUEUE_SIZE + 2)
    (hfit : fits head.success = true) :
    ∃ sp si, shiftLeft { s with processing := false } = .ok sp
      ∧ sp.queueLength + 1 = s.queueLength
      ∧ sp.trace = s.trace
      ∧ invoke head.success ms millis sp = .ok si
      ∧ matched s millis ms = .ok (compact si ms)
      ∧ si.commandQueue.length = COMMAND_QUEUE_SIZE
      ∧ si.queueLength + 1 = s.queueLength + enqueues head.success
      ∧ si.trace = s.trace ++ calls head.success ms
      ∧ si.inputBuffer = s.inputBuffer ∧ si.bufferPos = s.bufferPos
      ∧ si.processing = false ∧ si.began = s.began ∧ si.timeout = s.timeout := by
  obtain ⟨last, hl⟩ := slot_exists s (s.queueLength - 1) hq (by omega)
  have hsl := shiftLeft_eq { s with processing := false } last h1 h2 hl
  obtain ⟨si, hi, hqi, hni, hti, hbi, hpi, hpri, hbei, htoi⟩ :=
    invoke_spec ms millis head.success
      { s with
        processing := false,
        commandQueue := List.replicate s.queueLength last ++ s.commandQueue.drop s.queueLength,
        queueLength := s.queueLength - 1 }
      (by simp [hq]; omega) (by simp only []; omega) hfit
  refine ⟨_, si, hsl, ?_, rfl, hi, ?_, hqi, ?_, hti, hbi, hpi, hpri, hbei, htoi⟩
  · simp only []; omega
  · unfold matched
    simp only []
    rw [readSlot_of_getElem? hh]
    simp only []
    rw [hsl]
    simp only []
    rw [invoke_if_null, hi]
  · rw [hni]; simp only []; omega

theorem receiveAll_cons (s : AsyncDuplex) (b : Nat) (rest : List Nat) :
    receiveAll s (b :: rest) = (receive s b).bind fun s1 => receiveAll s1 rest := by
  rw [receiveAll]
  cases receive s b <;> rfl

theorem drain_cons_of_receive (matcher : Matcher) (millis : Nat) (s s1 : AsyncDuplex) (b : Nat)
    (rest : List Nat) (head : Command) (hr : receive s b = .ok s1)
    (hp : s.processing = true) (hh : s.commandQueue[0]? = some head) :
    drain matcher millis s (b :: rest)
      = match matcher (cString s1.inputBuffer) head.expectation with
        | none => drain matcher millis s1 rest
        | some ms => (matched s1 millis ms).bind fun s2 => drain matcher millis s2 rest := by
  obtain ⟨a1, _, a3, _⟩ := receive_fields s s1 b hr
  rw [drain, hr]
  simp only [a3, hp, if_true, a1]
  rw [readSlot_of_getElem? hh]
  simp only []
  cases matcher (cString s1.inputBuffer) head.expectation with
  | none => rfl
  | some ms =>
    simp only []
    cases matched s1 millis ms <;> rfl

theorem receiveAll_append (pre : List Nat) : ∀ (s : AsyncDuplex) (rest : List Nat),
    receiveAll s (pre ++ rest) = (receiveAll s pre).bind fun s1 => receiveAll s1 rest := by
  induction pre with
  | nil => intro s rest; rfl
  | cons a pre ih =>
    intro s rest
    simp only [List.cons_append, receiveAll_cons]
    cases hr : receive s a with
    | error e => rfl
    | ok s1 => exact ih s1 rest

/-- The `while` loop up to the first byte after which the matcher reports a
match of the expectation of the head. -/
theorem drain_until_match (matcher : Matcher) (millis : Nat) (head : Command)
    (b : Nat) (post : List Nat) (sb : AsyncDuplex) (ms : MatchState) (pre : List Nat) :
    ∀ s : AsyncDuplex, s.processing = true → s.commandQueue[0]? = some head →
      (∀ k, k < pre.length → ∀ sk, receiveAll s (pre.take (k + 1)) = .ok sk →
        matcher (cString sk.inputBuffer) head.expectation = none) →
      receiveAll s (pre ++ [b]) = .ok sb →
      matcher (cString sb.inputBuffer) head.expectation = some ms →
      drain matcher millis s (pre ++ b :: post)
        = (matched sb millis ms).bind fun s1 => drain matcher millis s1 post := by
  induction pre with
  | nil =>
    intro s hp hh _ hb hm
    simp only [List.nil_append, receiveAll_cons] at hb ⊢
    cases hr : receive s b with
    | error e => rw [hr] at hb; cases hb
    | ok s1 =>
      rw [hr] at hb
      have hsb : s1 = sb := by
        simp only [Except.bind, receiveAll] at hb
        exact Except.ok.inj hb
      subst hsb
      rw [drain_cons_of_receive matcher millis s s1 b post head hr hp hh, hm]
  | cons a pre ih =>
    intro s hp hh hpre hb hm
    simp only [List.cons_append, receiveAll_cons] at hb ⊢
    cases hr : receive s a with
    | error e => rw [hr] at hb; cases hb
    | ok s1 =>
      rw [hr] at hb
      obtain ⟨a1, _, a3, _⟩ := receive_fields s s1 a hr
      have hnone : matcher (cString s1.inputBuffer) head.expectation = none := by
        apply hpre 0 (by simp) s1
        simp [receiveAll_cons, hr, Except.bind, receiveAll]
      rw [drain_cons_of_receive matcher millis s s1 a _ head hr hp hh, hnone]
      apply ih s1 (a3.trans hp) (a1 ▸ hh) _ hb hm
      intro k hk sk hsk
      apply hpre (k + 1) (by simp; omega) sk
      simp only [List.take_succ_cons, receiveAll_cons, hr]
      exact hsk

/-- C9.  `asyncExecuteChain` with `count < 2` returns `false` and leaves the
whole dispatcher as it was: the queue and its length, the scan buffer, the
dispatch state and the trace of calls (no callable is called, nothing is
written). -/
theorem asyncExecuteChain_rejects_short (s : AsyncDuplex) (millis : Nat)
    (cmdArray : Nat → Command) (count : Nat) (timing : Timing) (scratch : Command)
    (hcount : count < 2) :
    asyncExecuteChain s millis cmdArray count timing scratch = .ok (false, s) := by
  unfold asyncExecuteChain
  rw [if_pos hcount]

/-- C9, at a concrete input: a chain of one command on a queue that holds
one command. -/
theorem asyncExecuteChain_rejects_short_witness :
    asyncExecuteChain { fresh with
        commandQueue := (fresh.commandQueue.set 0 (sample 65 1)), queueLength := 1 }
      5 (fun _ => sample 66 2) 1 Timing.NEXT emptyCommand
      = .ok (false, { fresh with
        commandQueue := (fresh.commandQueue.set 0 (sample 65 1)), queueLength := 1 }) :=
  asyncExecuteChain_rejects_short _ 5 (fun _ => sample 66 2) 1 Timing.NEXT emptyCommand
    (by decide)

theorem composite_cons (c next : Command) (rest : List Command) :
    composite (c :: next :: rest) = createChain c (composite (next :: rest)) := rfl

/-- The loop of `asyncExecuteChain` builds the composite of the spec. -/
theorem chainLoop_eq (cmdArray : Nat → Command) (cmds : List Command)
    (harr : ∀ i, i < cmds.length → cmds[i]? = some (cmdArray i)) :
    ∀ (k : Nat) (scratch : Command), k < cmds.length →
      chainLoop cmdArray k scratch (composite (cmds.drop k)) = composite cmds := by
  intro k
  induction k with
  | zero => intro scratch _; rfl
  | succ i ih =>
    intro scratch hk
    have hi : i < cmds.length := by omega
    have hd1 : cmds.drop (i + 1) = cmdArray (i + 1) :: cmds.drop (i + 1 + 1) := by
      rw [List.drop_eq_getElem_cons hk]
      congr 1
      have := harr (i + 1) hk
      rw [List.getElem?_eq_getElem hk] at this
      exact Option.some.inj this
    have hd : cmds.drop i = cmdArray i :: cmds.drop (i + 1) := by
      rw [List.drop_eq_getElem_cons hi]
      congr 1
      have := harr i hi
      rw [List.getElem?_eq_getElem hi] at this
      exact Option.some.inj this
    rw [chainLoop]
    simp only [copyCommand_eq]
    have hc : createChain (cmdArray i) (composite (cmds.drop (i + 1)))
        = composite (cmds.drop i) := by
      rw [hd, hd1, composite_cons]
    rw [hc]
    exact ih _ hi

/-- The statements of the chain builder on `2 ≤ n ≤ 32769` commands: they
make one call of `asyncExecute`, with the timing of the caller, of the
composite of the spec.  The composite has the text, expectation, `failure`
and timeout of the first command, and a call of its `success` calls the
original `success` of the first command, if it is not empty, and then makes
one call of `asyncExecute` with `Timing::NEXT` of the composite of the
rest. -/
theorem enqueueChain_composite (s : AsyncDuplex) (millis : Nat)
    (cmdArray : Nat → Command) (first second : Command) (rest : List Command)
    (timing : Timing) (scratch : Command)
    (harr : ∀ i, i < (first :: second :: rest).length →
      (first :: second :: rest)[i]? = some (cmdArray i))
    (hn : (first :: second :: rest).length ≤ 32769) :
    enqueueChain s millis cmdArray (first :: second :: rest).length timing scratch
        = ((asyncExecuteCommand s millis (composite (first :: second :: rest)) timing).bind
            fun r => .ok r.2)
      ∧ (composite (first :: second :: rest)).command = first.command
      ∧ (composite (first :: second :: rest)).expectation = first.expectation
      ∧ (composite (first :: second :: rest)).failure = first.failure
      ∧ (composite (first :: second :: rest)).timeout = first.timeout
      ∧ (∀ (ms : MatchState) (now : Nat) (s1 : AsyncDuplex),
          invoke (composite (first :: second :: rest)).success ms now s1
            = ((if first.success ≠ Success.null then invoke first.success ms now s1
                else .ok s1).bind fun s2 =>
                (asyncExecuteCommand s2 now (composite (second :: rest)) Timing.NEXT).bind
                  fun r => .ok r.2)) := by
  refine ⟨?_, rfl, rfl, rfl, rfl, ?_⟩
  · have hlen : (first :: second :: rest).length = rest.length + 2 := by simp
    rw [hlen] at hn harr ⊢
    have hk : (toInt16 (((rest.length + 2 : Nat) : Int) - 2) + 1).toNat = rest.length + 1 := by
      unfold toInt16; omega
    have hlast : composite ((first :: second :: rest).drop (rest.length + 1))
        = cmdArray (rest.length + 2 - 1) := by
      have h1 : rest.length + 1 < (first :: second :: rest).length := by simp
      have h2 := harr (rest.length + 1) (by omega)
      rw [List.drop_eq_getElem_cons h1, List.drop_of_length_le (by simp)]
      rw [List.getElem?_eq_getElem h1] at h2
      have h3 := Option.some.inj h2
      have h4 : rest.length + 2 - 1 = rest.length + 1 := by omega
      rw [h4, ← h3]
      rfl
    unfold enqueueChain
    rw [hk]
    dsimp only
    rw [← hlast, chainLoop_eq cmdArray (first :: second :: rest)
      (by simpa using harr) (rest.length + 1) scratch (by simp)]
    generalize asyncExecuteCommand s millis (composite (first :: second :: rest)) timing = d
    cases d <;> rfl
  · intro ms now s1
    rw [composite_cons]
    simp only [createChain, copyCommand]
    rw [invoke]
    generalize (if first.success ≠ Success.null then invoke first.success ms now s1
      else Except.ok s1) = d
    cases d with
    | error e => rfl
    | ok s2 =>
      dsimp only [Except.bind]
      generalize asyncExecuteCommand s2 now _ Timing.NEXT = d2
      cases d2 <;> rfl

/-- The statements of `asyncExecuteChain` reach the end of the function
whenever the enqueue returns, and the function returns on no other path than
the guard `count < 2`. -/
theorem asyncExecuteChain_eq (s : AsyncDuplex) (millis : Nat) (cmdArray : Nat → Command)
    (count : Nat) (timing : Timing) (scratch : Command) (hcount : 2 ≤ count) :
    asyncExecuteChain s millis cmdArray count timing scratch
      = (enqueueChain s millis cmdArray count timing scratch).bind
          fun _ => .error Fault.missingReturn := by
  unfold asyncExecuteChain
  rw [if_neg (by omega)]
  cases enqueueChain s millis cmdArray count timing scratch <;> rfl

/-- C10, the code at a failing input.  `asyncExecuteChain` is called with an
array of two commands on a fresh dispatcher, with either timing.  The
statements of the function enqueue the composite of the two commands (one
command, with the text of the first), and then the control reaches the end
of the function, which is declared `bool`, without a `return` statement:
the call has undefined behaviour. -/
theorem asyncExecuteChain_no_return :
    asyncExecuteChain fresh 0 alternating 2 Timing.ANY emptyCommand
        = .error Fault.missingReturn
      ∧ asyncExecuteChain fresh 0 alternating 2 Timing.NEXT emptyCommand
        = .error Fault.missingReturn
      ∧ (enqueueChain fresh 0 alternating 2 Timing.ANY emptyCommand).map queue
        = .ok [composite [alternating 0, alternating 1]] := by
  decide

/-! ## A lone command that never matches -/

theorem receiveAll_stored (s : AsyncDuplex) (rx : List Nat)
    (hlen : s.inputBuffer.length = INPUT_BUFFER_LENGTH)
    (hfit : s.bufferPos + rx.length < INPUT_BUFFER_LENGTH) :
    ∃ s1, receiveAll s rx = .ok s1 ∧ Stored s s1 rx.length := by
  obtain ⟨s1, h1, h2⟩ := receiveAll_ok rx s hlen hfit
  obtain ⟨a1, a2, a3, a4, a5, a6, a7⟩ := receiveAll_fields rx s s1 h1
  exact ⟨s1, h1, a1, a2, a3, a4, a5, a6, a7, h2⟩

/-- While the matcher reports no match of the expectation of the head, the
`while` loop only stores the bytes. -/
theorem drain_no_match (matcher : Matcher) (millis : Nat) (head : Command)
    (hnm : ∀ target, matcher target head.expectation = none) (rx : List Nat) :
    ∀ s : AsyncDuplex, s.processing = true → s.commandQueue[0]? = some head →
      drain matcher millis s rx = receiveAll s rx := by
  induction rx with
  | nil => intro s _ _; rfl
  | cons b rest ih =>
    intro s hp hh
    rw [receiveAll_cons]
    cases hr : receive s b with
    | error e => rw [drain, hr]; rfl
    | ok s1 =>
      obtain ⟨a1, _, a3, _⟩ := receive_fields s s1 b hr
      rw [drain_cons_of_receive matcher millis s s1 b rest head hr hp hh, hnm]
      exact ih s1 (a3.trans hp) (a1 ▸ hh)

theorem startNext_eq (s : AsyncDuplex) (millis : Nat) (head : Command)
    (hh : s.commandQueue[0]? = some head) :
    startNext s millis
      = if s.processing = false ∧ s.queueLength > 0 ∧ head.delay ≤ millis then
          .ok { s with trace := s.trace ++ [Event.println head.command], processing := true,
                       timeout := (millis + head.timeout) % UINT32 }
        else .ok s := by
  rw [startNext, readSlot_of_getElem? hh]

/-- A `loop` invocation on an idle dispatcher that starts nothing (the queue
is empty, or the head is not due): the bytes are stored, nothing else
changes. -/
theorem loop_idle_waiting (matcher : Matcher) (s : AsyncDuplex) (millis : Nat)
    (rx : List Nat) (head : Command)
    (hlen : s.inputBuffer.length = INPUT_BUFFER_LENGTH)
    (hfit : s.bufferPos + rx.length < INPUT_BUFFER_LENGTH)
    (hbeg : s.began = true) (hp : s.processing = false)
    (hh : s.commandQueue[0]? = some head)
    (hw : s.queueLength = 0 ∨ millis < head.delay) :
    ∃ s1, loop matcher s millis rx = .ok s1 ∧ Stored s s1 rx.length := by
  obtain ⟨s1, h1, hs⟩ := receiveAll_stored s rx hlen hfit
  obtain ⟨a1, a2, a3, a4, a5, a6, a7, a8⟩ := hs
  refine ⟨s1, ?_, a1, a2, a3, a4, a5, a6, a7, a8⟩
  unfold loop
  rw [if_neg (by simp [hbeg]), timeoutStep_idle s millis (by simp [hp])]
  dsimp only
  rw [drain_idle matcher millis rx s hp, h1]
  dsimp only
  rw [startNext_eq s1 millis head (a1 ▸ hh), if_neg]
  rw [a2]
  rcases hw with h0 | hd
  · omega
  · omega

/-- A `loop` invocation on an idle dispatcher whose head is due: the bytes
are stored, then the text of the head is written, the head is in flight and
the deadline is `millis + timeout`. -/
theorem loop_idle_starts (matcher : Matcher) (s : AsyncDuplex) (millis : Nat)
    (rx : List Nat) (head : Command)
    (hlen : s.inputBuffer.length = INPUT_BUFFER_LENGTH)
    (hfit : s.bufferPos + rx.length < INPUT_BUFFER_LENGTH)
    (hbeg : s.began = true) (hp : s.processing = false)
    (hh : s.commandQueue[0]? = some head)
    (hn : 0 < s.queueLength) (hd : head.delay ≤ millis) :
    ∃ s1, loop matcher s millis rx = .ok s1
      ∧ Stored { s with trace := s.trace ++ [Event.println head.command], processing := true,
                        timeout := (millis + head.timeout) % UINT32 } s1 rx.length := by
  obtain ⟨s1, h1, hs⟩ := receiveAll_stored s rx hlen hfit
  obtain ⟨a1, a2, a3, a4, a5, a6, a7, a8⟩ := hs
  refine ⟨{ s1 with trace := s1.trace ++ [Event.println head.command], processing := true,
                    timeout := (millis + head.timeout) % UINT32 }, ?_,
    a1, a2, rfl, a4, rfl, by simp [a6], a7, a8⟩
  unfold loop
  rw [if_neg (by simp [hbeg]), timeoutStep_idle s millis (by simp [hp])]
  dsimp only
  rw [drain_idle matcher millis rx s hp, h1]
  dsimp only
  rw [startNext_eq s1 millis head (a1 ▸ hh), if_pos ⟨a3.trans hp, by omega, hd⟩]

/-- A `loop` invocation after the deadline of the lone command in flight:
the `failure` callable is called if it is not empty, the queue becomes
empty, the dispatcher idle, the bytes are stored and nothing is started. -/
theorem loop_inflight_fires (matcher : Matcher) (s : AsyncDuplex) (millis : Nat)
    (rx : List Nat) (head : Command)
    (hq : s.commandQueue.length = COMMAND_QUEUE_SIZE)
    (hlen : s.inputBuffer.length = INPUT_BUFFER_LENGTH)
    (hfit : s.bufferPos + rx.length < INPUT_BUFFER_LENGTH)
    (hbeg : s.began = true) (hp : s.processing = true)
    (hh : s.commandQueue[0]? = some head)
    (hn : s.queueLength = 1)
    (hd : s.timeout < millis) :
    ∃ s1, loop matcher s millis rx = .ok s1
      ∧ s1.commandQueue.length = COMMAND_QUEUE_SIZE
      ∧ s1.queueLength = 0 ∧ s1.processing = false ∧ s1.began = true
      ∧ s1.trace = s.trace ++ failureEvents head.failure
      ∧ s1.inputBuffer.length = INPUT_BUFFER_LENGTH
      ∧ s1.bufferPos = s.bufferPos + rx.length := by
  have hl : s.commandQueue[s.queueLength - 1]? = some head := by rw [hn]; exact hh
  have hts := timeoutStep_eq s millis head head hp hd (by omega)
    (by rw [hn]; unfold COMMAND_QUEUE_SIZE; omega) hh hl
  obtain ⟨s1, h1, hs⟩ := receiveAll_stored { s with
      commandQueue := List.replicate s.queueLength head ++ s.commandQueue.drop s.queueLength,
      queueLength := s.queueLength - 1,
      inputBuffer := s.inputBuffer.set 0 0,
      processing := false,
      trace := s.trace ++ (match head.failure with
        | some id => [Event.failure id]
        | none => []) } rx (by simp [hlen]) hfit
  obtain ⟨a1, a2, a3, a4, a5, a6, a7, a8⟩ := hs
  have hq1 : s1.commandQueue.length = COMMAND_QUEUE_SIZE := by
    rw [a1]
    simp only [List.length_append, List.length_replicate, List.length_drop]
    rw [hq, hn]; unfold COMMAND_QUEUE_SIZE; omega
  obtain ⟨c, hc⟩ := head_exists s1 hq1
  refine ⟨s1, ?_, hq1, by rw [a2]; simp [hn], a3, a4.trans hbeg, ?_,
    by rw [a7]; simp [hlen], a8⟩
  · unfold loop
    rw [if_neg (by simp [hbeg]), hts]
    dsimp only
    rw [drain_idle matcher millis rx _ rfl, h1]
    dsimp only
    rw [startNext_eq s1 millis c hc, if_neg]
    rw [a2]
    simp [hn]
  · rw [a6]
    cases head.failure <;> rfl

theorem Stored.trans {s s1 s2 : AsyncDuplex} {n m : Nat} (h1 : Stored s s1 n)
    (h2 : Stored s1 s2 m) : Stored s s2 (n + m) := by
  obtain ⟨a1, a2, a3, a4, a5, a6, a7, a8⟩ := h1
  obtain ⟨b1, b2, b3, b4, b5, b6, b7, b8⟩ := h2
  exact ⟨b1.trans a1, b2.trans a2, b3.trans a3, b4.trans a4, b5.trans a5, b6.trans a6,
    b7.trans a7, by rw [b8, a8]; omega⟩

theorem run_cons (matcher : Matcher) (s : AsyncDuplex) (poll : Nat × List Nat)
    (rest : List (Nat × List Nat)) :
    run matcher s (poll :: rest)
      = (loop matcher s poll.1 poll.2).bind fun s1 => run matcher s1 rest := by
  rw [run]
  cases loop matcher s poll.1 poll.2 <;> rfl

theorem run_append (matcher : Matcher) (xs : List (Nat × List Nat)) :
    ∀ (s : AsyncDuplex) (ys : List (Nat × List Nat)),
      run matcher s (xs ++ ys) = (run matcher s xs).bind fun s1 => run matcher s1 ys := by
  induction xs with
  | nil => intro s ys; rfl
  | cons x xs ih =>
    intro s ys
    simp only [List.cons_append, run_cons]
    cases loop matcher s x.1 x.2 with
    | error e => rfl
    | ok s1 => exact ih s1 ys

theorem totalBytes_append (xs ys : List (Nat × List Nat)) :
    totalBytes (xs ++ ys) = totalBytes xs + totalBytes ys := by
  induction xs with
  | nil => simp [totalBytes]
  | cons x xs ih =>
    show x.2.length + totalBytes (xs ++ ys) = (x.2.length + totalBytes xs) + totalBytes ys
    rw [ih]; omega

/-- Polls of an idle dispatcher that start nothing: the bytes are stored,
nothing else changes. -/
theorem run_idle_waiting (matcher : Matcher) (head : Command) (polls : List (Nat × List Nat)) :
    ∀ s : AsyncDuplex, s.inputBuffer.length = INPUT_BUFFER_LENGTH →
      s.bufferPos + totalBytes polls < INPUT_BUFFER_LENGTH →
      s.began = true → s.processing = false → s.commandQueue[0]? = some head →
      (∀ p, p ∈ polls → s.queueLength = 0 ∨ p.1 < head.delay) →
      ∃ s1, run matcher s polls = .ok s1 ∧ Stored s s1 (totalBytes polls) := by
  induction polls with
  | nil =>
    intro s _ _ _ _ _ _
    exact ⟨s, rfl, rfl, rfl, rfl, rfl, rfl, rfl, rfl, rfl⟩
  | cons p polls ih =>
    intro s hlen hfit hbeg hp hh hw
    simp only [totalBytes] at hfit ⊢
    obtain ⟨s1, h1, hs1⟩ := loop_idle_waiting matcher s p.1 p.2 head hlen (by omega) hbeg hp hh
      (hw p (by simp))
    obtain ⟨a1, a2, a3, a4, a5, a6, a7, a8⟩ := hs1
    obtain ⟨s2, h2, hs2⟩ := ih s1 (a7.trans hlen) (by rw [a8]; omega) (a4.trans hbeg)
      (a3.trans hp) (a1 ▸ hh) (fun q hq => by rw [a2]; exact hw q (by simp [hq]))
    refine ⟨s2, ?_, Stored.trans ⟨a1, a2, a3, a4, a5, a6, a7, a8⟩ hs2⟩
    rw [run_cons, h1]
    exact h2

/-- The function `asyncExecute` on an empty queue, with either timing: the
new command is at index 0 and the queue length is 1. -/
theorem asyncExecute_on_empty (s : AsyncDuplex) (millis : Nat) (cmd exp : List Nat)
    (timing : Timing) (su : Success) (fa : Option Nat) (tmo dly : Nat)
    (hq : s.commandQueue.length = COMMAND_QUEUE_SIZE) (hn : s.queueLength = 0)
    (hcmd : cmd.length < MAX_COMMAND_LENGTH) (hexp : exp.length < MAX_EXPECTATION_LENGTH) :
    ∃ s1, asyncExecute s millis cmd exp timing su fa tmo dly = .ok (true, s1)
      ∧ s1.commandQueue[0]? = some (Command.mk cmd exp su fa tmo ((dly + millis) % UINT32))
      ∧ s1.commandQueue.length = COMMAND_QUEUE_SIZE ∧ s1.queueLength = 1
      ∧ s1.inputBuffer = s.inputBuffer ∧ s1.bufferPos = s.bufferPos
      ∧ s1.processing = s.processing ∧ s1.began = s.began ∧ s1.timeout = s.timeout
      ∧ s1.trace = s.trace := by
  obtain ⟨c, hc⟩ := head_exists s hq
  cases timing with
  | NEXT =>
    refine ⟨_, asyncExecute_NEXT_eq s millis cmd exp su fa tmo dly c hq (by omega) hc hcmd hexp,
      by simp, ?_, by simp [hn], rfl, rfl, rfl, rfl, rfl, rfl⟩
    simp only [List.length_cons, List.length_append, List.length_replicate, List.length_drop]
    rw [hq, hn]; unfold COMMAND_QUEUE_SIZE; omega
  | ANY =>
    refine ⟨{ s with
      commandQueue := s.commandQueue.set s.queueLength
        (Command.mk cmd exp su fa tmo ((dly + millis) % UINT32)),
      queueLength := (s.queueLength + 1) % UINT8 }, ?_, ?_, by simp [hq], by simp [hn, UINT8],
      rfl, rfl, rfl, rfl, rfl, rfl⟩
    · unfold asyncExecute
      simp only [if_true]
      rw [if_neg (by simp [hq, hn, COMMAND_QUEUE_SIZE]), if_neg (by simp [hcmd]),
        if_neg (by simp [hexp])]
    · simp only [hn]
      rw [List.getElem?_set]
      simp [hq, COMMAND_QUEUE_SIZE]

/-- One byte more than the scan buffer has room for: the terminator is
written to `inputBuffer[INPUT_BUFFER_LENGTH]`, outside the array. -/
theorem receiveAll_overflow (s : AsyncDuplex) (rx : List Nat) (b : Nat)
    (hlen : s.inputBuffer.length = INPUT_BUFFER_LENGTH)
    (hfull : s.bufferPos + rx.length + 1 = INPUT_BUFFER_LENGTH) :
    receiveAll s (rx ++ [b]) = .error (Fault.inputBuffer INPUT_BUFFER_LENGTH) := by
  obtain ⟨s1, h1, h2⟩ := receiveAll_ok rx s hlen (by omega)
  obtain ⟨_, _, _, _, _, _, a7⟩ := receiveAll_fields rx s s1 h1
  have hpos : s1.bufferPos + 1 = INPUT_BUFFER_LENGTH := by rw [h2]; exact hfull
  have hmod : (s1.bufferPos + 1) % UINT16 = INPUT_BUFFER_LENGTH := by
    rw [hpos]; rfl
  rw [receiveAll_append, h1]
  show receiveAll s1 [b] = _
  rw [receiveAll_cons, receive, if_neg (by rw [a7, hlen]; omega)]
  simp only [hmod]
  rw [if_pos (by simp [a7, hlen])]
  rfl

theorem bind_ok {α β : Type} (a : α) (f : α → Except Fault β) :
    (Except.ok a : Except Fault α).bind f = f a := rfl

theorem bind_error {α β : Type} (e : Fault) (f : α → Except Fault β) :
    (Except.error e : Except Fault α).bind f = .error e := rfl

/-- The three steps of `loop` on a dispatcher that has begun. -/
theorem loop_eq (matcher : Matcher) (s : AsyncDuplex) (millis : Nat) (rx : List Nat)
    (hbeg : s.began = true) :
    loop matcher s millis rx
      = (timeoutStep s millis).bind fun s1 =>
          (drain matcher millis s1 rx).bind fun s2 => startNext s2 millis := by
  unfold loop
  rw [if_neg (by simp [hbeg])]
  cases timeoutStep s millis with
  | error e => rfl
  | ok s1 =>
    dsimp only [Except.bind]
    cases drain matcher millis s1 rx <;> rfl

set_option maxRecDepth 100000 in
/-- C7, counterexample.  `cmdAT` alone on a fresh dispatcher is started at
time 0; the matcher never reports a match; 512 bytes arrive in the
invocation at time 1.  The terminator of the 512th byte is written to
`inputBuffer[512]`, outside the array, and the run does not reach the call
of `failure` at the poll of time 2000. -/
theorem lone_command_stream_overflows :
    ((asyncExecuteCommand fresh 0 cmdAT Timing.ANY).bind fun r =>
      run noMatch r.2 [(0, []), (1, List.replicate INPUT_BUFFER_LENGTH 120), (2000, [])])
      = .error (Fault.inputBuffer INPUT_BUFFER_LENGTH) := by
  have h0 : asyncExecuteCommand fresh 0 cmdAT Timing.ANY
      = .ok (true, { atInFlight with processing := false, timeout := 0, trace := [] }) := by
    decide
  have h1 : loop noMatch { atInFlight with processing := false, timeout := 0, trace := [] } 0 []
      = .ok atInFlight := by decide
  have hrx : List.replicate INPUT_BUFFER_LENGTH 120 = List.replicate 511 120 ++ [120] := by
    rw [← List.replicate_succ' 511 120]; rfl
  have h2 : loop noMatch atInFlight 1 (List.replicate INPUT_BUFFER_LENGTH 120)
      = .error (Fault.inputBuffer INPUT_BUFFER_LENGTH) := by
    rw [loop_eq noMatch atInFlight 1 _ (by decide), timeoutStep_idle atInFlight 1 (by decide),
      bind_ok, drain_no_match noMatch 1 cmdAT (fun _ => rfl) _ atInFlight (by decide) (by decide),
      hrx, receiveAll_overflow atInFlight (List.replicate 511 120) 120 (by decide) (by decide),
      bind_error]
  rw [h0, bind_ok, run_cons, h1, bind_ok, run_cons, h2, bind_error]

/-- What `receive` does to the scan buffer depends on the scan buffer only. -/
theorem receive_congr (u s u1 : AsyncDuplex) (b : Nat)
    (hb : u.inputBuffer = s.inputBuffer) (hp : u.bufferPos = s.bufferPos)
    (h : receive u b = .ok u1) :
    ∃ s1, receive s b = .ok s1 ∧ s1.inputBuffer = u1.inputBuffer
      ∧ s1.bufferPos = u1.bufferPos := by
  unfold receive at h ⊢
  rw [hb, hp] at h
  split at h
  · cases h
  · rename_i h1
    rw [if_neg h1]
    dsimp only at h ⊢
    split at h
    · cases h
    · rename_i h2
      rw [if_neg h2]
      cases h
      exact ⟨_, rfl, rfl, rfl⟩

theorem receiveAll_congr (rx : List Nat) : ∀ (u s up : AsyncDuplex),
    u.inputBuffer = s.inputBuffer → u.bufferPos = s.bufferPos →
    receiveAll u rx = .ok up →
    ∃ sp, receiveAll s rx = .ok sp ∧ sp.inputBuffer = up.inputBuffer
      ∧ sp.bufferPos = up.bufferPos := by
  induction rx with
  | nil =>
    intro u s up hb hp h
    cases h
    exact ⟨s, rfl, hb.symm, hp.symm⟩
  | cons b rest ih =>
    intro u s up hb hp h
    rw [receiveAll_cons] at h ⊢
    cases hr : receive u b with
    | error e => rw [hr] at h; cases h
    | ok u1 =>
      rw [hr, bind_ok] at h
      obtain ⟨s1, hs1, hb1, hp1⟩ := receive_congr u s u1 b hb hp hr
      rw [hs1, bind_ok]
      exact ih u1 s1 up hb1.symm hp1.symm h

/-- The last step of `loop`, when it returns: either nothing changed, or the
dispatcher was idle, the queue not empty and the command in slot 0 due, and
that command is started: its text is written and the deadline is the current
time plus its own timeout. -/
theorem startNext_frame (s s1 : AsyncDuplex) (millis : Nat)
    (h : startNext s millis = .ok s1) :
    s1 = s
      ∨ (s.processing = false ∧ 0 < s.queueLength
        ∧ ∃ next, s.commandQueue[0]? = some next ∧ next.delay ≤ millis
          ∧ s1 = { s with trace := s.trace ++ [Event.println next.command],
                          processing := true,
                          timeout := (millis + next.timeout) % UINT32 }) := by
  unfold startNext at h
  cases hr : readSlot s.commandQueue 0 with
  | error e => rw [hr] at h; cases h
  | ok head =>
    rw [hr] at h
    dsimp only at h
    have hh : s.commandQueue[0]? = some head := by
      unfold readSlot at hr
      split at hr
      · rename_i c hc
        cases hr
        exact hc
      · cases hr
    split at h
    · rename_i hc
      cases h
      exact Or.inr ⟨hc.1, hc.2.1, head, hh, hc.2.2, rfl⟩
    · cases h
      exact Or.inl rfl

/-- While the matcher reports no match of the expectation of the head on the
scan buffer after each received byte, the `while` loop only stores the
bytes. -/
theorem drain_no_match_prefix (matcher : Matcher) (millis : Nat) (head : Command)
    (rx : List Nat) :
    ∀ s : AsyncDuplex, s.processing = true → s.commandQueue[0]? = some head →
      (∀ k, k < rx.length → ∀ sk, receiveAll s (rx.take (k + 1)) = .ok sk →
        matcher (cString sk.inputBuffer) head.expectation = none) →
      drain matcher millis s rx = receiveAll s rx := by
  induction rx with
  | nil => intro s _ _ _; rfl
  | cons b rest ih =>
    intro s hp hh hpre
    rw [receiveAll_cons]
    cases hr : receive s b with
    | error e => rw [drain, hr]; rfl
    | ok s1 =>
      obtain ⟨a1, _, a3, _⟩ := receive_fields s s1 b hr
      have hnone : matcher (cString s1.inputBuffer) head.expectation = none := by
        apply hpre 0 (by simp) s1
        simp [receiveAll_cons, hr, Except.bind, receiveAll]
      rw [drain_cons_of_receive matcher millis s s1 b rest head hr hp hh, hnone, bind_ok]
      apply ih s1 (a3.trans hp) (a1 ▸ hh)
      intro k hk sk hsk
      apply hpre (k + 1) (by simp; omega) sk
      simp only [List.take_succ_cons, receiveAll_cons, hr, bind_ok]
      exact hsk

/-- A `loop` invocation while a command is in flight, at or before the
deadline, the matcher reporting no match after any of the received bytes:
the bytes are stored, nothing else changes. -/
theorem loop_inflight_waits_prefix (matcher : Matcher) (s : AsyncDuplex) (millis : Nat)
    (rx : List Nat) (head : Command)
    (hlen : s.inputBuffer.length = INPUT_BUFFER_LENGTH)
    (hfit : s.bufferPos + rx.length < INPUT_BUFFER_LENGTH)
    (hbeg : s.began = true) (hp : s.processing = true)
    (hh : s.commandQueue[0]? = some head)
    (hpre : ∀ k, k < rx.length → ∀ sk, receiveAll s (rx.take (k + 1)) = .ok sk →
      matcher (cString sk.inputBuffer) head.expectation = none)
    (hd : millis ≤ s.timeout) :
    ∃ s1, loop matcher s millis rx = .ok s1 ∧ receiveAll s rx = .ok s1
      ∧ Stored s s1 rx.length := by
  obtain ⟨s1, h1, hs⟩ := receiveAll_stored s rx hlen hfit
  obtain ⟨a1, a2, a3, a4, a5, a6, a7, a8⟩ := hs
  refine ⟨s1, ?_, h1, a1, a2, a3, a4, a5, a6, a7, a8⟩
  rw [loop_eq matcher s millis rx hbeg, timeoutStep_idle s millis (by omega), bind_ok,
    drain_no_match_prefix matcher millis head rx s hp hh hpre, h1, bind_ok,
    startNext_eq s1 millis head (a1 ▸ hh), if_neg]
  rw [a3, hp]
  simp

/-- Polls at or before the deadline of the command in flight, the matcher
reporting no match after any of the received bytes: the bytes are stored,
nothing else changes. -/
theorem run_inflight_waits_prefix (matcher : Matcher) (head : Command)
    (polls : List (Nat × List Nat)) :
    ∀ s : AsyncDuplex, s.inputBuffer.length = INPUT_BUFFER_LENGTH →
      s.bufferPos + totalBytes polls < INPUT_BUFFER_LENGTH →
      s.began = true → s.processing = true → s.commandQueue[0]? = some head →
      (∀ p, p ∈ polls → p.1 ≤ s.timeout) →
      (∀ k, k < (stream polls).length → ∀ sk,
        receiveAll s ((stream polls).take (k + 1)) = .ok sk →
        matcher (cString sk.inputBuffer) head.expectation = none) →
      ∃ s1, run matcher s polls = .ok s1 ∧ Stored s s1 (totalBytes polls) := by
  induction polls with
  | nil =>
    intro s _ _ _ _ _ _ _
    exact ⟨s, rfl, rfl, rfl, rfl, rfl, rfl, rfl, rfl, rfl⟩
  | cons p polls ih =>
    intro s hlen hfit hbeg hp hh hw hpre
    simp only [totalBytes] at hfit ⊢
    simp only [stream] at hpre
    obtain ⟨s1, h1, hrx, hs1⟩ := loop_inflight_waits_prefix matcher s p.1 p.2 head hlen
      (by omega) hbeg hp hh
      (by
        intro k hk sk hsk
        apply hpre k (by simp; omega) sk
        rw [List.take_append_of_le_length (by omega)]
        exact hsk)
      (hw p (by simp))
    obtain ⟨a1, a2, a3, a4, a5, a6, a7, a8⟩ := hs1
    obtain ⟨s2, h2, hs2⟩ := ih s1 (a7.trans hlen) (by rw [a8]; omega) (a4.trans hbeg)
      (a3.trans hp) (a1 ▸ hh) (fun q hq => by rw [a5]; exact hw q (by simp [hq]))
      (by
        intro k hk sk hsk
        apply hpre (p.2.length + k) (by simp; omega) sk
        have ht : List.take (p.2.length + k + 1) (p.2 ++ stream polls)
            = p.2 ++ List.take (k + 1) (stream polls) := by
          rw [Nat.add_assoc, List.take_append]
        rw [ht, receiveAll_append, hrx, bind_ok]
        exact hsk)
    refine ⟨s2, ?_, Stored.trans ⟨a1, a2, a3, a4, a5, a6, a7, a8⟩ hs2⟩
    rw [run_cons, h1]
    exact h2

/-- A `loop` invocation on an idle dispatcher that returns: the scan buffer
is the one that storing the bytes gives. -/
theorem loop_idle_buffer (matcher : Matcher) (s s1 : AsyncDuplex) (millis : Nat)
    (rx : List Nat) (hbeg : s.began = true) (hp : s.processing = false)
    (h : loop matcher s millis rx = .ok s1) :
    ∃ u, receiveAll s rx = .ok u ∧ s1.inputBuffer = u.inputBuffer
      ∧ s1.bufferPos = u.bufferPos := by
  rw [loop_eq matcher s millis rx hbeg, timeoutStep_idle s millis (by simp [hp]), bind_ok,
    drain_idle matcher millis rx s hp] at h
  cases hr : receiveAll s rx with
  | error e => rw [hr, bind_error] at h; cases h
  | ok u =>
    rw [hr, bind_ok] at h
    rcases startNext_frame u s1 millis h with e | ⟨_, _, next, _, _, e⟩
    · subst e
      exact ⟨_, rfl, rfl, rfl⟩
    · subst e
      exact ⟨u, rfl, rfl, rfl⟩

/-- Polls of an idle dispatcher that start nothing: the scan buffer is the
one that storing the bytes of the polls gives. -/
theorem run_idle_waiting_buffer (matcher : Matcher) (head : Command)
    (polls : List (Nat × List Nat)) :
    ∀ s : AsyncDuplex, s.inputBuffer.length = INPUT_BUFFER_LENGTH →
      s.bufferPos + totalBytes polls < INPUT_BUFFER_LENGTH →
      s.began = true → s.processing = false → s.commandQueue[0]? = some head →
      (∀ p, p ∈ polls → s.queueLength = 0 ∨ p.1 < head.delay) →
      ∀ sw, run matcher s polls = .ok sw →
      ∃ u, receiveAll s (stream polls) = .ok u ∧ sw.inputBuffer = u.inputBuffer
        ∧ sw.bufferPos = u.bufferPos := by
  induction polls with
  | nil =>
    intro s _ _ _ _ _ _ sw h
    cases h
    exact ⟨s, rfl, rfl, rfl⟩
  | cons p polls ih =>
    intro s hlen hfit hbeg hp hh hw sw h
    simp only [totalBytes] at hfit
    obtain ⟨s1, h1, hs1⟩ := loop_idle_waiting matcher s p.1 p.2 head hlen (by omega) hbeg hp hh
      (hw p (by simp))
    obtain ⟨a1, a2, a3, a4, a5, a6, a7, a8⟩ := hs1
    rw [run_cons, h1, bind_ok] at h
    obtain ⟨u1, g1, g2, g3⟩ := loop_idle_buffer matcher s s1 p.1 p.2 hbeg hp h1
    obtain ⟨u2, k1, k2, k3⟩ := ih s1 (a7.trans hlen) (by rw [a8]; omega) (a4.trans hbeg)
      (a3.trans hp) (a1 ▸ hh) (fun q hq => by rw [a2]; exact hw q (by simp [hq])) sw h
    obtain ⟨v, m1, m2, m3⟩ := receiveAll_congr (stream polls) s1 u1 u2 g2 g3 k1
    refine ⟨v, ?_, k2.trans m2.symm, k3.trans m3.symm⟩
    simp only [stream]
    rw [receiveAll_append, g1, bind_ok]
    exact m1

/-- C7, amended: the byte stream fits the scan buffer.  A single command is
enqueued (either timing) at time `t0` with delay `dly` on an empty idle
dispatcher, the counter does not wrap, and the bytes of all polls fit the
scan buffer.  The matcher reports no match of the expectation on this byte
stream (`hnm`): it reports none on the scan buffer after any of the bytes
received while the command is in flight, the scan buffer being the one that
storing the bytes received so far on `s0` gives.  The
polls are: `waiting`, before `dly + t0`; `start`, the first one at or after
`dly + t0`; `inflight`, at or before the recorded deadline
`start.1 + tmo`; `fire`, the first one after that deadline; `rest`,
whatever follows.  Then no callable is called up to the end of `inflight`
(the text was written, the command is in flight); at `fire` the `failure`
callable is called once, if it is not empty, the queue becomes empty and the
dispatcher idle; the polls of `rest` call nothing; no `success` callable is
ever called; and the time of `fire` is later than `dly + t0 + tmo`. -/
theorem lone_command_times_out (matcher : Matcher) (s0 : AsyncDuplex) (t0 : Nat)
    (cmd exp : List Nat) (timing : Timing) (su : Success) (fa : Option Nat) (tmo dly : Nat)
    (waiting inflight rest : List (Nat × List Nat)) (start fire : Nat × List Nat)
    (hq : s0.commandQueue.length = COMMAND_QUEUE_SIZE)
    (hlen : s0.inputBuffer.length = INPUT_BUFFER_LENGTH)
    (hbeg : s0.began = true) (hidle : s0.processing = false) (hempty : s0.queueLength = 0)
    (hcmd : cmd.length < MAX_COMMAND_LENGTH) (hexp : exp.length < MAX_EXPECTATION_LENGTH)
    (hnm : ∀ k, k < (stream inflight).length → ∀ u,
      receiveAll s0 (stream waiting ++ start.2 ++ (stream inflight).take (k + 1)) = .ok u →
      matcher (cString u.inputBuffer) exp = none)
    (hwrap1 : dly + t0 < UINT32) (hwrap2 : start.1 + tmo < UINT32)
    (hfit : s0.bufferPos + totalBytes (waiting ++ start :: inflight ++ fire :: rest)
      < INPUT_BUFFER_LENGTH)
    (hw : ∀ p, p ∈ waiting → p.1 < dly + t0)
    (hs : dly + t0 ≤ start.1)
    (hi : ∀ p, p ∈ inflight → p.1 ≤ start.1 + tmo)
    (hf : start.1 + tmo < fire.1) :
    ∃ s1, asyncExecute s0 t0 cmd exp timing su fa tmo dly = .ok (true, s1)
      ∧ (∃ sw, run matcher s1 waiting = .ok sw
          ∧ sw.trace = s0.trace ∧ getQueueLength sw = 1 ∧ sw.processing = false)
      ∧ (∃ sf, run matcher s1 (waiting ++ start :: inflight) = .ok sf
          ∧ sf.trace = s0.trace ++ [Event.println cmd] ∧ getQueueLength sf = 1
          ∧ sf.processing = true ∧ sf.timeout = start.1 + tmo)
      ∧ (∃ sd, run matcher s1 (waiting ++ start :: inflight ++ [fire]) = .ok sd
          ∧ sd.trace = s0.trace ++ [Event.println cmd] ++ failureEvents fa
          ∧ getQueueLength sd = 0 ∧ sd.processing = false)
      ∧ (∃ se, run matcher s1 (waiting ++ start :: inflight ++ fire :: rest) = .ok se
          ∧ se.trace = s0.trace ++ [Event.println cmd] ++ failureEvents fa
          ∧ getQueueLength se = 0 ∧ se.processing = false)
      ∧ dly + t0 + tmo < fire.1 := by
  simp only [totalBytes_append, totalBytes] at hfit
  obtain ⟨s1, e0, e1, e2, e3, e4, e5, e6, e7, e8, e9⟩ :=
    asyncExecute_on_empty s0 t0 cmd exp timing su fa tmo dly hq hempty hcmd hexp
  have hdelay : (dly + t0) % UINT32 = dly + t0 := Nat.mod_eq_of_lt hwrap1
  rw [hdelay] at e1
  -- the polls before the command is due
  obtain ⟨sw, hrw, w1, w2, w3, w4, w5, w6, w7, w8⟩ :=
    run_idle_waiting matcher _ waiting s1 (by rw [e4]; exact hlen) (by rw [e5]; omega)
      (e7.trans hbeg) (e6.trans hidle) e1 (fun p hp => Or.inr (hw p hp))
  -- the poll that starts it
  obtain ⟨ss, hrs, a1, a2, a3, a4, a5, a6, a7, a8⟩ :=
    loop_idle_starts matcher sw start.1 start.2 _ (by rw [w7, e4]; exact hlen)
      (by rw [w8, e5]; omega) (w4.trans (e7.trans hbeg)) (w3.trans (e6.trans hidle))
      (w1 ▸ e1) (by rw [w2, e3]; omega) hs
  simp only [] at a1 a2 a3 a4 a5 a6 a7 a8
  have hto : ss.timeout = start.1 + tmo := by rw [a5]; exact Nat.mod_eq_of_lt hwrap2
  have hhs : ss.commandQueue[0]? = some (Command.mk cmd exp su fa tmo (dly + t0)) := by
    rw [a1, w1]; exact e1
  -- the polls up to the deadline
  obtain ⟨uw, hw1, hw2, hw3⟩ :=
    run_idle_waiting_buffer matcher _ waiting s1 (by rw [e4]; exact hlen) (by rw [e5]; omega)
      (e7.trans hbeg) (e6.trans hidle) e1 (fun p hp => Or.inr (hw p hp)) sw hrw
  obtain ⟨us, hs1, hs2, hs3⟩ :=
    loop_idle_buffer matcher sw ss start.1 start.2 (w4.trans (e7.trans hbeg))
      (w3.trans (e6.trans hidle)) hrs
  have hpre : ∀ k, k < (stream inflight).length → ∀ sk,
      receiveAll ss ((stream inflight).take (k + 1)) = .ok sk →
      matcher (cString sk.inputBuffer) exp = none := by
    intro k hk sk hsk
    obtain ⟨v1, p1, p2, p3⟩ := receiveAll_congr _ ss us sk hs2 hs3 hsk
    have q1 : receiveAll sw (start.2 ++ (stream inflight).take (k + 1)) = .ok v1 := by
      rw [receiveAll_append, hs1, bind_ok]
      exact p1
    obtain ⟨v2, p4, p5, p6⟩ := receiveAll_congr _ sw uw v1 hw2 hw3 q1
    have q2 : receiveAll s1 (stream waiting ++ (start.2 ++ (stream inflight).take (k + 1)))
        = .ok v2 := by
      rw [receiveAll_append, hw1, bind_ok]
      exact p4
    obtain ⟨v3, p7, p8, _⟩ := receiveAll_congr _ s1 s0 v2 e4 e5 q2
    rw [← List.append_assoc] at p7
    have := hnm k hk v3 p7
    rw [p8, p5, p2] at this
    exact this
  obtain ⟨sf, hrf, f1, f2, f3, f4, f5, f6, f7, f8⟩ :=
    run_inflight_waits_prefix matcher (Command.mk cmd exp su fa tmo (dly + t0)) inflight ss
      (by rw [a7, w7, e4]; exact hlen) (by rw [a8, w8, e5]; omega)
      (a4.trans (w4.trans (e7.trans hbeg))) a3 hhs (fun p hp => by rw [hto]; exact hi p hp)
      hpre
  -- the poll after the deadline
  obtain ⟨sd, hrd, d1, d2, d3, d4, d5, d6, d7⟩ :=
    loop_inflight_fires matcher sf fire.1 fire.2 (Command.mk cmd exp su fa tmo (dly + t0))
      (by rw [f1, a1, w1]; exact e2) (by rw [f7, a7, w7, e4]; exact hlen)
      (by rw [f8, a8, w8, e5]; omega) (f4.trans (a4.trans (w4.trans (e7.trans hbeg))))
      (f3.trans a3) (f1 ▸ hhs) (by rw [f2, a2, w2]; exact e3) (by rw [f5, hto]; exact hf)
  -- the polls after the timeout
  obtain ⟨c, hc⟩ := head_exists sd d1
  obtain ⟨se, hre, r1, r2, r3, r4, r5, r6, r7, r8⟩ :=
    run_idle_waiting matcher c rest sd d6 (by rw [d7, f8, a8, w8, e5]; omega) d4 d3 hc
      (fun _ _ => Or.inl d2)
  have htf : sf.trace = s0.trace ++ [Event.println cmd] := by rw [f6, a6, w6, e9]
  have hrun_f : run matcher s1 (waiting ++ start :: inflight) = .ok sf := by
    rw [run_append, hrw]
    show run matcher sw (start :: inflight) = _
    rw [run_cons, hrs]
    exact hrf
  have hrun_d : run matcher s1 (waiting ++ start :: inflight ++ [fire]) = .ok sd := by
    have : waiting ++ start :: inflight ++ [fire] = (waiting ++ start :: inflight) ++ [fire] := by
      simp
    rw [this, run_append, hrun_f]
    show run matcher sf [fire] = _
    rw [run_cons, hrd]
    rfl
  have hrun_e : run matcher s1 (waiting ++ start :: inflight ++ fire :: rest) = .ok se := by
    have : waiting ++ start :: inflight ++ fire :: rest
        = (waiting ++ start :: inflight ++ [fire]) ++ rest := by simp
    rw [this, run_append, hrun_d]
    exact hre
  refine ⟨s1, e0, ⟨sw, hrw, w6.trans e9, by simp only [getQueueLength]; rw [w2, e3],
      w3.trans (e6.trans hidle)⟩,
    ⟨sf, hrun_f, htf, by simp only [getQueueLength]; rw [f2, a2, w2, e3], f3.trans a3,
      f5.trans hto⟩,
    ⟨sd, hrun_d, by rw [d5, htf], d2, d3⟩,
    ⟨se, hrun_e, by rw [r6, d5, htf], by simp only [getQueueLength]; rw [r2, d2],
      r3.trans d3⟩, by omega⟩

set_option maxRecDepth 100000 in
/-- C7, amended, at a concrete input, with the matcher `literal`: `AT`
(expectation `OK`) enqueued with `Timing::NEXT` at time 0 with a delay of
10 ms and a timeout of 1000 ms; polls at the times 5 (before the command is
due), 10 (start, deadline 1010), 500 and 1010 (in flight), 1011 (timeout)
and 3000, with seven bytes in all.  The bytes `KO` arrive while the command
is in flight, and the byte `K` that completes `OK` arrives in the poll in
which the timeout fires. -/
theorem lone_command_times_out_witness :
    ∃ s1, asyncExecute fresh 0 [65, 84] [79, 75] Timing.NEXT (Success.user 1) (some 1) 1000 10
        = .ok (true, s1)
      ∧ (∃ sw, run literal s1 [(5, [120])] = .ok sw
          ∧ sw.trace = fresh.trace ∧ getQueueLength sw = 1 ∧ sw.processing = false)
      ∧ (∃ sf, run literal s1 ([(5, [120])] ++ (10, [121]) :: [(500, [75, 79]), (1010, [])])
            = .ok sf
          ∧ sf.trace = fresh.trace ++ [Event.println [65, 84]] ∧ getQueueLength sf = 1
          ∧ sf.processing = true ∧ sf.timeout = (10, [121]).1 + 1000)
      ∧ (∃ sd, run literal s1
            ([(5, [120])] ++ (10, [121]) :: [(500, [75, 79]), (1010, [])] ++ [(1011, [75])])
            = .ok sd
          ∧ sd.trace = fresh.trace ++ [Event.println [65, 84]] ++ failureEvents (some 1)
          ∧ getQueueLength sd = 0 ∧ sd.processing = false)
      ∧ (∃ se, run literal s1
            ([(5, [120])] ++ (10, [121]) :: [(500, [75, 79]), (1010, [])]
              ++ (1011, [75]) :: [(3000, [13, 10])])
            = .ok se
          ∧ se.trace = fresh.trace ++ [Event.println [65, 84]] ++ failureEvents (some 1)
          ∧ getQueueLength se = 0 ∧ se.processing = false)
      ∧ 10 + 0 + 1000 < (1011, [75]).1 :=
  lone_command_times_out literal fresh 0 [65, 84] [79, 75] Timing.NEXT (Success.user 1)
    (some 1) 1000 10 [(5, [120])] [(500, [75, 79]), (1010, [])] [(3000, [13, 10])] (10, [121])
    (1011, [75])
    (by decide) (by decide) (by decide) (by decide) (by decide) (by decide) (by decide)
    (by
      intro k hk u hu
      have hk2 : k < 2 := by simpa [stream] using hk
      have he0 : receiveAll fresh (stream [(5, [120])] ++ (10, [121]).2
          ++ List.take (0 + 1) (stream [(500, [75, 79]), (1010, [])]))
          = .ok (freshWith [120, 121, 75] 3) := by decide
      have he1 : receiveAll fresh (stream [(5, [120])] ++ (10, [121]).2
          ++ List.take (1 + 1) (stream [(500, [75, 79]), (1010, [])]))
          = .ok (freshWith [120, 121, 75, 79] 4) := by decide
      interval_cases k
      · cases he0.symm.trans hu
        decide
      · cases he1.symm.trans hu
        decide)
    (by decide) (by decide) (by decide) (by decide) (by decide) (by decide) (by decide)

/-! ## The start of the next command -/

/-- C12.  On an idle dispatcher whose queue head is not due (`millis()` is
less than its `delay`), a `loop` invocation that receives no byte returns
with the dispatcher exactly as it was: nothing is written, `processing`
stays `false`, the queue and its length are unchanged, whatever the slots
behind the head hold. -/
theorem loop_head_not_due (matcher : Matcher) (s : AsyncDuplex) (millis : Nat)
    (head : Command) (hp : s.processing = false)
    (hh : s.commandQueue[0]? = some head) (hd : millis < head.delay) :
    loop matcher s millis [] = .ok s := by
  unfold loop
  by_cases hb : s.began = false
  · rw [if_pos hb]
  · rw [if_neg hb, timeoutStep_idle s millis (by simp [hp])]
    dsimp only [drain]
    rw [startNext_eq s millis head hh, if_neg (by omega)]

/-- C12, at a concrete input: the head `A` is due at time 1000, the command
`B` behind it at time 0, and `loop` runs at time 5. -/
theorem loop_head_not_due_witness :
    loop noMatch { fresh with
        commandQueue := [{ sample 65 1 with delay := 1000 }, sample 66 2]
          ++ List.replicate 8 emptyCommand,
        queueLength := 2 } 5 []
      = .ok { fresh with
        commandQueue := [{ sample 65 1 with delay := 1000 }, sample 66 2]
          ++ List.replicate 8 emptyCommand,
        queueLength := 2 } :=
  loop_head_not_due noMatch _ 5 { sample 65 1 with delay := 1000 } (by decide) (by decide)
    (by decide)

set_option maxRecDepth 100000 in
/-- C13, counterexample.  `cmdAT` (timeout 1000 ms) is enqueued on a fresh
dispatcher at time 4294967000 and started by the `loop` invocation at that
time: the deadline recorded is 704, which is 4294967000 + 1000 reduced
modulo 2^32, not 4294968000; the invocation one millisecond later finds the
deadline passed and calls the `failure` callable. -/
theorem deadline_wraps :
    ((appendAll fresh 4294967000 [cmdAT]).bind fun s =>
      (loop noMatch s 4294967000 []).bind fun s1 =>
        (loop noMatch s1 4294967001 []).map fun s2 => (s1.timeout, s1.trace, s2.trace))
      = .ok (704, [Event.println [65, 84]], [Event.println [65, 84], Event.failure 1]) := by
  decide

/-- C13, amended: the deadline is an `unsigned long`.  Let `s2` be the
dispatcher after the timeout check and the `while` loop of a `loop`
invocation, and `head` its slot 0.  If the dispatcher is idle, the queue is
not empty and the head is due, the invocation ends with the text of the head
written, `processing` set, the deadline `millis() + head.timeout` reduced
modulo 2^32, and the queue and its length as they were; otherwise (in
particular in flight, or with an empty queue) it ends with `s2`: nothing is
written. -/
theorem loop_start_next (matcher : Matcher) (s : AsyncDuplex) (millis : Nat) (rx : List Nat)
    (s2 : AsyncDuplex) (head : Command)
    (hbeg : s.began = true)
    (h12 : ((timeoutStep s millis).bind fun s1 => drain matcher millis s1 rx) = .ok s2)
    (hh : s2.commandQueue[0]? = some head) :
    loop matcher s millis rx
      = .ok (if s2.processing = false ∧ 0 < s2.queueLength ∧ head.delay ≤ millis then
          { s2 with trace := s2.trace ++ [Event.println head.command], processing := true,
                    timeout := (millis + head.timeout) % UINT32 }
        else s2) := by
  rw [loop_eq matcher s millis rx hbeg]
  cases ht : timeoutStep s millis with
  | error e => rw [ht] at h12; cases h12
  | ok s1 =>
    rw [ht, bind_ok] at h12
    rw [bind_ok, h12, bind_ok, startNext_eq s2 millis head hh]
    by_cases hc : s2.processing = false ∧ s2.queueLength > 0 ∧ head.delay ≤ millis
    · rw [if_pos hc, if_pos hc]
    · rw [if_neg hc, if_neg hc]

set_option maxRecDepth 100000 in
/-- C13, amended, at a concrete input: `cmdAT` is queued on an idle
dispatcher, one byte arrives in the invocation at time 4294967000; `AT` is
written and the deadline is 704. -/
theorem loop_start_next_witness :
    loop noMatch atQueued 4294967000 [120]
      = .ok (if atQueuedByte.processing = false ∧ 0 < atQueuedByte.queueLength
            ∧ cmdAT.delay ≤ 4294967000 then
          { atQueuedByte with
            trace := atQueuedByte.trace ++ [Event.println cmdAT.command], processing := true,
            timeout := (4294967000 + cmdAT.timeout) % UINT32 }
        else atQueuedByte) :=
  loop_start_next noMatch atQueued 4294967000 [120] atQueuedByte cmdAT (by decide) (by decide)
    (by decide)

/-! ## Scheduled time and string lengths in `asyncExecute` -/

set_option maxRecDepth 100000 in
/-- C14, the code at a failing input.  At time 100 the command `cmdAT` with
the delay field 500 is enqueued through the overload
`asyncExecute(const Command*, Timing)`: the overload does not pass the delay
field on, and the slot stores the scheduled time 100, the same as for the
delay field 0, not 600.  The same values passed as separate arguments give
600. -/
theorem asyncExecuteCommand_drops_delay :
    (asyncExecuteCommand fresh 100 { cmdAT with delay := 500 } Timing.ANY).map
        (fun r => (queue r.2).map fun c => c.delay) = .ok [100]
      ∧ asyncExecuteCommand fresh 100 { cmdAT with delay := 500 } Timing.ANY
        = asyncExecuteCommand fresh 100 { cmdAT with delay := 0 } Timing.ANY
      ∧ (asyncExecute fresh 100 [65, 84] [79, 75] Timing.ANY (Success.user 1) (some 1) 1000
          500).map (fun r => (queue r.2).map fun c => c.delay) = .ok [600] := by
  decide

set_option maxRecDepth 100000 in
/-- C15, counterexample.  A text of 128 bytes does not fit the array of 128
bytes with its terminator; `asyncExecute` does not return `false`: its
`strcpy` writes past the end of the `command` array of the slot. -/
theorem long_text_not_rejected :
    asyncExecute fresh 0 (List.replicate MAX_COMMAND_LENGTH 65) [79, 75] Timing.ANY
        Success.null none 1000 0
      = .error (Fault.command MAX_COMMAND_LENGTH) := by
  decide

/-- C15, amended: over-length strings are not rejected.  On a queue with a
free slot, a call of `asyncExecute` (either timing) whose text does not fit
`MAX_COMMAND_LENGTH` bytes with its terminator copies it past the end of the
`command` array of the slot, and a call whose text fits and whose
expectation does not fit `MAX_EXPECTATION_LENGTH` bytes copies the
expectation past the end of the `expectation` array; in no case does
`asyncExecute` return `false`. -/
theorem asyncExecute_long_strings (s : AsyncDuplex) (millis : Nat) (cmd exp : List Nat)
    (timing : Timing) (su : Success) (fa : Option Nat) (tmo dly : Nat)
    (hq : s.commandQueue.length = COMMAND_QUEUE_SIZE)
    (hn : s.queueLength < COMMAND_QUEUE_SIZE)
    (hlong : MAX_COMMAND_LENGTH ≤ cmd.length ∨ MAX_EXPECTATION_LENGTH ≤ exp.length) :
    (MAX_COMMAND_LENGTH ≤ cmd.length →
        asyncExecute s millis cmd exp timing su fa tmo dly = .error (Fault.command cmd.length))
      ∧ (cmd.length < MAX_COMMAND_LENGTH →
        asyncExecute s millis cmd exp timing su fa tmo dly
          = .error (Fault.expectation exp.length))
      ∧ ∀ r, asyncExecute s millis cmd exp timing su fa tmo dly ≠ .ok (false, r) := by
  obtain ⟨c, hc⟩ := head_exists s hq
  have hmod : (s.queueLength + 1) % UINT8 = s.queueLength + 1 := by
    unfold COMMAND_QUEUE_SIZE at hn; unfold UINT8; omega
  have hplace : ∃ s2 : AsyncDuplex,
      asyncExecute s millis cmd exp timing su fa tmo dly
        = if ¬ cmd.length < MAX_COMMAND_LENGTH then .error (Fault.command cmd.length)
          else if ¬ exp.length < MAX_EXPECTATION_LENGTH then
            .error (Fault.expectation exp.length)
          else .ok (true, s2) := by
    cases timing with
    | ANY =>
      refine ⟨{ s with
        commandQueue := s.commandQueue.set s.queueLength
          (Command.mk cmd exp su fa tmo ((dly + millis) % UINT32)),
        queueLength := (s.queueLength + 1) % UINT8 }, ?_⟩
      unfold asyncExecute
      simp only [if_true]
      rw [if_neg (by simp only [not_not]; omega)]
    | NEXT =>
      refine ⟨{ s with
        commandQueue := (List.replicate (s.queueLength - 1 + 1) c
          ++ s.commandQueue.drop (s.queueLength - 1 + 1)).set 0
            (Command.mk cmd exp su fa tmo ((dly + millis) % UINT32)),
        queueLength := s.queueLength + 1 }, ?_⟩
      unfold asyncExecute
      rw [shiftRight_eq s c hq (by omega) hc]
      simp only [if_false, reduceCtorEq]
      rw [if_neg (by
        simp only [not_not, List.length_append, List.length_replicate, List.length_drop]
        omega)]
  obtain ⟨s2, heq⟩ := hplace
  refine ⟨?_, ?_, ?_⟩
  · intro h
    rw [heq, if_pos (by omega)]
  · intro h
    have he : MAX_EXPECTATION_LENGTH ≤ exp.length := by
      rcases hlong with h1 | h1
      · omega
      · exact h1
    rw [heq, if_neg (by omega), if_pos (by omega)]
  · intro r hr
    rw [heq] at hr
    split at hr
    · cases hr
    · split at hr
      · cases hr
      · cases hr

set_option maxRecDepth 100000 in
/-- C15, amended, at a concrete input: a text of 200 bytes on a fresh
dispatcher. -/
theorem asyncExecute_long_strings_witness :
    (MAX_COMMAND_LENGTH ≤ (List.replicate 200 65).length →
        asyncExecute fresh 0 (List.replicate 200 65) [79, 75] Timing.ANY Success.null none 1000 0
          = .error (Fault.command (List.replicate 200 65).length))
      ∧ ((List.replicate 200 65).length < MAX_COMMAND_LENGTH →
        asyncExecute fresh 0 (List.replicate 200 65) [79, 75] Timing.ANY Success.null none 1000 0
          = .error (Fault.expectation [79, 75].length))
      ∧ ∀ r, asyncExecute fresh 0 (List.replicate 200 65) [79, 75] Timing.ANY Success.null none
          1000 0 ≠ .ok (false, r) :=
  asyncExecute_long_strings fresh 0 (List.replicate 200 65) [79, 75] Timing.ANY Success.null
    none 1000 0 (by decide) (by decide) (Or.inl (by decide))

/-! ## The bound of the scan buffer -/

theorem compactLoop_pos_le (offset : Nat) : ∀ (fuel i : Nat) (buf : List Nat) (pos : Nat),
    pos < INPUT_BUFFER_LENGTH → fuel ≤ INPUT_BUFFER_LENGTH - i →
    (compactLoop offset fuel i buf pos).2 < INPUT_BUFFER_LENGTH := by
  intro fuel
  induction fuel with
  | zero => intro i buf pos hp _; exact hp
  | succ fuel ih =>
    intro i buf pos hp hi
    unfold compactLoop
    dsimp only
    split
    · show i - offset < INPUT_BUFFER_LENGTH
      omega
    · exact ih (i + 1) _ (i - offset) (by omega) (by omega)

set_option maxRecDepth 100000 in
/-- C16, counterexample.  An idle fresh dispatcher receives 512 bytes in one
`loop` invocation: after the 512th byte `bufferPos` is 512 and the
terminator is written to `inputBuffer[512]`, outside the array. -/
theorem scan_buffer_overflows :
    loop noMatch fresh 0 (List.replicate INPUT_BUFFER_LENGTH 120)
      = .error (Fault.inputBuffer INPUT_BUFFER_LENGTH) := by
  have hrx : List.replicate INPUT_BUFFER_LENGTH 120 = List.replicate 511 120 ++ [120] := by
    rw [← List.replicate_succ' 511 120]; rfl
  rw [loop_eq noMatch fresh 0 _ (by decide), timeoutStep_idle fresh 0 (by decide), bind_ok,
    drain_idle noMatch 0 _ fresh (by decide), hrx,
    receiveAll_overflow fresh (List.replicate 511 120) 120 (by decide) (by decide), bind_error]

/-- C16, amended: the code does not bound the write position.  A byte
received while `bufferPos < INPUT_BUFFER_LENGTH - 1` is stored in bounds:
`bufferPos` advances by one, stays at most `INPUT_BUFFER_LENGTH - 1`, and a
NUL is written at the new `bufferPos`.  The compaction after a match leaves
`bufferPos` below `INPUT_BUFFER_LENGTH`.  A byte received at
`bufferPos = INPUT_BUFFER_LENGTH - 1` moves `bufferPos` to
`INPUT_BUFFER_LENGTH` and its terminator is written to
`inputBuffer[INPUT_BUFFER_LENGTH]`, outside the array. -/
theorem receive_bound (s : AsyncDuplex) (b : Nat) (ms : MatchState)
    (hlen : s.inputBuffer.length = INPUT_BUFFER_LENGTH)
    (hpos : s.bufferPos < INPUT_BUFFER_LENGTH) :
    (s.bufferPos + 1 < INPUT_BUFFER_LENGTH →
        ∃ s1, receive s b = .ok s1 ∧ s1.bufferPos = s.bufferPos + 1
          ∧ s1.bufferPos ≤ INPUT_BUFFER_LENGTH - 1
          ∧ s1.inputBuffer[s1.bufferPos]? = some 0
          ∧ s1.inputBuffer.length = INPUT_BUFFER_LENGTH)
      ∧ (compact s ms).bufferPos < INPUT_BUFFER_LENGTH
      ∧ (s.bufferPos + 1 = INPUT_BUFFER_LENGTH →
        receive s b = .error (Fault.inputBuffer INPUT_BUFFER_LENGTH)) := by
  refine ⟨?_, ?_, ?_⟩
  · intro h
    have hmod : (s.bufferPos + 1) % UINT16 = s.bufferPos + 1 := by
      unfold INPUT_BUFFER_LENGTH at h; unfold UINT16; omega
    refine ⟨{ s with
      inputBuffer := (s.inputBuffer.set s.bufferPos b).set (s.bufferPos + 1) 0,
      bufferPos := s.bufferPos + 1 }, ?_, rfl, by simp only []; omega, ?_, by simp [hlen]⟩
    · unfold receive
      rw [if_neg (by rw [hlen]; omega)]
      simp only [hmod]
      rw [if_neg (by simp [hlen]; omega)]
    · simp only []
      rw [List.getElem?_set, if_pos rfl, if_pos (by simp [hlen]; omega)]
  · unfold compact
    exact compactLoop_pos_le _ _ _ _ _ hpos (Nat.le_refl _)
  · intro h
    have hmod : (s.bufferPos + 1) % UINT16 = INPUT_BUFFER_LENGTH := by
      rw [h]; rfl
    unfold receive
    rw [if_neg (by rw [hlen]; omega)]
    simp only [hmod]
    rw [if_pos (by simp [hlen])]

set_option maxRecDepth 100000 in
/-- C16, amended, at a concrete input: the byte `x` received by a fresh
dispatcher. -/
theorem receive_bound_witness :
    (fresh.bufferPos + 1 < INPUT_BUFFER_LENGTH →
        ∃ s1, receive fresh 120 = .ok s1 ∧ s1.bufferPos = fresh.bufferPos + 1
          ∧ s1.bufferPos ≤ INPUT_BUFFER_LENGTH - 1
          ∧ s1.inputBuffer[s1.bufferPos]? = some 0
          ∧ s1.inputBuffer.length = INPUT_BUFFER_LENGTH)
      ∧ (compact fresh { MatchStart := 0, MatchLength := 0 }).bufferPos < INPUT_BUFFER_LENGTH
      ∧ (fresh.bufferPos + 1 = INPUT_BUFFER_LENGTH →
        receive fresh 120 = .error (Fault.inputBuffer INPUT_BUFFER_LENGTH)) :=
  receive_bound fresh 120 { MatchStart := 0, MatchLength := 0 } (by decide) (by decide)

/-! ## The scan buffer after a timeout -/

set_option maxRecDepth 100000 in
/-- C17, the code at a failing input.  The queue holds `A` and `B`, both with
the expectation `OK` and a timeout of 1000 ms.  `A` is started at time 0,
the bytes `ER` arrive at time 500, and `A` times out in the invocation at
time 1001, which starts `B`.  The timeout step writes a NUL to
`inputBuffer[0]` and leaves `bufferPos` at 2.  The bytes `OK` that arrive at
time 1500 are stored from index 2 on, behind the NUL at index 0: the matcher
sees an empty string, reports no match, and `B` times out at time 2002
although its expected bytes arrived in time. -/
theorem timeout_keeps_bufferPos :
    ((appendAll fresh 0 [sample 65 1, sample 66 2]).bind fun s =>
      (run literal s [(0, []), (500, [69, 82]), (1001, [])]).bind fun s1 =>
        (run literal s1 [(1500, [79, 75]), (2002, [])]).map fun s2 =>
          (s1.bufferPos, s1.inputBuffer.take 3, cString s2.inputBuffer,
            s2.inputBuffer.take 5, s2.trace))
      = .ok (2, [0, 82, 0], [], [0, 82, 79, 75, 0],
          [Event.println [65], Event.failure 1, Event.println [66], Event.failure 2]) := by
  decide

/-! ## Bytes that arrive in the invocation of a timeout -/

/-- C20.  In a `loop` invocation in which the timeout step fires (a command
is in flight and `millis()` is after its deadline), whatever the matcher
would report for the bytes of the stream: the `failure` callable of the head
is called if it is not empty, the bytes are only stored in the scan buffer
(the `while` loop is `receiveAll` on the idle state `s1`), and whatever else
the invocation appends to the trace is a written line; no `success`
callable is called.  When the bytes fit the scan buffer the invocation
returns. -/
theorem loop_timeout_no_late_match (matcher : Matcher) (s : AsyncDuplex) (millis : Nat)
    (rx : List Nat) (head : Command)
    (hq : s.commandQueue.length = COMMAND_QUEUE_SIZE)
    (hlen : s.inputBuffer.length = INPUT_BUFFER_LENGTH)
    (hbeg : s.began = true) (hp : s.processing = true)
    (h1 : 1 ≤ s.queueLength) (h2 : s.queueLength ≤ COMMAND_QUEUE_SIZE)
    (hh : s.commandQueue[0]? = some head)
    (ht : s.timeout < millis) :
    ∃ s1, timeoutStep s millis = .ok s1
      ∧ s1.processing = false
      ∧ s1.trace = s.trace ++ failureEvents head.failure
      ∧ drain matcher millis s1 rx = receiveAll s1 rx
      ∧ loop matcher s millis rx = ((receiveAll s1 rx).bind fun s2 => startNext s2 millis)
      ∧ (∀ s3, loop matcher s millis rx = .ok s3 →
          ∃ out, s3.trace = s.trace ++ failureEvents head.failure ++ out
            ∧ ∀ e, e ∈ out → ∃ text, e = Event.println text)
      ∧ (s.bufferPos + rx.length < INPUT_BUFFER_LENGTH →
          ∃ s3, loop matcher s millis rx = .ok s3) := by
  obtain ⟨last, hl⟩ := slot_exists s (s.queueLength - 1) hq (by omega)
  have hts := timeoutStep_eq s millis head last hp ht h1 h2 hh hl
  have htr : (match head.failure with
      | some id => [Event.failure id]
      | none => []) = failureEvents head.failure := by
    cases head.failure <;> rfl
  rw [htr] at hts
  obtain ⟨s1, hs1, p1, p2, p3, p4, p5⟩ : ∃ s1, timeoutStep s millis = .ok s1
      ∧ s1.processing = false ∧ s1.trace = s.trace ++ failureEvents head.failure
      ∧ s1.inputBuffer.length = INPUT_BUFFER_LENGTH ∧ s1.bufferPos = s.bufferPos
      ∧ s1.commandQueue.length = COMMAND_QUEUE_SIZE := by
    refine ⟨_, hts, rfl, rfl, by simp [hlen], rfl, ?_⟩
    simp only [List.length_append, List.length_replicate, List.length_drop]
    rw [hq]; unfold COMMAND_QUEUE_SIZE at *; omega
  have hloop : loop matcher s millis rx
      = ((receiveAll s1 rx).bind fun s2 => startNext s2 millis) := by
    rw [loop_eq matcher s millis rx hbeg, hs1, bind_ok, drain_idle matcher millis rx s1 p1]
  refine ⟨s1, hs1, p1, p2, drain_idle matcher millis rx s1 p1, hloop, ?_, ?_⟩
  · intro s3 h3
    rw [hloop] at h3
    cases hrx : receiveAll s1 rx with
    | error e => rw [hrx] at h3; cases h3
    | ok s2 =>
      rw [hrx, bind_ok] at h3
      obtain ⟨_, _, _, _, _, d6, _⟩ := receiveAll_fields _ _ s2 hrx
      obtain ⟨out, e1, e2, _⟩ := startNext_trace s2 s3 millis h3
      exact ⟨out, by rw [e1, d6, p2], e2⟩
  · intro hfit
    obtain ⟨s2, hr, hs⟩ := receiveAll_stored s1 rx p3 (by rw [p4]; exact hfit)
    obtain ⟨a1, _⟩ := hs
    obtain ⟨c, hc⟩ := head_exists s2 (a1 ▸ p5)
    rw [hloop, hr, bind_ok, startNext_eq s2 millis c hc]
    split
    · exact ⟨_, rfl⟩
    · exact ⟨_, rfl⟩

set_option maxRecDepth 100000 in
/-- C20, at a concrete input: `cmdAT` is in flight with the deadline 1000,
and its expected bytes `OK` arrive in the invocation at time 1001. -/
theorem loop_timeout_no_late_match_witness :
    ∃ s1, timeoutStep atInFlight 1001 = .ok s1
      ∧ s1.processing = false
      ∧ s1.trace = atInFlight.trace ++ failureEvents cmdAT.failure
      ∧ drain literal 1001 s1 [79, 75] = receiveAll s1 [79, 75]
      ∧ loop literal atInFlight 1001 [79, 75]
          = ((receiveAll s1 [79, 75]).bind fun s2 => startNext s2 1001)
      ∧ (∀ s3, loop literal atInFlight 1001 [79, 75] = .ok s3 →
          ∃ out, s3.trace = atInFlight.trace ++ failureEvents cmdAT.failure ++ out
            ∧ ∀ e, e ∈ out → ∃ text, e = Event.println text)
      ∧ (atInFlight.bufferPos + [79, 75].length < INPUT_BUFFER_LENGTH →
          ∃ s3, loop literal atInFlight 1001 [79, 75] = .ok s3) :=
  loop_timeout_no_late_match literal atInFlight 1001 [79, 75] cmdAT (by decide) (by decide)
    (by decide) (by decide) (by decide) (by decide) (by decide) (by decide)

/-! ## A match whose callable enqueues the successor of a chain -/

theorem compact_congr (u s : AsyncDuplex) (ms : MatchState)
    (hb : u.inputBuffer = s.inputBuffer) (hp : u.bufferPos = s.bufferPos) :
    (compact u ms).inputBuffer = (compact s ms).inputBuffer
      ∧ (compact u ms).bufferPos = (compact s ms).bufferPos := by
  unfold compact
  dsimp only
  rw [hb, hp]
  exact ⟨rfl, rfl⟩

theorem receiveAll_append_ok (pre rest : List Nat) (s sp : AsyncDuplex)
    (h : receiveAll s (pre ++ rest) = .ok sp) :
    ∃ s1, receiveAll s pre = .ok s1 ∧ receiveAll s1 rest = .ok sp := by
  rw [receiveAll_append] at h
  cases hr : receiveAll s pre with
  | error e => rw [hr] at h; cases h
  | ok s1 =>
    rw [hr, bind_ok] at h
    exact ⟨s1, rfl, h⟩

/-- A call of a callable that is not a lambda of `createChain` records the
call, if the callable is not empty, and does nothing else. -/
theorem invoke_no_enqueue (fn : Success) (ms : MatchState) (millis : Nat) (s : AsyncDuplex)
    (h : enqueues fn = 0) :
    invoke fn ms millis s = .ok { s with trace := s.trace ++ calls fn ms } := by
  cases fn with
  | null => simp [invoke, calls]
  | user id => rfl
  | chain orig c e su fa t d => simp [enqueues] at h

/-- A call of the lambda of `createChain` whose original callable is a
callable of the caller: the call of the original is recorded, then the
chained command is in slot 0, with the scheduled time `millis()`. -/
theorem invoke_chain_head (ms : MatchState) (millis : Nat) (s : AsyncDuplex)
    (orig : Success) (ncmd nexp : List Nat) (nsu : Success) (nfa : Option Nat)
    (ntmo ndly : Nat)
    (hq : s.commandQueue.length = COMMAND_QUEUE_SIZE)
    (hn : s.queueLength ≤ COMMAND_QUEUE_SIZE)
    (horig : enqueues orig = 0)
    (hncmd : ncmd.length < MAX_COMMAND_LENGTH) (hnexp : nexp.length < MAX_EXPECTATION_LENGTH) :
    ∃ s1, invoke (Success.chain orig ncmd nexp nsu nfa ntmo ndly) ms millis s = .ok s1
      ∧ s1.commandQueue[0]?
          = some (Command.mk ncmd nexp nsu nfa ntmo ((defaultDelay + millis) % UINT32))
      ∧ s1.commandQueue.length = COMMAND_QUEUE_SIZE
      ∧ s1.queueLength = s.queueLength + 1
      ∧ s1.trace = s.trace ++ calls orig ms
      ∧ s1.inputBuffer = s.inputBuffer ∧ s1.bufferPos = s.bufferPos
      ∧ s1.processing = s.processing ∧ s1.began = s.began ∧ s1.timeout = s.timeout := by
  obtain ⟨c, hc⟩ := head_exists s hq
  have hex := asyncExecute_NEXT_eq { s with trace := s.trace ++ calls orig ms } millis ncmd nexp
    nsu nfa ntmo defaultDelay c hq hn hc hncmd hnexp
  refine ⟨{ s with
    trace := s.trace ++ calls orig ms,
    commandQueue := Command.mk ncmd nexp nsu nfa ntmo ((defaultDelay + millis) % UINT32)
      :: (List.replicate (s.queueLength - 1) c ++ s.commandQueue.drop (s.queueLength - 1 + 1)),
    queueLength := s.queueLength + 1 }, ?_, ?_, ?_, rfl, rfl, rfl, rfl, rfl, rfl, rfl⟩
  · rw [invoke, invoke_if_null, invoke_no_enqueue orig ms millis s horig]
    simp only [asyncExecuteCommand]
    rw [hex]
  · simp
  · simp only [List.length_cons, List.length_append, List.length_replicate, List.length_drop]
    rw [hq]; unfold COMMAND_QUEUE_SIZE at *; omega

/-- The match branch of `loop` when the `success` callable of the head is the
lambda of a chain: the head is popped, the original callable is called, the
successor is stored in slot 0 with the scheduled time `millis()`, and the
buffer is compacted. -/
theorem matched_chain (s : AsyncDuplex) (millis : Nat) (ms : MatchState) (head : Command)
    (orig : Success) (ncmd nexp : List Nat) (nsu : Success) (nfa : Option Nat)
    (ntmo ndly : Nat)
    (hq : s.commandQueue.length = COMMAND_QUEUE_SIZE)
    (h1 : 1 ≤ s.queueLength) (h2 : s.queueLength ≤ COMMAND_QUEUE_SIZE)
    (hh : s.commandQueue[0]? = some head)
    (hsu : head.success = Success.chain orig ncmd nexp nsu nfa ntmo ndly)
    (horig : enqueues orig = 0)
    (hncmd : ncmd.length < MAX_COMMAND_LENGTH) (hnexp : nexp.length < MAX_EXPECTATION_LENGTH) :
    ∃ s2, matched s millis ms = .ok s2
      ∧ s2.commandQueue[0]?
          = some (Command.mk ncmd nexp nsu nfa ntmo ((defaultDelay + millis) % UINT32))
      ∧ s2.commandQueue.length = COMMAND_QUEUE_SIZE
      ∧ s2.queueLength = s.queueLength
      ∧ s2.trace = s.trace ++ calls orig ms
      ∧ s2.inputBuffer = (compact s ms).inputBuffer
      ∧ s2.bufferPos = (compact s ms).bufferPos
      ∧ s2.processing = false ∧ s2.began = s.began ∧ s2.timeout = s.timeout := by
  obtain ⟨last, hl⟩ := slot_exists s (s.queueLength - 1) hq (by omega)
  have hsl := shiftLeft_eq { s with processing := false } last h1 h2 hl
  obtain ⟨si, hi, i1, i2, i3, i4, i5, i6, i7, i8, i9⟩ :=
    invoke_chain_head ms millis
      { s with
        processing := false,
        commandQueue := List.replicate s.queueLength last ++ s.commandQueue.drop s.queueLength,
        queueLength := s.queueLength - 1 }
      orig ncmd nexp nsu nfa ntmo ndly
      (by simp [hq]; omega) (by simp only []; omega) horig hncmd hnexp
  obtain ⟨c1, c2⟩ := compact_congr si s ms i5 i6
  refine ⟨compact si ms, ?_, i1, i2, ?_, i4, c1, c2, i7, i8, i9⟩
  · unfold matched
    simp only []
    rw [readSlot_of_getElem? hh]
    simp only []
    rw [hsl]
    simp only []
    rw [hsu, invoke_if_null, hi]
  · show si.queueLength = s.queueLength
    rw [i3]; simp only []; omega

/-- A `loop` invocation in which the bytes `pre`, `b`, `post` arrive, the
matcher reports the first match of the expectation of the head after `b`,
and the `success` callable of the head is the lambda of a chain.  The
dispatcher `u` holds the same scan buffer as `s`: the hypotheses on the
bytes are stated on it.  The invocation calls the original callable, stores
the remaining bytes, writes the text of the successor and leaves it in
flight, with the deadline `millis() + timeout`. -/
theorem loop_match_chain (matcher : Matcher) (s u ub up : AsyncDuplex) (millis : Nat)
    (pre : List Nat) (b : Nat) (post : List Nat) (head : Command) (ms : MatchState)
    (orig : Success) (ncmd nexp : List Nat) (nsu : Success) (nfa : Option Nat)
    (ntmo ndly : Nat)
    (hq : s.commandQueue.length = COMMAND_QUEUE_SIZE)
    (hbeg : s.began = true) (hp : s.processing = true) (hd : ¬ s.timeout < millis)
    (h1 : 1 ≤ s.queueLength) (h2 : s.queueLength ≤ COMMAND_QUEUE_SIZE)
    (hh : s.commandQueue[0]? = some head)
    (hsu : head.success = Success.chain orig ncmd nexp nsu nfa ntmo ndly)
    (horig : enqueues orig = 0)
    (hncmd : ncmd.length < MAX_COMMAND_LENGTH) (hnexp : nexp.length < MAX_EXPECTATION_LENGTH)
    (hmil : millis < UINT32)
    (hub : u.inputBuffer = s.inputBuffer) (hup : u.bufferPos = s.bufferPos)
    (hpre : ∀ k, k < pre.length → ∀ uk, receiveAll u (pre.take (k + 1)) = .ok uk →
      matcher (cString uk.inputBuffer) head.expectation = none)
    (hb : receiveAll u (pre ++ [b]) = .ok ub)
    (hm : matcher (cString ub.inputBuffer) head.expectation = some ms)
    (hpost : receiveAll (compact ub ms) post = .ok up) :
    ∃ s3, loop matcher s millis (pre ++ b :: post) = .ok s3
      ∧ s3.trace = s.trace ++ calls orig ms ++ [Event.println ncmd]
      ∧ s3.processing = true ∧ s3.timeout = (millis + ntmo) % UINT32
      ∧ s3.commandQueue[0]? = some (Command.mk ncmd nexp nsu nfa ntmo millis)
      ∧ s3.queueLength = s.queueLength
      ∧ s3.commandQueue.length = COMMAND_QUEUE_SIZE ∧ s3.began = true
      ∧ s3.inputBuffer = up.inputBuffer ∧ s3.bufferPos = up.bufferPos := by
  -- the hypotheses on the bytes, on `s` itself
  obtain ⟨sb, hsb, sb1, sb2⟩ := receiveAll_congr _ u s ub hub hup hb
  have hpre_s : ∀ k, k < pre.length → ∀ sk, receiveAll s (pre.take (k + 1)) = .ok sk →
      matcher (cString sk.inputBuffer) head.expectation = none := by
    intro k hk sk hsk
    obtain ⟨uk, huk, e1, _⟩ := receiveAll_congr _ s u sk hub.symm hup.symm hsk
    rw [← e1]
    exact hpre k hk uk huk
  have hm_s : matcher (cString sb.inputBuffer) head.expectation = some ms := by
    rw [sb1]; exact hm
  obtain ⟨b1, b2, b3, b4, b5, b6, b7⟩ := receiveAll_fields _ s sb hsb
  -- the match branch
  obtain ⟨s2, hs2, m1, m2, m3, m4, m5, m6, m7, m8, m9⟩ :=
    matched_chain sb millis ms head orig ncmd nexp nsu nfa ntmo ndly (b1 ▸ hq) (b2 ▸ h1)
      (b2 ▸ h2) (b1 ▸ hh) hsu horig hncmd hnexp
  obtain ⟨c1, c2⟩ := compact_congr ub sb ms sb1.symm sb2.symm
  -- the remaining bytes
  obtain ⟨s2p, hs2p, p1, p2⟩ := receiveAll_congr post (compact ub ms) s2 up
    (c1.trans m5.symm) (c2.trans m6.symm) hpost
  obtain ⟨r1, r2, r3, r4, r5, r6, r7⟩ := receiveAll_fields _ s2 s2p hs2p
  have hdelay : (defaultDelay + millis) % UINT32 = millis := by
    unfold defaultDelay
    rw [Nat.zero_add, Nat.mod_eq_of_lt hmil]
  rw [hdelay] at m1
  have hhead : s2p.commandQueue[0]? = some (Command.mk ncmd nexp nsu nfa ntmo millis) := by
    rw [r1]; exact m1
  refine ⟨{ s2p with trace := s2p.trace ++ [Event.println ncmd], processing := true,
                     timeout := (millis + ntmo) % UINT32 }, ?_, ?_, rfl, rfl, hhead, ?_, ?_, ?_,
    p1, p2⟩
  · rw [loop_eq matcher s millis _ hbeg, timeoutStep_idle s millis (fun h => hd h.2), bind_ok,
      drain_until_match matcher millis head b post sb ms pre s hp hh hpre_s hsb hm_s, hs2,
      bind_ok, drain_idle matcher millis post s2 m7, hs2p, bind_ok,
      startNext_eq s2p millis _ hhead,
      if_pos ⟨r3.trans m7, by rw [r2, m3, b2]; omega, Nat.le_refl _⟩]
  · show s2p.trace ++ [Event.println ncmd] = _
    rw [r6, m4, b6]
  · show s2p.queueLength = _
    rw [r2, m3, b2]
  · show s2p.commandQueue.length = _
    rw [r1, m2]
  · show s2p.began = _
    rw [r4, m8, b4, hbeg]

theorem fits_of_no_enqueue (fn : Success) (h : enqueues fn = 0) : fits fn = true := by
  cases fn with
  | null => rfl
  | user id => rfl
  | chain orig c e su fa t d => simp [enqueues] at h

/-- A `loop` invocation in which the lone command in flight is matched and
its `success` callable is a callable of the caller: the callable is called,
the queue is empty afterwards, the remaining bytes are stored and nothing is
started.  The dispatcher `u` holds the same scan buffer as `s`. -/
theorem loop_match_last (matcher : Matcher) (s u ub up : AsyncDuplex) (millis : Nat)
    (pre : List Nat) (b : Nat) (post : List Nat) (head : Command) (ms : MatchState)
    (hq : s.commandQueue.length = COMMAND_QUEUE_SIZE)
    (hbeg : s.began = true) (hp : s.processing = true) (hd : ¬ s.timeout < millis)
    (hn : s.queueLength = 1)
    (hh : s.commandQueue[0]? = some head)
    (hsu : enqueues head.success = 0)
    (hub : u.inputBuffer = s.inputBuffer) (hup : u.bufferPos = s.bufferPos)
    (hpre : ∀ k, k < pre.length → ∀ uk, receiveAll u (pre.take (k + 1)) = .ok uk →
      matcher (cString uk.inputBuffer) head.expectation = none)
    (hb : receiveAll u (pre ++ [b]) = .ok ub)
    (hm : matcher (cString ub.inputBuffer) head.expectation = some ms)
    (hpost : receiveAll (compact ub ms) post = .ok up) :
    ∃ s3, loop matcher s millis (pre ++ b :: post) = .ok s3
      ∧ s3.trace = s.trace ++ calls head.success ms
      ∧ s3.processing = false ∧ s3.queueLength = 0
      ∧ s3.commandQueue.length = COMMAND_QUEUE_SIZE ∧ s3.began = true
      ∧ s3.inputBuffer = up.inputBuffer ∧ s3.bufferPos = up.bufferPos := by
  obtain ⟨sb, hsb, sb1, sb2⟩ := receiveAll_congr _ u s ub hub hup hb
  have hpre_s : ∀ k, k < pre.length → ∀ sk, receiveAll s (pre.take (k + 1)) = .ok sk →
      matcher (cString sk.inputBuffer) head.expectation = none := by
    intro k hk sk hsk
    obtain ⟨uk, huk, e1, _⟩ := receiveAll_congr _ s u sk hub.symm hup.symm hsk
    rw [← e1]
    exact hpre k hk uk huk
  have hm_s : matcher (cString sb.inputBuffer) head.expectation = some ms := by
    rw [sb1]; exact hm
  obtain ⟨b1, b2, b3, b4, b5, b6, b7⟩ := receiveAll_fields _ s sb hsb
  obtain ⟨sp, si, c1, c2, c3, c4, c5, c6, c7, c8, c9, c10, c11, c12, c13⟩ :=
    matched_spec sb millis ms head (b1 ▸ hq) (by rw [b2, hn])
      (by rw [b2, hn]; unfold COMMAND_QUEUE_SIZE; omega) (b1 ▸ hh)
      (by rw [b2, hn, hsu]; unfold COMMAND_QUEUE_SIZE; omega) (fits_of_no_enqueue _ hsu)
  obtain ⟨k1, k2⟩ := compact_congr ub si ms (sb1.symm.trans c9.symm) (sb2.symm.trans c10.symm)
  obtain ⟨s2p, hs2p, p1, p2⟩ := receiveAll_congr post (compact ub ms) (compact si ms) up
    k1 k2 hpost
  obtain ⟨r1, r2, r3, r4, r5, r6, r7⟩ := receiveAll_fields _ (compact si ms) s2p hs2p
  have hq2 : s2p.commandQueue.length = COMMAND_QUEUE_SIZE := by
    rw [r1]; exact c6
  have hn2 : s2p.queueLength = 0 := by
    rw [r2]
    show si.queueLength = 0
    rw [b2, hn, hsu] at c7
    omega
  obtain ⟨c, hc⟩ := head_exists s2p hq2
  refine ⟨s2p, ?_, ?_, r3.trans c11, hn2, hq2, ?_, p1, p2⟩
  · rw [loop_eq matcher s millis _ hbeg, timeoutStep_idle s millis (fun h => hd h.2), bind_ok,
      drain_until_match matcher millis head b post sb ms pre s hp hh hpre_s hsb hm_s, c5,
      bind_ok, drain_idle matcher millis post (compact si ms) c11, hs2p, bind_ok,
      startNext_eq s2p millis c hc, if_neg (by rw [hn2]; omega)]
  · rw [r6]
    show si.trace = _
    rw [c8, b6]
  · rw [r4]
    show si.began = _
    rw [c12, b4, hbeg]

/-- A `loop` invocation on an idle dispatcher whose head is due: the bytes
are stored, then the text of the head is written and the head is in flight.
The dispatcher `u` holds the same scan buffer as `s`. -/
theorem loop_idle_starts_congr (matcher : Matcher) (s u up : AsyncDuplex) (millis : Nat)
    (rx : List Nat) (head : Command)
    (hbeg : s.began = true) (hp : s.processing = false)
    (hh : s.commandQueue[0]? = some head)
    (hn : 0 < s.queueLength) (hd : head.delay ≤ millis)
    (hub : u.inputBuffer = s.inputBuffer) (hup : u.bufferPos = s.bufferPos)
    (hrx : receiveAll u rx = .ok up) :
    ∃ s1, loop matcher s millis rx = .ok s1
      ∧ s1.trace = s.trace ++ [Event.println head.command]
      ∧ s1.processing = true ∧ s1.timeout = (millis + head.timeout) % UINT32
      ∧ s1.commandQueue = s.commandQueue ∧ s1.queueLength = s.queueLength
      ∧ s1.began = true
      ∧ s1.inputBuffer = up.inputBuffer ∧ s1.bufferPos = up.bufferPos := by
  obtain ⟨sp, hsp, p1, p2⟩ := receiveAll_congr rx u s up hub hup hrx
  obtain ⟨r1, r2, r3, r4, r5, r6, r7⟩ := receiveAll_fields _ s sp hsp
  refine ⟨{ sp with trace := sp.trace ++ [Event.println head.command], processing := true,
                    timeout := (millis + head.timeout) % UINT32 }, ?_, ?_, rfl, rfl, r1, r2,
    r4.trans hbeg, p1, p2⟩
  · rw [loop_eq matcher s millis rx hbeg, timeoutStep_idle s millis (by simp [hp]), bind_ok,
      drain_idle matcher millis rx s hp, hsp, bind_ok, startNext_eq sp millis head (r1 ▸ hh),
      if_pos ⟨r3.trans hp, by rw [r2]; exact hn, hd⟩]
  · show sp.trace ++ _ = _
    rw [r6]

/-- The statements of `asyncExecuteChain` for the chain `A`, `B`, `C`,
followed by four polls (what a build does in which the call comes back from
the end of the function).  The composite is enqueued (either timing) at time
`t0` on an empty idle dispatcher; the `success` callables of the three
commands are callables of the caller.  Poll 1, at `t1 ≥ t0`, stores the bytes `rx1`
and starts `A`.  In poll 2, at or before the deadline of `A`, the bytes
`preA`, `bA`, `postA` arrive and the matcher reports the first match of the
expectation of `A` after `bA`; in poll 3 the same happens for `B`, in poll 4
for `C` (the dispatchers `ubA`, `ubB`, `ubC`, `uEnd` hold the scan buffer
after these bytes; the counter does not wrap).  Then the trace of the
dispatcher is, poll after poll: the text of `A`; then the call of the
`success` of `A` and the text of `B`; then the call of the `success` of `B`
and the text of `C`; then the call of the `success` of `C`.  At the end the
queue is empty and the dispatcher idle. -/
theorem enqueueChain_three (matcher : Matcher) (s0 : AsyncDuplex) (t0 t1 t2 t3 t4 : Nat)
    (timing : Timing) (scratch : Command) (cmdArray : Nat → Command) (A B C : Command)
    (rx1 preA postA preB postB preC postC : List Nat) (bA bB bC : Nat)
    (msA msB msC : MatchState) (ubA ubB ubC uEnd : AsyncDuplex)
    (harrA : cmdArray 0 = A) (harrB : cmdArray 1 = B) (harrC : cmdArray 2 = C)
    (hq : s0.commandQueue.length = COMMAND_QUEUE_SIZE)
    (hbeg : s0.began = true) (hidle : s0.processing = false) (hempty : s0.queueLength = 0)
    (hA1 : A.command.length < MAX_COMMAND_LENGTH)
    (hA2 : A.expectation.length < MAX_EXPECTATION_LENGTH)
    (hB1 : B.command.length < MAX_COMMAND_LENGTH)
    (hB2 : B.expectation.length < MAX_EXPECTATION_LENGTH)
    (hC1 : C.command.length < MAX_COMMAND_LENGTH)
    (hC2 : C.expectation.length < MAX_EXPECTATION_LENGTH)
    (hsuA : enqueues A.success = 0) (hsuB : enqueues B.success = 0)
    (hsuC : enqueues C.success = 0)
    (ht1 : t0 ≤ t1) (hw1 : t1 + A.timeout < UINT32)
    (ht2 : t2 ≤ t1 + A.timeout) (hw2 : t2 + B.timeout < UINT32)
    (ht3 : t3 ≤ t2 + B.timeout) (hw3 : t3 + C.timeout < UINT32)
    (ht4 : t4 ≤ t3 + C.timeout)
    (hpreA : ∀ k, k < preA.length → ∀ uk, receiveAll s0 (rx1 ++ preA.take (k + 1)) = .ok uk →
      matcher (cString uk.inputBuffer) A.expectation = none)
    (hA : receiveAll s0 (rx1 ++ (preA ++ [bA])) = .ok ubA)
    (hmA : matcher (cString ubA.inputBuffer) A.expectation = some msA)
    (hpreB : ∀ k, k < preB.length → ∀ uk,
      receiveAll (compact ubA msA) (postA ++ preB.take (k + 1)) = .ok uk →
      matcher (cString uk.inputBuffer) B.expectation = none)
    (hB : receiveAll (compact ubA msA) (postA ++ (preB ++ [bB])) = .ok ubB)
    (hmB : matcher (cString ubB.inputBuffer) B.expectation = some msB)
    (hpreC : ∀ k, k < preC.length → ∀ uk,
      receiveAll (compact ubB msB) (postB ++ preC.take (k + 1)) = .ok uk →
      matcher (cString uk.inputBuffer) C.expectation = none)
    (hC : receiveAll (compact ubB msB) (postB ++ (preC ++ [bC])) = .ok ubC)
    (hmC : matcher (cString ubC.inputBuffer) C.expectation = some msC)
    (hEnd : receiveAll (compact ubC msC) postC = .ok uEnd) :
    ∃ s1, enqueueChain s0 t0 cmdArray 3 timing scratch = .ok s1
      ∧ (∃ a, run matcher s1 [(t1, rx1)] = .ok a
          ∧ a.trace = s0.trace ++ [Event.println A.command])
      ∧ (∃ b, run matcher s1 [(t1, rx1), (t2, preA ++ bA :: postA)] = .ok b
          ∧ b.trace = s0.trace ++ [Event.println A.command] ++ calls A.success msA
              ++ [Event.println B.command])
      ∧ (∃ c, run matcher s1
            [(t1, rx1), (t2, preA ++ bA :: postA), (t3, preB ++ bB :: postB)] = .ok c
          ∧ c.trace = s0.trace ++ [Event.println A.command] ++ calls A.success msA
              ++ [Event.println B.command] ++ calls B.success msB
              ++ [Event.println C.command])
      ∧ (∃ d, run matcher s1
            [(t1, rx1), (t2, preA ++ bA :: postA), (t3, preB ++ bB :: postB),
              (t4, preC ++ bC :: postC)] = .ok d
          ∧ d.trace = s0.trace ++ [Event.println A.command] ++ calls A.success msA
              ++ [Event.println B.command] ++ calls B.success msB
              ++ [Event.println C.command] ++ calls C.success msC
          ∧ getQueueLength d = 0 ∧ d.processing = false) := by
  -- the enqueue of the composite
  have harr : ∀ i, i < [A, B, C].length → [A, B, C][i]? = some (cmdArray i) := by
    intro i hi
    simp only [List.length_cons, List.length_nil] at hi
    interval_cases i
    · simp [harrA]
    · simp [harrB]
    · simp [harrC]
  obtain ⟨hchain, _⟩ := enqueueChain_composite s0 t0 cmdArray A B [C] timing scratch harr
    (by simp)
  obtain ⟨s1, e0, e1, e2, e3, e4, e5, e6, e7, e8, e9⟩ :=
    asyncExecute_on_empty s0 t0 A.command A.expectation timing
      (composite [A, B, C]).success A.failure A.timeout defaultDelay hq hempty hA1 hA2
  have ht0 : t0 < UINT32 := by omega
  have hdelay : (defaultDelay + t0) % UINT32 = t0 := by
    unfold defaultDelay
    rw [Nat.zero_add, Nat.mod_eq_of_lt ht0]
  rw [hdelay] at e1
  have hexec : enqueueChain s0 t0 cmdArray 3 timing scratch = .ok s1 := by
    have h3 : [A, B, C].length = 3 := rfl
    rw [h3] at hchain
    rw [hchain]
    show (asyncExecute s0 t0 A.command A.expectation timing (composite [A, B, C]).success
      A.failure A.timeout defaultDelay).bind _ = _
    rw [e0, bind_ok]
  -- poll 1
  obtain ⟨u1, hu1, hu1A⟩ := receiveAll_append_ok rx1 (preA ++ [bA]) s0 ubA hA
  obtain ⟨a, ha, a1, a2, a3, a4, a5, a6, a7, a8⟩ :=
    loop_idle_starts_congr matcher s1 s0 u1 t1 rx1
      (Command.mk A.command A.expectation (composite [A, B, C]).success A.failure A.timeout t0)
      (e7.trans hbeg) (e6.trans hidle) e1
      (by rw [e3]; omega) ht1 e4.symm e5.symm hu1
  simp only [] at a1 a3
  rw [Nat.mod_eq_of_lt hw1] at a3
  -- poll 2
  obtain ⟨upA, hupA, hupB⟩ := receiveAll_append_ok postA (preB ++ [bB]) _ ubB hB
  obtain ⟨b, hb, b1, b2, b3, b4, b5, b6, b7, b8, b9⟩ :=
    loop_match_chain matcher a u1 ubA upA t2 preA bA postA
      (Command.mk A.command A.expectation (composite [A, B, C]).success A.failure A.timeout t0)
      msA
      A.success B.command B.expectation (composite [B, C]).success B.failure B.timeout B.delay
      (by rw [a4]; exact e2) a6 a2 (by rw [a3]; omega) (by rw [a5, e3]) (by
        rw [a5, e3]; unfold COMMAND_QUEUE_SIZE; omega)
      (by rw [a4]; exact e1) rfl hsuA hB1 hB2 (by omega) a7.symm a8.symm
      (by
        intro k hk uk huk
        apply hpreA k hk uk
        rw [receiveAll_append, hu1, bind_ok]
        exact huk)
      hu1A hmA hupA
  rw [Nat.mod_eq_of_lt hw2] at b3
  -- poll 3
  obtain ⟨upB, hupB1, hupC⟩ := receiveAll_append_ok postB (preC ++ [bC]) _ ubC hC
  obtain ⟨c, hc, c1, c2, c3, c4, c5, c6, c7, c8, c9⟩ :=
    loop_match_chain matcher b upA ubB upB t3 preB bB postB
      (Command.mk B.command B.expectation (composite [B, C]).success B.failure B.timeout t2)
      msB
      B.success C.command C.expectation C.success C.failure C.timeout C.delay
      b6 b7 b2 (by rw [b3]; omega) (by rw [b5, a5, e3]) (by
        rw [b5, a5, e3]; unfold COMMAND_QUEUE_SIZE; omega)
      b4 rfl hsuB hC1 hC2 (by omega) b8.symm b9.symm
      (by
        intro k hk uk huk
        apply hpreB k hk uk
        rw [receiveAll_append, hupA, bind_ok]
        exact huk)
      hupB hmB hupB1
  rw [Nat.mod_eq_of_lt hw3] at c3
  -- poll 4
  obtain ⟨d, hd, d1, d2, d3, d4, d5, d6, d7⟩ :=
    loop_match_last matcher c upB ubC uEnd t4 preC bC postC
      (Command.mk C.command C.expectation C.success C.failure C.timeout t3) msC
      c6 c7 c2 (by rw [c3]; omega) (by rw [c5, b5, a5, e3]) c4 hsuC c8.symm c9.symm
      (by
        intro k hk uk huk
        apply hpreC k hk uk
        rw [receiveAll_append, hupB1, bind_ok]
        exact huk)
      hupC hmC hEnd
  simp only [] at d1
  have hta : a.trace = s0.trace ++ [Event.println A.command] := by rw [a1, e9]
  have htb : b.trace = s0.trace ++ [Event.println A.command] ++ calls A.success msA
      ++ [Event.println B.command] := by rw [b1, hta]
  have htc : c.trace = s0.trace ++ [Event.println A.command] ++ calls A.success msA
      ++ [Event.println B.command] ++ calls B.success msB ++ [Event.println C.command] := by
    rw [c1, htb]
  refine ⟨s1, hexec, ⟨a, ?_, hta⟩, ⟨b, ?_, htb⟩, ⟨c, ?_, htc⟩, ⟨d, ?_, ?_, d3, d2⟩⟩
  · rw [run_cons, ha, bind_ok]; rfl
  · rw [run_cons, ha, bind_ok, run_cons, hb, bind_ok]; rfl
  · rw [run_cons, ha, bind_ok, run_cons, hb, bind_ok, run_cons, hc, bind_ok]; rfl
  · rw [run_cons, ha, bind_ok, run_cons, hb, bind_ok, run_cons, hc, bind_ok, run_cons, hd,
      bind_ok]
    rfl
  · rw [d1, htc]

set_option maxRecDepth 100000 in
/-- The statements of `asyncExecuteChain` and four polls at a concrete
input: the chain `A`, `B`, `C` (expectation `OK`, callables 1, 2, 3) on a
fresh dispatcher at time 0; `A` is started at time 0, `OK\r\n` arrives at
time 100, `OK` at time 200 and `OK\r\n` at time 300. -/
theorem enqueueChain_three_at_samples :
    ∃ s1, enqueueChain fresh 0 threeCommands 3 Timing.ANY emptyCommand = .ok s1
      ∧ (∃ a, run literal s1 [(0, [])] = .ok a
          ∧ a.trace = fresh.trace ++ [Event.println (sample 65 1).command])
      ∧ (∃ b, run literal s1 [(0, []), (100, [79] ++ 75 :: [13, 10])] = .ok b
          ∧ b.trace = fresh.trace ++ [Event.println (sample 65 1).command]
              ++ calls (sample 65 1).success { MatchStart := 0, MatchLength := 2 }
              ++ [Event.println (sample 66 2).command])
      ∧ (∃ c, run literal s1
            [(0, []), (100, [79] ++ 75 :: [13, 10]), (200, [79] ++ 75 :: [])] = .ok c
          ∧ c.trace = fresh.trace ++ [Event.println (sample 65 1).command]
              ++ calls (sample 65 1).success { MatchStart := 0, MatchLength := 2 }
              ++ [Event.println (sample 66 2).command]
              ++ calls (sample 66 2).success { MatchStart := 2, MatchLength := 2 }
              ++ [Event.println (sample 67 3).command])
      ∧ (∃ d, run literal s1
            [(0, []), (100, [79] ++ 75 :: [13, 10]), (200, [79] ++ 75 :: []),
              (300, [79] ++ 75 :: [13, 10])] = .ok d
          ∧ d.trace = fresh.trace ++ [Event.println (sample 65 1).command]
              ++ calls (sample 65 1).success { MatchStart := 0, MatchLength := 2 }
              ++ [Event.println (sample 66 2).command]
              ++ calls (sample 66 2).success { MatchStart := 2, MatchLength := 2 }
              ++ [Event.println (sample 67 3).command]
              ++ calls (sample 67 3).success { MatchStart := 0, MatchLength := 2 }
          ∧ getQueueLength d = 0 ∧ d.processing = false) :=
  enqueueChain_three literal fresh 0 0 100 200 300 Timing.ANY emptyCommand threeCommands
    (sample 65 1) (sample 66 2) (sample 67 3)
    [] [79] [13, 10] [79] [] [79] [13, 10] 75 75 75
    { MatchStart := 0, MatchLength := 2 } { MatchStart := 2, MatchLength := 2 }
    { MatchStart := 0, MatchLength := 2 }
    (freshWith [79, 75] 2) (freshWith [13, 10, 79, 75] 4) (freshWith [79, 75, 0, 75] 2)
    (freshWith [13, 10, 0, 75] 2)
    (by decide) (by decide) (by decide) (by decide) (by decide) (by decide) (by decide)
    (by decide) (by decide) (by decide) (by decide) (by decide) (by decide) (by decide)
    (by decide) (by decide) (by decide) (by decide) (by decide) (by decide) (by decide)
    (by decide) (by decide)
    (by
      intro k hk uk huk
      have hk0 : k = 0 := by simpa using hk
      subst hk0
      have he : receiveAll fresh ([] ++ List.take (0 + 1) [79]) = .ok (freshWith [79] 1) := by
        decide
      rw [he] at huk
      cases huk
      decide)
    (by decide) (by decide)
    (by
      intro k hk uk huk
      have hk0 : k = 0 := by simpa using hk
      subst hk0
      have he : receiveAll (compact (freshWith [79, 75] 2) { MatchStart := 0, MatchLength := 2 })
          ([13, 10] ++ List.take (0 + 1) [79]) = .ok (freshWith [13, 10, 79] 3) := by
        decide
      rw [he] at huk
      cases huk
      decide)
    (by decide) (by decide)
    (by
      intro k hk uk huk
      have hk0 : k = 0 := by simpa using hk
      subst hk0
      have he : receiveAll
          (compact (freshWith [13, 10, 79, 75] 4) { MatchStart := 2, MatchLength := 2 })
          ([] ++ List.take (0 + 1) [79]) = .ok (freshWith [79, 0, 79, 75] 1) := by
        decide
      rw [he] at huk
      cases huk
      decide)
    (by decide) (by decide) (by decide)

/-- C11, the code at a failing input.  `asyncExecuteChain` is called with
the array of the three commands `A`, `B`, `C` (zero delays) on a fresh
dispatcher, which is empty and idle.  The statements of the function enqueue
one command, the composite of the three, and then the control reaches the
end of the function, which is declared `bool`, without a `return`
statement: the call has undefined behaviour, and no poll follows a call
that returned. -/
theorem chain_of_three_no_return :
    asyncExecuteChain fresh 0 threeCommands 3 Timing.ANY emptyCommand
        = .error Fault.missingReturn
      ∧ (enqueueChain fresh 0 threeCommands 3 Timing.ANY emptyCommand).map queue
        = .ok [composite [sample 65 1, sample 66 2, sample 67 3]]
      ∧ (sample 65 1).delay = 0 ∧ (sample 66 2).delay = 0 ∧ (sample 67 3).delay = 0 := by
  decide

/-! ## The command in flight and the head of the queue -/

theorem shiftRight_frame (s s1 : AsyncDuplex) (h : shiftRight s = .ok s1) :
    s1.processing = s.processing ∧ s1.trace = s.trace ∧ s1.timeout = s.timeout
      ∧ s1.began = s.began ∧ s1.inputBuffer = s.inputBuffer ∧ s1.bufferPos = s.bufferPos := by
  unfold shiftRight at h
  split at h
  · cases h
  · cases h
    exact ⟨rfl, rfl, rfl, rfl, rfl, rfl⟩

theorem shiftLeft_frame (s s1 : AsyncDuplex) (h : shiftLeft s = .ok s1) :
    s1.processing = s.processing ∧ s1.trace = s.trace ∧ s1.timeout = s.timeout
      ∧ s1.began = s.began ∧ s1.inputBuffer = s.inputBuffer ∧ s1.bufferPos = s.bufferPos := by
  unfold shiftLeft at h
  split at h
  · cases h
  · cases h
    exact ⟨rfl, rfl, rfl, rfl, rfl, rfl⟩

/-- A call of `asyncExecute` that returns leaves the dispatch state, the
deadline, the trace and the scan buffer as they are; with `Timing::ANY` on a
queue that is not empty it leaves slot 0 as it is. -/
theorem asyncExecute_frame (s : AsyncDuplex) (millis : Nat) (cmd exp : List Nat)
    (timing : Timing) (su : Success) (fa : Option Nat) (tmo dly : Nat)
    (r : Bool × AsyncDuplex)
    (h : asyncExecute s millis cmd exp timing su fa tmo dly = .ok r) :
    r.2.processing = s.processing ∧ r.2.trace = s.trace ∧ r.2.timeout = s.timeout
      ∧ r.2.began = s.began ∧ r.2.inputBuffer = s.inputBuffer ∧ r.2.bufferPos = s.bufferPos
      ∧ (timing = Timing.ANY → 0 < s.queueLength →
          r.2.commandQueue[0]? = s.commandQueue[0]?) := by
  unfold asyncExecute at h
  cases timing with
  | ANY =>
    simp only [if_true] at h
    split at h
    · cases h
    · split at h
      · cases h
      · split at h
        · cases h
        · cases h
          refine ⟨rfl, rfl, rfl, rfl, rfl, rfl, ?_⟩
          intro _ hn
          simp only []
          rw [List.getElem?_set, if_neg (by omega)]
  | NEXT =>
    simp only [if_false, reduceCtorEq] at h
    cases hsr : shiftRight s with
    | error e => rw [hsr] at h; cases h
    | ok s1 =>
      rw [hsr] at h
      obtain ⟨a1, a2, a3, a4, a5, a6⟩ := shiftRight_frame s s1 hsr
      simp only [] at h
      split at h
      · cases h
      · split at h
        · cases h
        · split at h
          · cases h
          · cases h
            exact ⟨a1, a2, a3, a4, a5, a6, fun hc => by cases hc⟩

/-- A call `fn(ms)` that returns has recorded the calls of the callables of
the caller and left the dispatch state and the deadline as they are. -/
theorem invoke_frame (ms : MatchState) (millis : Nat) (fn : Success) :
    ∀ s s1 : AsyncDuplex, invoke fn ms millis s = .ok s1 →
      s1.processing = s.processing ∧ s1.trace = s.trace ++ calls fn ms
        ∧ s1.timeout = s.timeout ∧ s1.began = s.began := by
  induction fn with
  | null =>
    intro s s1 h
    cases h
    exact ⟨rfl, by simp [calls], rfl, rfl⟩
  | user id =>
    intro s s1 h
    cases h
    exact ⟨rfl, rfl, rfl, rfl⟩
  | chain orig cmd exp su fa tmo dly ih _ =>
    intro s s1 h
    rw [invoke, invoke_if_null] at h
    cases ho : invoke orig ms millis s with
    | error e => rw [ho] at h; cases h
    | ok s2 =>
      rw [ho] at h
      simp only [asyncExecuteCommand] at h
      obtain ⟨a1, a2, a3, a4⟩ := ih s s2 ho
      cases hx : asyncExecute s2 millis cmd exp Timing.NEXT su fa tmo defaultDelay with
      | error e => rw [hx] at h; cases h
      | ok r =>
        rw [hx] at h
        cases h
        obtain ⟨b1, b2, b3, b4, _⟩ := asyncExecute_frame s2 millis cmd exp Timing.NEXT su fa tmo
          defaultDelay r hx
        exact ⟨b1.trans a1, by rw [b2, a2]; rfl, b3.trans a3, b4.trans a4⟩

/-- The match branch of `loop`, when it returns: `processing` is cleared and
the calls are those of the `success` callable of the command in slot 0. -/
theorem matched_frame (s s1 : AsyncDuplex) (millis : Nat) (ms : MatchState)
    (h : matched s millis ms = .ok s1) :
    ∃ head, s.commandQueue[0]? = some head ∧ s1.processing = false
      ∧ s1.trace = s.trace ++ calls head.success ms ∧ s1.timeout = s.timeout
      ∧ s1.began = s.began := by
  unfold matched at h
  simp only [] at h
  cases hr : readSlot s.commandQueue 0 with
  | error e => rw [hr] at h; cases h
  | ok head =>
    rw [hr] at h
    simp only [] at h
    have hh : s.commandQueue[0]? = some head := by
      unfold readSlot at hr
      split at hr
      · rename_i c hc
        cases hr
        exact hc
      · cases hr
    cases hsl : shiftLeft { s with processing := false } with
    | error e => rw [hsl] at h; cases h
    | ok sp =>
      rw [hsl] at h
      simp only [] at h
      rw [invoke_if_null] at h
      obtain ⟨a1, a2, a3, a4, _⟩ := shiftLeft_frame _ sp hsl
      cases hi : invoke head.success ms millis sp with
      | error e => rw [hi] at h; cases h
      | ok si =>
        rw [hi] at h
        cases h
        obtain ⟨b1, b2, b3, b4⟩ := invoke_frame ms millis head.success sp si hi
        exact ⟨head, hh, b1.trans a1, by show si.trace = _; rw [b2, a2],
          b3.trans a3, b4.trans a4⟩

/-- The `while` loop of `loop`, when it returns: either no match was found
and only the scan buffer changed, or the dispatcher was in flight, is idle
now, and the calls are those of the `success` callable of the command that
was in slot 0, whose expectation the matcher found in the scan buffer. -/
theorem drain_frame (matcher : Matcher) (millis : Nat) (rx : List Nat) :
    ∀ s s1 : AsyncDuplex, drain matcher millis s rx = .ok s1 →
      (s1.processing = s.processing ∧ s1.commandQueue = s.commandQueue
          ∧ s1.queueLength = s.queueLength ∧ s1.trace = s.trace ∧ s1.timeout = s.timeout
          ∧ s1.began = s.began)
        ∨ (s.processing = true ∧ s1.processing = false ∧ s1.timeout = s.timeout
          ∧ s1.began = s.began
          ∧ ∃ head ms, s.commandQueue[0]? = some head
            ∧ (∃ text, matcher text head.expectation = some ms)
            ∧ s1.trace = s.trace ++ calls head.success ms) := by
  induction rx with
  | nil =>
    intro s s1 h
    cases h
    exact Or.inl ⟨rfl, rfl, rfl, rfl, rfl, rfl⟩
  | cons b rest ih =>
    intro s s1 h
    rw [drain] at h
    cases hr : receive s b with
    | error e => rw [hr] at h; cases h
    | ok sr =>
      rw [hr] at h
      simp only [] at h
      obtain ⟨a1, a2, a3, a4, a5, a6, _⟩ := receive_fields s sr b hr
      by_cases hp : sr.processing = true
      · rw [if_pos hp] at h
        cases hrs : readSlot sr.commandQueue 0 with
        | error e => rw [hrs] at h; cases h
        | ok head =>
          rw [hrs] at h
          simp only [] at h
          cases hm : matcher (cString sr.inputBuffer) head.expectation with
          | none =>
            rw [hm] at h
            simp only [] at h
            rcases ih sr s1 h with ⟨c1, c2, c3, c4, c5, c6⟩
              | ⟨c1, c2, c3, c4, hd, ms, c5, c7, c6⟩
            · exact Or.inl ⟨c1.trans a3, c2.trans a1, c3.trans a2, c4.trans a6, c5.trans a5,
                c6.trans a4⟩
            · exact Or.inr ⟨a3 ▸ c1, c2, c3.trans a5, c4.trans a4, hd, ms, a1 ▸ c5, c7,
                by rw [c6, a6]⟩
          | some ms =>
            rw [hm] at h
            simp only [] at h
            cases hmt : matched sr millis ms with
            | error e => rw [hmt] at h; cases h
            | ok s2 =>
              rw [hmt] at h
              simp only [] at h
              obtain ⟨hd, m1, m2, m3, m4, m5⟩ := matched_frame sr s2 millis ms hmt
              rw [drain_idle matcher millis rest s2 m2] at h
              obtain ⟨r1, r2, r3, r4, r5, r6, _⟩ := receiveAll_fields rest s2 s1 h
              have hhd : hd = head := by
                have := readSlot_of_getElem? m1
                rw [hrs] at this
                cases this
                rfl
              exact Or.inr ⟨a3 ▸ hp, r3.trans m2, (r5.trans m4).trans a5,
                (r4.trans m5).trans a4, hd, ms, a1 ▸ m1, ⟨_, hhd ▸ hm⟩,
                by rw [r6, m3, a6]⟩
      · rw [if_neg hp] at h
        rcases ih sr s1 h with ⟨c1, c2, c3, c4, c5, c6⟩ | ⟨c1, _⟩
        · exact Or.inl ⟨c1.trans a3, c2.trans a1, c3.trans a2, c4.trans a6, c5.trans a5,
            c6.trans a4⟩
        · exact absurd c1 hp

/-- The timeout branch of `loop`, when it returns: either it did not fire and
nothing changed, or the deadline had passed, the dispatcher is idle now, and
the call is that of the `failure` callable of the command that was in
slot 0. -/
theorem timeoutStep_frame (s s1 : AsyncDuplex) (millis : Nat)
    (h : timeoutStep s millis = .ok s1) :
    (s1 = s ∧ ¬ (s.processing = true ∧ s.timeout < millis))
      ∨ (s.processing = true ∧ s.timeout < millis ∧ s1.processing = false
        ∧ s1.timeout = s.timeout ∧ s1.began = s.began
        ∧ ∃ head, s.commandQueue[0]? = some head
          ∧ s1.trace = s.trace ++ failureEvents head.failure) := by
  unfold timeoutStep at h
  by_cases hc : s.processing = true ∧ s.timeout < millis
  · rw [if_pos hc] at h
    cases hr : readSlot s.commandQueue 0 with
    | error e => rw [hr] at h; cases h
    | ok head =>
      rw [hr] at h
      simp only [] at h
      have hh : s.commandQueue[0]? = some head := by
        unfold readSlot at hr
        split at hr
        · rename_i c hc
          cases hr
          exact hc
        · cases hr
      cases hf : head.failure with
      | none =>
        simp only [hf] at h
        cases hsl : shiftLeft s with
        | error e => simp only [hsl] at h; cases h
        | ok sp =>
          simp only [hsl] at h
          cases h
          obtain ⟨_, a2, a3, a4, _⟩ := shiftLeft_frame _ sp hsl
          exact Or.inr ⟨hc.1, hc.2, rfl, a3, a4, head, hh, by simp [hf, failureEvents, a2]⟩
      | some id =>
        simp only [hf] at h
        cases hsl : shiftLeft { s with trace := s.trace ++ [Event.failure id] } with
        | error e => simp only [hsl] at h; cases h
        | ok sp =>
          simp only [hsl] at h
          cases h
          obtain ⟨_, a2, a3, a4, _⟩ := shiftLeft_frame _ sp hsl
          exact Or.inr ⟨hc.1, hc.2, rfl, a3, a4, head, hh, by simp [hf, failureEvents, a2]⟩
  · rw [if_neg hc] at h
    cases h
    exact Or.inl ⟨rfl, hc⟩

/-- A call of `asyncExecute` with `Timing::ANY` that returns has written the
slot at `queueLength`, which is inside the array, and counted it. -/
theorem asyncExecute_ANY_length (s : AsyncDuplex) (millis : Nat) (cmd exp : List Nat)
    (su : Success) (fa : Option Nat) (tmo dly : Nat) (r : Bool × AsyncDuplex)
    (h : asyncExecute s millis cmd exp Timing.ANY su fa tmo dly = .ok r) :
    s.queueLength < s.commandQueue.length
      ∧ r.2.queueLength = (s.queueLength + 1) % UINT8
      ∧ r.2.commandQueue.length = s.commandQueue.length := by
  unfold asyncExecute at h
  simp only [if_true] at h
  split at h
  · cases h
  · rename_i hpos
    split at h
    · cases h
    · split at h
      · cases h
      · cases h
        refine ⟨by simpa using hpos, rfl, ?_⟩
        simp


/-- A call of `asyncExecute` with `Timing::NEXT` that returns has written the
new command to slot 0. -/
theorem asyncExecute_NEXT_slot (s : AsyncDuplex) (millis : Nat) (cmd exp : List Nat)
    (su : Success) (fa : Option Nat) (tmo dly : Nat) (r : Bool × AsyncDuplex)
    (h : asyncExecute s millis cmd exp Timing.NEXT su fa tmo dly = .ok r) :
    r.2.commandQueue[0]? = some (Command.mk cmd exp su fa tmo ((dly + millis) % UINT32)) := by
  unfold asyncExecute at h
  simp only [if_false, reduceCtorEq] at h
  cases hsr : shiftRight s with
  | error e => rw [hsr] at h; cases h
  | ok s1 =>
    rw [hsr] at h
    simp only [] at h
    split at h
    · cases h
    · rename_i hpos
      split at h
      · cases h
      · split at h
        · cases h
        · cases h
          have hpos1 : 0 < s1.commandQueue.length := Decidable.not_not.mp hpos
          simp only []
          rw [List.getElem?_set_self hpos1]

/-- A `loop` invocation that returns, on a dispatcher with `processing` set
and the command `head` in slot 0.  Either nothing is called and written, and
`head` is still in slot 0 with `processing` set and the same deadline; or
exactly `head` is resolved: its `failure` callable is called, and only when
the recorded deadline is before the current time, or its `success` callable
is called with a match that the matcher found for its expectation.  After
the resolution the invocation writes nothing and is idle, or it writes the
text of the command that is then in slot 0, which is in flight from the
current time on. -/
theorem loop_resolves_slot0 (matcher : Matcher) (s : AsyncDuplex) (head : Command)
    (hp : s.processing = true) (hh : s.commandQueue[0]? = some head)
    (millis : Nat) (rx : List Nat) (s1 : AsyncDuplex)
    (h : loop matcher s millis rx = .ok s1) :
    (s1.processing = true ∧ s1.commandQueue[0]? = some head ∧ s1.trace = s.trace
        ∧ s1.timeout = s.timeout ∧ s1.queueLength = s.queueLength)
      ∨ ∃ ev out, s1.trace = s.trace ++ ev ++ out
          ∧ ((ev = failureEvents head.failure ∧ s.timeout < millis)
            ∨ ∃ text ms, matcher text head.expectation = some ms
                ∧ ev = calls head.success ms)
          ∧ ((out = [] ∧ s1.processing = false)
            ∨ ∃ next, out = [Event.println next.command] ∧ InFlight s1 next millis
                ∧ 0 < s1.queueLength) := by
  have hstart : ∀ (s2 s1 : AsyncDuplex) (millis : Nat), s2.processing = false →
      startNext s2 millis = .ok s1 →
      ∃ out, s1.trace = s2.trace ++ out
        ∧ ((out = [] ∧ s1.processing = false)
          ∨ ∃ next, out = [Event.println next.command] ∧ InFlight s1 next millis
              ∧ 0 < s1.queueLength) := by
    intro s2 s1 millis hidle hs
    rcases startNext_frame s2 s1 millis hs with e | ⟨_, hq2, next, hn, _, e⟩
    · subst e
      exact ⟨[], by simp, Or.inl ⟨rfl, hidle⟩⟩
    · subst e
      exact ⟨[Event.println next.command], rfl,
        Or.inr ⟨next, rfl, ⟨rfl, hn, by simp, rfl⟩, hq2⟩⟩
  by_cases hbeg : s.began = false
  · unfold loop at h
    rw [if_pos hbeg] at h
    cases h
    exact Or.inl ⟨hp, hh, rfl, rfl, rfl⟩
  · have hbeg1 : s.began = true := by simpa using hbeg
    rw [loop_eq matcher s millis rx hbeg1] at h
    cases hts : timeoutStep s millis with
    | error e => rw [hts, bind_error] at h; cases h
    | ok sa =>
      rw [hts, bind_ok] at h
      cases hdr : drain matcher millis sa rx with
      | error e => rw [hdr, bind_error] at h; cases h
      | ok sb =>
        rw [hdr, bind_ok] at h
        rcases timeoutStep_frame s sa millis hts with ⟨e, _⟩
          | ⟨_, hlate, t1, _, _, hd, hhd, t4⟩
        · subst e
          rcases drain_frame matcher millis rx sa sb hdr with ⟨d1, d2, d3, d4, d5, _⟩
            | ⟨_, d2, _, _, hd, ms, hhd, hm, d6⟩
          · rcases startNext_frame sb s1 millis h with e | ⟨hidle, _⟩
            · subst e
              exact Or.inl ⟨d1.trans hp, by rw [d2]; exact hh, d4, d5, d3⟩
            · rw [d1, hp] at hidle
              cases hidle
          · have e : hd = head := by
              rw [hh] at hhd
              cases hhd
              rfl
            subst e
            obtain ⟨out, o1, o2⟩ := hstart sb s1 millis d2 h
            exact Or.inr ⟨calls hd.success ms, out, by rw [o1, d6],
              Or.inr (by obtain ⟨text, hm⟩ := hm; exact ⟨text, ms, hm, rfl⟩), o2⟩
        · have e : hd = head := by
            rw [hh] at hhd
            cases hhd
            rfl
          subst e
          rcases drain_frame matcher millis rx sa sb hdr with ⟨d1, _, _, d4, _, _⟩
            | ⟨d1, _⟩
          · obtain ⟨out, o1, o2⟩ := hstart sb s1 millis (d1.trans t1) h
            exact Or.inr ⟨failureEvents hd.failure, out, by rw [o1, d4, t4],
              Or.inl ⟨rfl, hlate⟩, o2⟩
          · rw [t1] at d1
            cases d1

/-- C18, amended.  While a command `head` is in flight (it is in slot 0, its
text is the last thing written, the deadline is its start time plus its own
timeout):

* an enqueue with `Timing::ANY` that returns leaves it in flight;
* a `loop` invocation that returns either leaves it in flight and calls
  nothing, or resolves exactly this command: it calls its `failure`
  callable, and only when the deadline is before the current time, or it
  calls its `success` callable with a match that the matcher found for its
  expectation; after the resolution the invocation writes nothing and is
  idle, or it writes the text of the command that is then in slot 0, which
  is in flight from the current time on;
* an enqueue with `Timing::NEXT` that returns has put the new command in
  slot 0, with `processing` still set, nothing written and the deadline of
  `head` kept; a `loop` invocation that follows it either calls nothing, or
  resolves the new command: it calls the `failure` callable of the new
  command, and only when the deadline of `head` is before the current time,
  or it calls the `success` callable of the new command with a match that
  the matcher found for the expectation of the new command. -/
theorem inflight_head_resolves (matcher : Matcher) (s : AsyncDuplex) (head : Command)
    (start : Nat) (hin : InFlight s head start) (hq : 0 < s.queueLength)
    (hlen : s.commandQueue.length = COMMAND_QUEUE_SIZE) :
    (∀ (millis : Nat) (cmd exp : List Nat) (su : Success) (fa : Option Nat) (tmo dly : Nat)
        (r : Bool × AsyncDuplex),
        asyncExecute s millis cmd exp Timing.ANY su fa tmo dly = .ok r →
        InFlight r.2 head start ∧ r.2.queueLength = s.queueLength + 1
          ∧ r.2.commandQueue.length = COMMAND_QUEUE_SIZE)
    ∧ (∀ (millis : Nat) (rx : List Nat) (s1 : AsyncDuplex),
        loop matcher s millis rx = .ok s1 →
        (InFlight s1 head start ∧ s1.trace = s.trace ∧ s1.queueLength = s.queueLength)
        ∨ ∃ ev out, s1.trace = s.trace ++ ev ++ out
            ∧ ((ev = failureEvents head.failure ∧ s.timeout < millis)
              ∨ ∃ text ms, matcher text head.expectation = some ms
                  ∧ ev = calls head.success ms)
            ∧ ((out = [] ∧ s1.processing = false)
              ∨ ∃ next, out = [Event.println next.command] ∧ InFlight s1 next millis
                  ∧ 0 < s1.queueLength))
    ∧ (∀ (millis : Nat) (cmd exp : List Nat) (su : Success) (fa : Option Nat) (tmo dly : Nat)
        (r : Bool × AsyncDuplex),
        asyncExecute s millis cmd exp Timing.NEXT su fa tmo dly = .ok r →
        r.2.commandQueue[0]? = some (Command.mk cmd exp su fa tmo ((dly + millis) % UINT32))
          ∧ r.2.processing = true ∧ r.2.trace = s.trace
          ∧ r.2.timeout = (start + head.timeout) % UINT32
          ∧ ∀ (now : Nat) (rx : List Nat) (s1 : AsyncDuplex),
              loop matcher r.2 now rx = .ok s1 →
              (s1.processing = true ∧ s1.trace = s.trace
                ∧ s1.commandQueue[0]?
                  = some (Command.mk cmd exp su fa tmo ((dly + millis) % UINT32))
                ∧ s1.timeout = (start + head.timeout) % UINT32)
              ∨ ∃ ev out, s1.trace = s.trace ++ ev ++ out
                  ∧ ((ev = failureEvents fa ∧ (start + head.timeout) % UINT32 < now)
                    ∨ ∃ text ms, matcher text exp = some ms ∧ ev = calls su ms)
                  ∧ ∀ e, e ∈ out → ∃ text, e = Event.println text) := by
  obtain ⟨hp, hh, hl, ht⟩ := hin
  refine ⟨?_, ?_, ?_⟩
  · intro millis cmd exp su fa tmo dly r h
    obtain ⟨a1, a2, a3, _, _, _, a7⟩ := asyncExecute_frame s millis cmd exp Timing.ANY su fa
      tmo dly r h
    obtain ⟨b1, b2, b3⟩ := asyncExecute_ANY_length s millis cmd exp su fa tmo dly r h
    refine ⟨⟨a1.trans hp, (a7 rfl hq).trans hh, by rw [a2]; exact hl, a3.trans ht⟩, ?_,
      b3.trans hlen⟩
    rw [b2]
    have : s.queueLength < COMMAND_QUEUE_SIZE := hlen ▸ b1
    simp only [COMMAND_QUEUE_SIZE] at this
    simp only [UINT8]
    omega
  · intro millis rx s1 h
    rcases loop_resolves_slot0 matcher s head hp hh millis rx s1 h with
      ⟨c1, c2, c3, c4, c5⟩ | h2
    · exact Or.inl ⟨⟨c1, c2, by rw [c3]; exact hl, c4.trans ht⟩, c3, c5⟩
    · exact Or.inr h2
  · intro millis cmd exp su fa tmo dly r h
    obtain ⟨a1, a2, a3, _, _, _, _⟩ := asyncExecute_frame s millis cmd exp Timing.NEXT su fa
      tmo dly r h
    have hslot := asyncExecute_NEXT_slot s millis cmd exp su fa tmo dly r h
    refine ⟨hslot, a1.trans hp, a2, a3.trans ht, ?_⟩
    intro now rx s1 h1
    rcases loop_resolves_slot0 matcher r.2 _ (a1.trans hp) hslot now rx s1 h1 with
      ⟨c1, c2, c3, c4, _⟩ | ⟨ev, out, e1, e2, e3⟩
    · exact Or.inl ⟨c1, c3.trans a2, c2, c4.trans (a3.trans ht)⟩
    · refine Or.inr ⟨ev, out, by rw [e1, a2], ?_, ?_⟩
      · rcases e2 with ⟨f1, f2⟩ | f
        · exact Or.inl ⟨f1, by rw [← ht, ← a3]; exact f2⟩
        · exact Or.inr f
      · rcases e3 with ⟨o1, _⟩ | ⟨next, o1, _⟩
        · intro e he
          rw [o1] at he
          cases he
        · intro e he
          rw [o1] at he
          simp only [List.mem_singleton] at he
          exact ⟨next.command, he⟩

set_option maxRecDepth 100000 in
/-- C18, counterexample.  The command `AT` (expectation `OK`, timeout
1000 ms, callables 1) is enqueued on a fresh dispatcher and started at
time 0.  At time 10, while it is in flight, a command with the text `N`, the
expectation `ER`, the timeout 5000 ms and the callables 2 is enqueued with
`Timing::NEXT`; nothing is transmitted.  When the bytes `ER` arrive at time
500, the `success` callable 2 is called; when instead nothing arrives until
time 1001, the `failure` callable 2 is called, one millisecond after the
deadline of `AT` and 4009 ms before time 10 plus its own timeout.  In both
runs the text written last before the call is `AT`; after the call the text
of the empty slot that the shift left in slot 0 is written. -/
theorem insert_next_replaces_in_flight :
    ((appendAll fresh 0 [cmdAT]).bind fun s =>
      (loop literal s 0 []).bind fun s1 =>
        (asyncExecute s1 10 [78] [69, 82] Timing.NEXT (Success.user 2) (some 2) 5000 0).bind
          fun r =>
            (loop literal r.2 500 [69, 82]).bind fun s2 =>
              (loop literal r.2 1001 []).map fun s3 =>
                (r.2.trace, r.2.timeout, s2.trace, s3.trace))
      = .ok ([Event.println [65, 84]], 1000,
          [Event.println [65, 84], Event.success 2 { MatchStart := 0, MatchLength := 2 },
            Event.println []],
          [Event.println [65, 84], Event.failure 2, Event.println []]) := by
  decide

set_option maxRecDepth 100000 in
/-- C18, amended, at a concrete input: the command `AT` in flight since
time 0.  A second command enqueued with `Timing::ANY` at time 10 leaves it
in flight; the bytes `OK` in the invocation at time 500 resolve it.  The
command `N` (expectation `ER`, callables 2) enqueued with `Timing::NEXT` at
time 10 is in slot 0 afterwards, and the bytes `ER` in the invocation at
time 500 call its `success` callable. -/
theorem inflight_head_resolves_witness :
    (InFlight atInFlight cmdAT 0 ∧ 0 < atInFlight.queueLength
      ∧ atInFlight.commandQueue.length = COMMAND_QUEUE_SIZE)
    ∧ (InFlight
          { atInFlight with
            commandQueue := atInFlight.commandQueue.set 1
              (Command.mk [78] [69, 82] (Success.user 2) (some 2) 5000 10),
            queueLength := 2 } cmdAT 0)
    ∧ (∃ ev out,
        [Event.println [65, 84], Event.success 1 { MatchStart := 0, MatchLength := 2 }]
            = atInFlight.trace ++ ev ++ out
          ∧ ((ev = failureEvents cmdAT.failure ∧ atInFlight.timeout < 500)
            ∨ ∃ text ms, literal text cmdAT.expectation = some ms
                ∧ ev = calls cmdAT.success ms)
          ∧ (out = [] ∨ ∃ next : Command, out = [Event.println next.command]))
    ∧ (({ atInFlight with
            commandQueue := atInFlight.commandQueue.set 0
              (Command.mk [78] [69, 82] (Success.user 2) (some 2) 5000 10),
            queueLength := 2 } : AsyncDuplex).commandQueue[0]?
          = some (Command.mk [78] [69, 82] (Success.user 2) (some 2) 5000 ((0 + 10) % UINT32))
      ∧ ∃ ev out,
        [Event.println [65, 84], Event.success 2 { MatchStart := 0, MatchLength := 2 },
            Event.println []] = atInFlight.trace ++ ev ++ out
          ∧ ((ev = failureEvents (some 2) ∧ (0 + cmdAT.timeout) % UINT32 < 500)
            ∨ ∃ text ms, literal text [69, 82] = some ms
                ∧ ev = calls (Success.user 2) ms)
          ∧ ∀ e, e ∈ out → ∃ text, e = Event.println text) :=
  have hin : InFlight atInFlight cmdAT 0 := ⟨by decide, by decide, by decide, by decide⟩
  have happ := (inflight_head_resolves literal atInFlight cmdAT 0 hin (by decide)
    (by decide)).1 10 [78] [69, 82] (Success.user 2) (some 2) 5000 0
    (true, { atInFlight with
      commandQueue := atInFlight.commandQueue.set 1
        (Command.mk [78] [69, 82] (Success.user 2) (some 2) 5000 10),
      queueLength := 2 }) (by decide)
  have hloop := (inflight_head_resolves literal atInFlight cmdAT 0 hin (by decide)
    (by decide)).2.1 500 [79, 75]
    { atInFlight with
      queueLength := 0, processing := false,
      inputBuffer := [0, 75] ++ List.replicate 510 0, bufferPos := 0,
      trace := [Event.println [65, 84],
        Event.success 1 { MatchStart := 0, MatchLength := 2 }] } (by decide)
  have hnext := (inflight_head_resolves literal atInFlight cmdAT 0 hin (by decide)
    (by decide)).2.2 10 [78] [69, 82] (Success.user 2) (some 2) 5000 0
    (true, { atInFlight with
      commandQueue := atInFlight.commandQueue.set 0
        (Command.mk [78] [69, 82] (Success.user 2) (some 2) 5000 10),
      queueLength := 2 }) (by decide)
  have hnextloop := hnext.2.2.2.2 500 [69, 82]
    { atInFlight with
      commandQueue := fresh.commandQueue, queueLength := 1, processing := true,
      timeout := 500,
      inputBuffer := [0, 82] ++ List.replicate 510 0, bufferPos := 0,
      trace := [Event.println [65, 84],
        Event.success 2 { MatchStart := 0, MatchLength := 2 }, Event.println []] }
    (by decide)
  ⟨⟨hin, by decide, by decide⟩, happ.1,
    hloop.elim (fun h => absurd h.1.1 (by decide))
      (fun ⟨ev, out, h1, h2, h3⟩ => ⟨ev, out, h1, h2,
        h3.elim (fun h => Or.inl h.1) (fun ⟨next, h, _⟩ => Or.inr ⟨next, h⟩)⟩),
    hnext.1,
    hnextloop.elim (fun h => absurd h.2.1 (by decide)) (fun h => h)⟩

end AsyncDuplex
